import Mathlib

/-!
RelayForge: the workflow service, embedded.

A shallow embedding of `internal/workflow/service.go` together with the record
types of `internal/models/models.go` and `pkg/types/types.go`.

The database behind `gorm.DB` is a collaborator outside the service.  It is modelled as
a value of type `Store`: one list of rows per table (in insertion order), one
id sequence per table, a counter of the write statements issued so far, and a
journal of the acknowledged writes.  What the database and the YAML decoder
may answer is left open through `Env`.
-/

namespace RelayForge

/-! ## pkg/types/types.go -/

/-- StepSpec of `pkg/types`: one step of a job in the YAML document. -/
structure StepSpec where
  Name : String := ""
  Uses : String := ""
  Run : String := ""
  With : List (String × String) := []
  Env : List (String × String) := []
  If : String := ""
  Continue : Bool := false
  Timeout : String := ""
  WorkingDir : String := ""
  deriving DecidableEq, Repr

/-- JobSpec of `pkg/types`: one job of the workflow document. -/
structure JobSpec where
  Name : String := ""
  RunsOn : String := ""
  Needs : List String := []
  If : String := ""
  Steps : List StepSpec := []
  Env : List (String × String) := []
  Timeout : String := ""
  deriving DecidableEq, Repr

/-- WorkflowSpec of `pkg/types`.  The Go map `Jobs` is the list of its entries
in the order in which a `range` over the map visits them (an order Go does not
fix; the theorems quantify over it).  The untyped `On` field is left out. -/
structure WorkflowSpec where
  Name : String := ""
  Description : String := ""
  Jobs : List (String × JobSpec) := []
  deriving DecidableEq, Repr

/-- LogEntry of `pkg/types`: what `streamLogs` writes to the consumer.  The
formatted time stamp is represented by the time it formats. -/
structure LogEntry where
  RunID : Nat := 0
  JobID : Nat := 0
  StepID : Nat := 0
  Content : String := ""
  Level : String := ""
  Timestamp : Nat := 0
  deriving DecidableEq, Repr

/-- RunnerRegistration of `pkg/types`: the body of a registration request. -/
structure RunnerRegistration where
  Name : String := ""
  Version : String := ""
  Tags : List String := []
  deriving DecidableEq, Repr

/-- JobAssignment of `pkg/types`. -/
structure JobAssignment where
  JobID : Nat := 0
  RunID : Nat := 0
  JobSpec : RelayForge.JobSpec := { }
  Workflow : WorkflowSpec := { }
  deriving DecidableEq, Repr

/-- JobResult of `pkg/types`. -/
structure JobResult where
  JobID : Nat := 0
  Status : String := ""
  Error : String := ""
  StartedAt : String := ""
  FinishedAt : String := ""
  deriving DecidableEq, Repr

/-- StepResult of `pkg/types`. -/
structure StepResult where
  StepID : Nat := 0
  Status : String := ""
  ExitCode : Int := 0
  Output : String := ""
  Error : String := ""
  StartedAt : String := ""
  FinishedAt : String := ""
  deriving DecidableEq, Repr

/-! ## internal/models/models.go

Times are natural numbers, a nil `*time.Time` is `none`.  The bookkeeping
columns `CreatedAt` and `UpdatedAt` and the belongs-to associations are left
out; the has-many associations filled by `Preload` are kept. -/

/-- Log row. -/
structure Log where
  ID : Nat := 0
  StepID : Nat := 0
  Content : String := ""
  Level : String := ""
  Timestamp : Nat := 0
  deriving DecidableEq, Repr

/-- Step row; `Logs` is filled by `Preload` only. -/
structure Step where
  ID : Nat := 0
  JobID : Nat := 0
  Name : String := ""
  Command : String := ""
  Status : String := ""
  StartedAt : Option Nat := none
  FinishedAt : Option Nat := none
  Logs : List Log := []
  deriving DecidableEq, Repr

/-- Job row; `Steps` is filled by `Preload` only. -/
structure Job where
  ID : Nat := 0
  RunID : Nat := 0
  Name : String := ""
  Status : String := ""
  RunnerID : String := ""
  StartedAt : Option Nat := none
  FinishedAt : Option Nat := none
  Steps : List Step := []
  deriving DecidableEq, Repr

/-- Run row; `Jobs` is filled by `Preload` only. -/
structure Run where
  ID : Nat := 0
  WorkflowID : Nat := 0
  UserID : Nat := 0
  Status : String := ""
  StartedAt : Option Nat := none
  FinishedAt : Option Nat := none
  Jobs : List Job := []
  deriving DecidableEq, Repr

/-- User row. -/
structure User where
  ID : Nat := 0
  GitHubID : Int := 0
  Username : String := ""
  Email : String := ""
  AvatarURL : String := ""
  AccessToken : String := ""
  deriving DecidableEq, Repr

/-- Workflow row. -/
structure Workflow where
  ID : Nat := 0
  UserID : Nat := 0
  Name : String := ""
  Description : String := ""
  YAMLContent : String := ""
  IsActive : Bool := true
  deriving DecidableEq, Repr

/-- Runner row: `Tags` is documented as a JSON array of tags; the key is a
string chosen by the server. -/
structure Runner where
  ID : String := ""
  Name : String := ""
  Status : String := ""
  LastSeen : Nat := 0
  Version : String := ""
  Tags : String := ""
  deriving DecidableEq, Repr

/-! ## The database -/

/-- One acknowledged write, as recorded in the journal of the store: the
table, the primary key of the row and, for the three status-carrying tables,
the status written. -/
inductive Event where
  | workflow (id : Nat)
  | run (id : Nat) (status : String)
  | job (id : Nat) (status : String)
  | step (id : Nat) (status : String)
  | log (id : Nat) (stepID : Nat)
  | runner (id : String)
  deriving DecidableEq, Repr

/-- The database.  `ops` counts the statements issued that the database may
reject (acknowledged or not): the write statements and the reload that ends
`CreateRun`; the `…Seq` fields are the last value drawn from each id sequence;
`journal` lists the acknowledged writes, oldest first. -/
structure Store where
  workflows : List Workflow := []
  runs : List Run := []
  jobs : List Job := []
  steps : List Step := []
  logs : List Log := []
  runners : List Runner := []
  workflowSeq : Nat := 0
  runSeq : Nat := 0
  jobSeq : Nat := 0
  stepSeq : Nat := 0
  logSeq : Nat := 0
  ops : Nat := 0
  journal : List Event := []
  deriving DecidableEq, Repr

/-- What the service cannot control: the YAML decoder (`yaml.Unmarshal` into a
`types.WorkflowSpec`), which statements the database rejects (by their
position in the sequence of the statements counted by `ops`; a key in use is
one of the reasons for rejecting a create), and the clock (`time.Now`, read
right before a write statement and indexed by that statement). -/
structure Env where
  unmarshal : String → Except String WorkflowSpec
  fails : Nat → Bool
  now : Nat → Nat

/-- The error gorm reports when `First` finds no row. -/
def errRecordNotFound : String := "record not found"

/-- The error of a write statement the database rejects. -/
def errDatabase : String := "database error"

namespace Store

/-- The store after a rejected statement: only the statement counter moves. -/
def rejected (s : Store) : Store := { s with ops := s.ops + 1 }

/-- `db.Create(workflow)`.  The column `is_active` is declared with
`default:true`: gorm leaves a false (zero) value out of the statement, so the
row is stored active whatever the value passed. -/
def createWorkflow (env : Env) (s : Store) (w : Workflow) : Store × Except String Workflow :=
  if env.fails s.ops then (s.rejected, .error errDatabase)
  else
    let w0 : Workflow := { w with IsActive := true }
    let w1 : Workflow := if w.ID = 0 then { w0 with ID := s.workflowSeq + 1 } else w0
    ({ s with workflows := s.workflows ++ [w1],
              workflowSeq := if w.ID = 0 then s.workflowSeq + 1 else s.workflowSeq,
              ops := s.ops + 1,
              journal := s.journal ++ [Event.workflow w1.ID] }, .ok w1)

/-- `db.Create(run)`: the row gets the next id of the sequence when its id is
zero; associations are not part of the row. -/
def createRun (env : Env) (s : Store) (r : Run) : Store × Except String Run :=
  if env.fails s.ops then (s.rejected, .error errDatabase)
  else
    let r1 : Run := if r.ID = 0 then { r with ID := s.runSeq + 1 } else r
    ({ s with runs := s.runs ++ [{ r1 with Jobs := [] }],
              runSeq := if r.ID = 0 then s.runSeq + 1 else s.runSeq,
              ops := s.ops + 1,
              journal := s.journal ++ [Event.run r1.ID r1.Status] }, .ok r1)

/-- `db.Create(job)`. -/
def createJob (env : Env) (s : Store) (j : Job) : Store × Except String Job :=
  if env.fails s.ops then (s.rejected, .error errDatabase)
  else
    let j1 : Job := if j.ID = 0 then { j with ID := s.jobSeq + 1 } else j
    ({ s with jobs := s.jobs ++ [{ j1 with Steps := [] }],
              jobSeq := if j.ID = 0 then s.jobSeq + 1 else s.jobSeq,
              ops := s.ops + 1,
              journal := s.journal ++ [Event.job j1.ID j1.Status] }, .ok j1)

/-- `db.Create(step)`. -/
def createStep (env : Env) (s : Store) (st : Step) : Store × Except String Step :=
  if env.fails s.ops then (s.rejected, .error errDatabase)
  else
    let st1 : Step := if st.ID = 0 then { st with ID := s.stepSeq + 1 } else st
    ({ s with steps := s.steps ++ [{ st1 with Logs := [] }],
              stepSeq := if st.ID = 0 then s.stepSeq + 1 else s.stepSeq,
              ops := s.ops + 1,
              journal := s.journal ++ [Event.step st1.ID st1.Status] }, .ok st1)

/-- `db.Create(log)`. -/
def createLog (env : Env) (s : Store) (l : Log) : Store × Except String Log :=
  if env.fails s.ops then (s.rejected, .error errDatabase)
  else
    let l1 : Log := if l.ID = 0 then { l with ID := s.logSeq + 1 } else l
    ({ s with logs := s.logs ++ [l1],
              logSeq := if l.ID = 0 then s.logSeq + 1 else s.logSeq,
              ops := s.ops + 1,
              journal := s.journal ++ [Event.log l1.ID l1.StepID] }, .ok l1)

/-- `db.Create(runner)`: the key is given by the caller, and a second row under
a key in use is rejected. -/
def createRunner (env : Env) (s : Store) (r : Runner) : Store × Except String Runner :=
  if env.fails s.ops then (s.rejected, .error errDatabase)
  else if s.runners.any (fun x => x.ID == r.ID) then
    (s.rejected, .error "duplicate key value violates unique constraint")
  else
    ({ s with runners := s.runners ++ [r], ops := s.ops + 1,
              journal := s.journal ++ [Event.runner r.ID] }, .ok r)

/-- `db.Save(&run)` for a run with a primary key: every column of the row with
that key is overwritten (the row is inserted when there is none); a run
without a key is created.  Associated rows that exist are left as they are. -/
def saveRun (env : Env) (s : Store) (r : Run) : Store × Except String Run :=
  if r.ID = 0 then s.createRun env r
  else if env.fails s.ops then (s.rejected, .error errDatabase)
  else
    let row : Run := { r with Jobs := [] }
    ({ s with runs := if s.runs.any (fun x => x.ID == r.ID)
                      then s.runs.map (fun x => if x.ID == r.ID then row else x)
                      else s.runs ++ [row],
              ops := s.ops + 1,
              journal := s.journal ++ [Event.run r.ID r.Status] }, .ok r)

/-- `db.Save(&job)`, as `saveRun`. -/
def saveJob (env : Env) (s : Store) (j : Job) : Store × Except String Job :=
  if j.ID = 0 then s.createJob env j
  else if env.fails s.ops then (s.rejected, .error errDatabase)
  else
    let row : Job := { j with Steps := [] }
    ({ s with jobs := if s.jobs.any (fun x => x.ID == j.ID)
                      then s.jobs.map (fun x => if x.ID == j.ID then row else x)
                      else s.jobs ++ [row],
              ops := s.ops + 1,
              journal := s.journal ++ [Event.job j.ID j.Status] }, .ok j)

/-- `db.Save(&step)`, as `saveRun`. -/
def saveStep (env : Env) (s : Store) (st : Step) : Store × Except String Step :=
  if st.ID = 0 then s.createStep env st
  else if env.fails s.ops then (s.rejected, .error errDatabase)
  else
    let row : Step := { st with Logs := [] }
    ({ s with steps := if s.steps.any (fun x => x.ID == st.ID)
                       then s.steps.map (fun x => if x.ID == st.ID then row else x)
                       else s.steps ++ [row],
              ops := s.ops + 1,
              journal := s.journal ++ [Event.step st.ID st.Status] }, .ok st)

/-- `db.Where("id = ? AND user_id = ?", id, userID).First(&workflow)`. -/
def firstWorkflow (s : Store) (id userID : Nat) : Option Workflow :=
  s.workflows.find? (fun w => w.ID == id && w.UserID == userID)

/-- `db.Where("id = ? AND user_id = ?", id, userID).First(&run)`. -/
def firstRun (s : Store) (id userID : Nat) : Option Run :=
  s.runs.find? (fun r => r.ID == id && r.UserID == userID)

/-- The steps of a job, as `Preload("Steps")` loads them. -/
def stepsOf (s : Store) (jobID : Nat) : List Step :=
  s.steps.filter (fun st => st.JobID == jobID)

/-- The logs of a step, as `Preload("Logs")` loads them. -/
def logsOf (s : Store) (stepID : Nat) : List Log :=
  s.logs.filter (fun l => l.StepID == stepID)

/-- `db.Where("run_id = ?", runID).Preload("Steps").Find(&jobs)`. -/
def findJobs (s : Store) (runID : Nat) : List Job :=
  (s.jobs.filter (fun j => j.RunID == runID)).map
    (fun j => { j with Steps := s.stepsOf j.ID })

/-- The row `db.Preload("Jobs.Steps").First(run, id)` finds, with its jobs and
their steps. -/
def firstRunPreload (s : Store) (id : Nat) : Option Run :=
  (s.runs.find? (fun r => r.ID == id)).map
    (fun r => { r with Jobs := s.findJobs r.ID })

/-- `db.Preload("Jobs.Steps").First(run, id)` as a statement the database may
reject: the tables are not touched by it. -/
def reloadRun (env : Env) (s : Store) (id : Nat) : Store × Except String Run :=
  if env.fails s.ops then (s.rejected, .error errDatabase)
  else
    match s.firstRunPreload id with
    | none => (s.rejected, .error errRecordNotFound)
    | some run => ({ s with ops := s.ops + 1 }, .ok run)

end Store

/-! ## internal/workflow/service.go -/

namespace workflow

/-- `Service.CreateWorkflow`: the document is decoded, the result is thrown
away, and the workflow is stored. -/
def CreateWorkflow (env : Env) (wf : Workflow) (s : Store) : Store × Except String Unit :=
  match env.unmarshal wf.YAMLContent with
  | .error e => (s, .error ("invalid YAML content: " ++ e))
  | .ok _ =>
    match s.createWorkflow env wf with
    | (s1, .error e) => (s1, .error e)
    | (s1, .ok _) => (s1, .ok ())

/-- The name `CreateRun` gives the step at 0-based position `i`. -/
def stepName (i : Nat) (stepSpec : StepSpec) : String :=
  if stepSpec.Name = "" then "Step " ++ toString (i + 1) else stepSpec.Name

/-- The inner loop of `CreateRun` (`for i, stepSpec := range jobSpec.Steps`),
from position `i` on. -/
def createSteps (env : Env) (jobID : Nat) : List StepSpec → Nat → Store → Store × Except String Unit
  | [], _, s => (s, .ok ())
  | stepSpec :: rest, i, s =>
    let step : Step :=
      { JobID := jobID, Name := stepName i stepSpec, Command := stepSpec.Run, Status := "pending" }
    match s.createStep env step with
    | (s1, .error e) => (s1, .error e)
    | (s1, .ok _) => createSteps env jobID rest (i + 1) s1

/-- The outer loop of `CreateRun` (`for jobName, jobSpec := range spec.Jobs`). -/
def createJobs (env : Env) (runID : Nat) : List (String × JobSpec) → Store → Store × Except String Unit
  | [], s => (s, .ok ())
  | (jobName, jobSpec) :: rest, s =>
    let job : Job := { RunID := runID, Name := jobName, Status := "pending" }
    match s.createJob env job with
    | (s1, .error e) => (s1, .error e)
    | (s1, .ok job1) =>
      match createSteps env job1.ID jobSpec.Steps 0 s1 with
      | (s2, .error e) => (s2, .error e)
      | (s2, .ok _) => createJobs env runID rest s2

/-- `Service.CreateRun`.  The result is the store after the call and what the
call returns; the run it returns is the one handed to `go s.executeRun(run)`.
The look-up of the workflow comes before every write, so that an error there,
here the one of a workflow that is not found, leaves the store as it is; the
reload that follows the creates is a statement the database may reject like
the creates. -/
def CreateRun (env : Env) (workflowID userID : Nat) (_inputs : List (String × String))
    (s : Store) : Store × Except String Run :=
  match s.firstWorkflow workflowID userID with
  | none => (s, .error errRecordNotFound)
  | some wf =>
    if !wf.IsActive then (s, .error "workflow is not active")
    else
      match env.unmarshal wf.YAMLContent with
      | .error e => (s, .error ("invalid workflow YAML: " ++ e))
      | .ok spec =>
        let run : Run := { WorkflowID := workflowID, UserID := userID, Status := "pending" }
        match s.createRun env run with
        | (s1, .error e) => (s1, .error e)
        | (s1, .ok run1) =>
          match createJobs env run1.ID spec.Jobs s1 with
          | (s2, .error e) => (s2, .error e)
          | (s2, .ok _) => s2.reloadRun env run1.ID

/-- `Service.GetRun`: the run of the caller with its jobs, their steps and
the logs of the steps (`Preload("Jobs.Steps.Logs")`). -/
def GetRun (id userID : Nat) (s : Store) : Except String Run :=
  match s.firstRun id userID with
  | none => .error errRecordNotFound
  | some run =>
    .ok { run with
      Jobs := (s.findJobs run.ID).map (fun j =>
        { j with Steps := j.Steps.map (fun st => { st with Logs := s.logsOf st.ID }) }) }

/-- `Service.CancelRun`. -/
def CancelRun (env : Env) (id userID : Nat) (s : Store) : Store × Except String Unit :=
  match s.firstRun id userID with
  | none => (s, .error errRecordNotFound)
  | some run =>
    if run.Status = "running" ∨ run.Status = "pending" then
      let run1 : Run := { run with Status := "cancelled", FinishedAt := some (env.now s.ops) }
      match s.saveRun env run1 with
      | (s1, .error e) => (s1, .error e)
      | (s1, .ok _) => (s1, .ok ())
    else (s, .error ("run cannot be cancelled in current status: " ++ run.Status))

/-- What a `Save` leaves in the variable it was given: the record as written
(a record without a key gets its key), or the old value when the statement
failed. -/
def written {α : Type} (res : Except String α) (old : α) : α :=
  match res with
  | .ok a => a
  | .error _ => old

/-- The body of the step loop of `executeRun`, for one step.  The errors of
the four write statements are dropped, as in the source. -/
def executeRunStep (env : Env) (s : Store) (step : Step) : Store :=
  let step1 : Step := { step with Status := "running", StartedAt := some (env.now s.ops) }
  let w1 := s.saveStep env step1
  let step2 := written w1.2 step1
  let log : Log := { StepID := step2.ID, Content := "Executing: " ++ step2.Command, Level := "info" }
  let w2 := w1.1.createLog env log
  let step3 : Step := { step2 with Status := "success", FinishedAt := some (env.now w2.1.ops) }
  let w3 := w2.1.saveStep env step3
  let step4 := written w3.2 step3
  let completionLog : Log :=
    { StepID := step4.ID, Content := "Step completed successfully", Level := "info" }
  (w3.1.createLog env completionLog).1

/-- The body of the job loop of `executeRun`, for one job: the state carried
round the loop is the store and `runSuccess`. -/
def executeRunJob (env : Env) (acc : Store × Bool) (job : Job) : Store × Bool :=
  let s := acc.1
  let runSuccess := acc.2
  let job1 : Job := { job with Status := "running", StartedAt := some (env.now s.ops) }
  let w1 := s.saveJob env job1
  let job2 := written w1.2 job1
  let jobSuccess := true
  let s2 := job2.Steps.foldl (executeRunStep env) w1.1
  let job3 : Job := { job2 with Status := if jobSuccess then "success" else "failed" }
  let runSuccess1 := if jobSuccess then runSuccess else false
  let job4 : Job := { job3 with FinishedAt := some (env.now s2.ops) }
  ((s2.saveJob env job4).1, runSuccess1)

/-- `Service.executeRun`, run without interruption on the run value it was
started with; the two-second sleep has no effect on the store. -/
def executeRun (env : Env) (run : Run) (s : Store) : Store :=
  let run1 : Run := { run with Status := "running", StartedAt := some (env.now s.ops) }
  let w1 := s.saveRun env run1
  let run2 := written w1.2 run1
  let jobs := w1.1.findJobs run2.ID
  let acc := jobs.foldl (executeRunJob env) (w1.1, true)
  let run3 : Run := { run2 with Status := if acc.2 then "success" else "failed",
                                FinishedAt := some (env.now acc.1.ops) }
  (acc.1.saveRun env run3).1

end workflow

open workflow

/-! ## cmd/runner/main.go -/

namespace runner

/-- The command `executeStep` prepares: `exec.Command("sh", "-c", step.Run)`
with its working directory and environment. -/
structure Cmd where
  Name : String := ""
  Args : List String := []
  Dir : String := ""
  Env : List String := []
  deriving DecidableEq, Repr

/-- The error `cmd.Run()` may return: an `*exec.ExitError` with the exit code
of the process, or any other error (the command could not be started, its
output could not be copied). -/
inductive RunError where
  | exit (code : Int) (message : String)
  | other (message : String)
  deriving DecidableEq, Repr

/-- The text of the error (`err.Error()`). -/
def RunError.message : RunError → String
  | .exit _ message => message
  | .other message => message

/-- What running a command gives: the captured output streams and the error
of `cmd.Run()`, `none` for nil. -/
structure Outcome where
  stdout : String := ""
  stderr : String := ""
  err : Option RunError := none
  deriving DecidableEq, Repr

/-- The machine the runner works on: the environment of the runner process
(`os.Environ()`), what running a command for the step with a given id gives,
and the formatted readings of the clock. -/
structure Host where
  environ : List String
  run : Nat → Cmd → Outcome
  now : Nat → String

/-- What the runner does that can be observed from outside, in order: the
lines it logs, the commands it runs, and the step and job results it
reports. -/
inductive Effect where
  | log (line : String)
  | run (stepID : Nat) (cmd : Cmd)
  | stepResult (result : StepResult)
  | jobResult (result : JobResult)
  deriving DecidableEq, Repr

/-- The command of a step as `executeStep` sets it up: the environment is that
of the runner process followed by one `key=value` entry per variable of the
step, in the order in which the `range` visits the map. -/
def command (host : Host) (step : StepSpec) : Cmd :=
  { Name := "sh", Args := ["-c", step.Run],
    Dir := if step.WorkingDir ≠ "" then step.WorkingDir else "",
    Env := step.Env.foldl (fun env kv => env ++ [kv.1 ++ "=" ++ kv.2]) host.environ }

/-- `Runner.executeStep`: the effects of the call and the error it returns. -/
def executeStep (host : Host) (_jobID stepID : Nat) (step : StepSpec) :
    List Effect × Option String :=
  if step.Run = "" then
    ([Effect.log ("Executing step: " ++ step.Name)], some "no command specified for step")
  else
    let cmd := command host step
    let started : StepResult :=
      { StepID := stepID, Status := "running", StartedAt := host.now (2 * stepID) }
    let outcome := host.run stepID cmd
    let result : StepResult :=
      { StepID := stepID, Output := outcome.stdout, FinishedAt := host.now (2 * stepID + 1) }
    let result1 : StepResult :=
      match outcome.err with
      | some err =>
        { result with
          Status := "failed", Error := outcome.stderr,
          ExitCode := match err with
            | .exit code _ => code
            | .other _ => 1 }
      | none => { result with Status := "success", ExitCode := 0 }
    ([Effect.log ("Executing step: " ++ step.Name), Effect.stepResult started,
      Effect.run stepID cmd, Effect.stepResult result1],
     outcome.err.map RunError.message)

/-- The step loop of `executeJob` from position `i` on: the effects of the
steps it executes and the error that ended it, if one did. -/
def executeSteps (host : Host) (jobID : Nat) : List StepSpec → Nat → List Effect × Option String
  | [], _ => ([], none)
  | step :: rest, i =>
    match executeStep host jobID (i + 1) step with
    | (effects, some err) => (effects, some err)
    | (effects, none) =>
      let r := executeSteps host jobID rest (i + 1)
      (effects ++ r.1, r.2)

/-- `Runner.executeJob`. -/
def executeJob (host : Host) (assignment : JobAssignment) : List Effect :=
  let jobSpec := assignment.JobSpec
  let header := Effect.log
    ("Executing job " ++ toString assignment.JobID ++ " for run " ++ toString assignment.RunID)
  match executeSteps host assignment.JobID jobSpec.Steps 0 with
  | (effects, some err) =>
    header :: effects ++
      [Effect.log ("Step failed: " ++ err),
       Effect.jobResult { JobID := assignment.JobID, Status := "failed", Error := err }]
  | (effects, none) =>
    header :: effects ++
      [Effect.jobResult { JobID := assignment.JobID, Status := "success" }]

end runner

/-! ## internal/api/server.go -/

namespace api

/-- What a handler answers: the status code and either an error message or
the runner it stored. -/
inductive Reply where
  | error (code : Nat) (message : String)
  | runner (code : Nat) (r : Runner)
  deriving DecidableEq, Repr

/-- `Server.registerRunner`, given what `ShouldBindJSON` made of the request
body. -/
def registerRunner (env : Env) (bound : Except String RunnerRegistration) (s : Store) :
    Store × Reply :=
  match bound with
  | .error e => (s, Reply.error 400 e)
  | .ok req =>
    let runner : Runner :=
      { ID := "runner-" ++ toString (env.now s.ops), Name := req.Name, Version := req.Version,
        Status := "online" }
    match s.createRunner env runner with
    | (s1, .error e) => (s1, Reply.error 500 e)
    | (s1, .ok r) => (s1, Reply.runner 201 r)

/-- What `streamLogs` cannot control: whether the upgrade to a WebSocket
succeeds, which of its queries fail (by the number of the tick) and which of
its writes to the connection fail (by the number of the write). -/
structure Wire where
  upgradeFails : Bool
  queryFails : Nat → Bool
  writeFails : Nat → Bool

/-- The rows of the query of `streamLogs` before ordering: the logs joined
with their step and its job, for the jobs of the run. -/
def runLogs (s : Store) (runID : Nat) : List Log :=
  s.logs.flatMap (fun l =>
    (s.steps.filter (fun st => st.ID == l.StepID)).flatMap (fun st =>
      (s.jobs.filter (fun j => j.ID == st.JobID && j.RunID == runID)).map (fun _ => l)))

/-- The query of `streamLogs`: the logs of the run with an id above the
cursor, by ascending id. -/
def logsQuery (s : Store) (runID lastLogID : Nat) : List Log :=
  ((runLogs s runID).filter (fun l => lastLogID < l.ID)).insertionSort
    (fun a b => a.ID ≤ b.ID)

/-- One subscription: the cursor `lastLogID`, the number of writes attempted
on the connection, the entries written to the consumer so far, in order, and
whether the handler has returned.  `delivered` is not state of the handler: it
records the log rows from which the entries written were made, for the
statements about their ids, which the entries do not carry. -/
structure Subscription where
  lastLogID : Nat := 0
  writes : Nat := 0
  sent : List LogEntry := []
  delivered : List Log := []
  closed : Bool := false
  deriving DecidableEq, Repr

/-- The entry written for a log row: the run id of the subscription and the
content, level and time stamp of the row; `JobID` and `StepID` are left at
their zero value, and the id of the row is not part of an entry. -/
def toEntry (runID : Nat) (logEntry : Log) : LogEntry :=
  { RunID := runID, Content := logEntry.Content, Level := logEntry.Level,
    Timestamp := logEntry.Timestamp }

/-- The inner loop of `streamLogs` (`for _, logEntry := range logs`): a write
that fails ends the handler. -/
def writeLogs (wire : Wire) (runID : Nat) : List Log → Subscription → Subscription
  | [], st => st
  | logEntry :: rest, st =>
    if wire.writeFails st.writes then { st with writes := st.writes + 1, closed := true }
    else
      writeLogs wire runID rest
        { st with lastLogID := logEntry.ID, writes := st.writes + 1,
                  sent := st.sent ++ [toEntry runID logEntry],
                  delivered := st.delivered ++ [logEntry] }

/-- One tick of `streamLogs`, the `k`-th, against the database as it is at
that moment. -/
def poll (wire : Wire) (runID : Nat) (k : Nat) (s : Store) (st : Subscription) : Subscription :=
  if st.closed then st
  else if wire.queryFails k then st
  else writeLogs wire runID (logsQuery s runID st.lastLogID) st

/-- The ticks of `streamLogs` from the `k`-th on, one per state of the
database. -/
def polls (wire : Wire) (runID : Nat) : List Store → Nat → Subscription → Subscription
  | [], _, st => st
  | s :: rest, k, st => polls wire runID rest (k + 1) (poll wire runID k s st)

/-- `Server.streamLogs` over finitely many ticks: `s0` is the database when
the request arrives, `ticks` lists the database at each tick.  The result is
the state of the subscription after the last of these ticks. -/
def streamLogs (wire : Wire) (runID userID : Nat) (s0 : Store) (ticks : List Store) : Subscription :=
  match s0.firstRun runID userID with
  | none => { closed := true }
  | some _ =>
    if wire.upgradeFails then { closed := true }
    else polls wire runID ticks 0 { }

end api

/-! ## Vocabulary of the statements -/

/-- The database acknowledges every statement from the `n`-th on. -/
def Env.acksFrom (env : Env) (n : Nat) : Prop := ∀ k, n ≤ k → env.fails k = false

/-- The writes to the runs table recorded in a journal, oldest first: key and
status written. -/
def runWrites : List Event → List (Nat × String)
  | [] => []
  | Event.run id st :: es => (id, st) :: runWrites es
  | _ :: es => runWrites es

/-- The writes to the jobs table recorded in a journal, oldest first. -/
def jobWrites : List Event → List (Nat × String)
  | [] => []
  | Event.job id st :: es => (id, st) :: jobWrites es
  | _ :: es => jobWrites es

/-- The writes to the steps table recorded in a journal, oldest first. -/
def stepWrites : List Event → List (Nat × String)
  | [] => []
  | Event.step id st :: es => (id, st) :: stepWrites es
  | _ :: es => stepWrites es

/-- The log rows recorded in a journal, oldest first: key and step. -/
def logWrites : List Event → List (Nat × Nat)
  | [] => []
  | Event.log id stepID :: es => (id, stepID) :: logWrites es
  | _ :: es => logWrites es


/-- What a statement on the steps or logs table leaves alone: the runs, jobs
and workflows tables, and the journal as far as runs and jobs go. -/
def StepLevel (s t : Store) : Prop :=
  t.runs = s.runs ∧ t.jobs = s.jobs ∧ t.workflows = s.workflows ∧ s.ops ≤ t.ops ∧
  ∃ J, t.journal = s.journal ++ J ∧ runWrites J = [] ∧ jobWrites J = []

/-- What the job loop of `executeRun` does to the store for the jobs `js`: the
runs table is untouched and the journal gains, for the jobs table, a write of
"running" and then one of "success" per job, in the order of `js`. -/
def JobLevel (js : List Job) (s t : Store) : Prop :=
  t.runs = s.runs ∧ t.workflows = s.workflows ∧ s.ops ≤ t.ops ∧
  ∃ J, t.journal = s.journal ++ J ∧ runWrites J = [] ∧
    jobWrites J = js.flatMap (fun j => [(j.ID, "running"), (j.ID, "success")])

/-- What the creation loops of `CreateRun` leave alone. -/
def Created (s t : Store) : Prop :=
  t.runs = s.runs ∧ t.workflows = s.workflows ∧ t.logs = s.logs ∧ s.ops ≤ t.ops ∧
  t.runSeq = s.runSeq

/-- In the journal `J`, job `b` is written a status other than "pending" only
after job `a` has been written "success". -/
def onlyAfterSuccess (J : List Event) (a b : Nat) : Prop :=
  ∀ pre post st, J = pre ++ Event.job b st :: post → st ≠ "pending" →
    Event.job a "success" ∈ pre

/-- Job `b` of the spec lists job `a` in its `needs`. -/
def needs (spec : WorkflowSpec) (b a : String) : Prop :=
  ∃ jobSpec, (b, jobSpec) ∈ spec.Jobs ∧ a ∈ jobSpec.Needs

/-- The needs relation of the spec contains a cycle. -/
def cyclic (spec : WorkflowSpec) : Prop :=
  ∃ a, Relation.TransGen (needs spec) a a

/-- Some job of the spec needs a job that is not a key of the jobs map. -/
def unknownDependency (spec : WorkflowSpec) : Prop :=
  ∃ b a, needs spec b a ∧ a ∉ spec.Jobs.map Prod.fst

/-! ## Sample data

Four documents and the value `yaml.Unmarshal` decodes each of them to; the
entries of a jobs map are listed in one of the orders a `range` may take. -/

/-- Job A needs B and B needs A. -/
def yamlCyclic : String :=
  "name: cyclic\njobs:\n  A:\n    needs: [B]\n    steps:\n      - run: echo a\n  B:\n    needs: [A]\n    steps:\n      - run: echo b\n"

/-- The decoded `yamlCyclic`. -/
def specCyclic : WorkflowSpec :=
  { Name := "cyclic",
    Jobs := [("A", { Needs := ["B"], Steps := [{ Run := "echo a" }] }),
             ("B", { Needs := ["A"], Steps := [{ Run := "echo b" }] })] }

/-- Job build needs a job that is not defined. -/
def yamlUnknown : String :=
  "name: unknown\njobs:\n  build:\n    needs: [ghost]\n    steps:\n      - run: make\n"

/-- The decoded `yamlUnknown`. -/
def specUnknown : WorkflowSpec :=
  { Name := "unknown",
    Jobs := [("build", { Needs := ["ghost"], Steps := [{ Run := "make" }] })] }

/-- Job test needs job build. -/
def yamlNeeds : String :=
  "name: ci\njobs:\n  build:\n    steps:\n      - run: echo hi\n  test:\n    needs: [build]\n    steps:\n      - run: echo ok\n"

/-- The decoded `yamlNeeds`, with the jobs map visited test first. -/
def specNeeds : WorkflowSpec :=
  { Name := "ci",
    Jobs := [("test", { Needs := ["build"], Steps := [{ Run := "echo ok" }] }),
             ("build", { Steps := [{ Run := "echo hi" }] })] }

/-- A document without jobs. -/
def yamlEmpty : String := "name: empty\n"

/-- The decoded `yamlEmpty`. -/
def specEmpty : WorkflowSpec := { Name := "empty" }

/-- The decoder on the four sample documents; any other text is taken to be
rejected. -/
def sampleUnmarshal (text : String) : Except String WorkflowSpec :=
  if text = yamlCyclic then .ok specCyclic
  else if text = yamlUnknown then .ok specUnknown
  else if text = yamlNeeds then .ok specNeeds
  else if text = yamlEmpty then .ok specEmpty
  else .error "yaml: unmarshal errors"

/-- A database that acknowledges every statement. -/
def sampleEnv : Env :=
  { unmarshal := sampleUnmarshal, fails := fun _ => false, now := fun n => 1000 + n }

/-- A database that rejects its `k`-th statement (counted from 0) and
acknowledges the others. -/
def flakyEnv (k : Nat) : Env :=
  { unmarshal := sampleUnmarshal, fails := fun n => n == k, now := fun n => 1000 + n }

/-- A store holding the four sample workflows of user 7 and nothing else. -/
def sampleStore : Store :=
  { workflows := [{ ID := 1, UserID := 7, Name := "cyclic", YAMLContent := yamlCyclic },
                  { ID := 2, UserID := 7, Name := "unknown", YAMLContent := yamlUnknown },
                  { ID := 3, UserID := 7, Name := "ci", YAMLContent := yamlNeeds },
                  { ID := 4, UserID := 7, Name := "empty", YAMLContent := yamlEmpty }],
    workflowSeq := 4 }

/-- A store holding one run of user 7 in the given status, with one job and
one step, both pending. -/
def storeWithRun (status : String) : Store :=
  { runs := [{ ID := 1, WorkflowID := 3, UserID := 7, Status := status }],
    jobs := [{ ID := 1, RunID := 1, Name := "build", Status := "pending" }],
    steps := [{ ID := 1, JobID := 1, Name := "Step 1", Command := "echo hi", Status := "pending" }],
    runSeq := 1, jobSeq := 1, stepSeq := 1, ops := 3 }

/-- The run of `storeWithRun "pending"` as `CreateRun` loads it and hands it
to `executeRun`. -/
def pendingRun : Run :=
  { ID := 1, WorkflowID := 3, UserID := 7, Status := "pending",
    Jobs := (storeWithRun "pending").findJobs 1 }

/-- The store after `CreateRun` on the sample workflow 3. -/
def createdStore : Store := (CreateRun sampleEnv 3 7 [] sampleStore).1

/-- The first job of the run in `createdStore`, as `executeRun` loads it. -/
def jobTest : Job :=
  { ID := 1, RunID := 1, Name := "test", Status := "pending", Steps := createdStore.stepsOf 1 }

/-- The second job of the run in `createdStore`, as `executeRun` loads it. -/
def jobBuild : Job :=
  { ID := 2, RunID := 1, Name := "build", Status := "pending", Steps := createdStore.stepsOf 2 }

/-- The run `CreateRun` returns on the sample workflow 3. -/
def createdRun : Run :=
  { ID := 1, WorkflowID := 3, UserID := 7, Status := "pending", Jobs := [jobTest, jobBuild] }

/-! ## The rows of a created run

The rows `CreateRun` leaves in the jobs and steps tables when every create is
acknowledged, written out from the id sequences; the theorems on `CreateRun`
compare the loops of the source with them. -/

/-- The step rows of one job, from position `i` on, when the last id drawn
from the step sequence is `seq`. -/
def stepRows (jobID : Nat) : List StepSpec → Nat → Nat → List Step
  | [], _, _ => []
  | stepSpec :: rest, i, seq =>
    { ID := seq + 1, JobID := jobID, Name := stepName i stepSpec, Command := stepSpec.Run,
      Status := "pending" } :: stepRows jobID rest (i + 1) (seq + 1)

/-- The job rows of a run, when the last id drawn from the job sequence is
`seq`. -/
def jobRows (runID : Nat) : List (String × JobSpec) → Nat → List Job
  | [], _ => []
  | entry :: rest, seq =>
    { ID := seq + 1, RunID := runID, Name := entry.1, Status := "pending" } ::
      jobRows runID rest (seq + 1)

/-- The step rows of all jobs of a run, job after job. -/
def allStepRows : List (String × JobSpec) → Nat → Nat → List Step
  | [], _, _ => []
  | entry :: rest, jobSeq, stepSeq =>
    stepRows (jobSeq + 1) entry.2.Steps 0 stepSeq ++
      allStepRows rest (jobSeq + 1) (stepSeq + entry.2.Steps.length)

/-- One create of the loops of `CreateRun`: of a job row or of a step row. -/
inductive Insert where
  | job (row : Job)
  | step (row : Step)
  deriving DecidableEq, Repr

/-- The creates `CreateRun` issues after the create of the run, in the order
in which it issues them, each job followed by its steps, with the rows they
store when the creates before them are acknowledged. -/
def inserts (runID : Nat) : List (String × JobSpec) → Nat → Nat → List Insert
  | [], _, _ => []
  | entry :: rest, jobSeq, stepSeq =>
    Insert.job { ID := jobSeq + 1, RunID := runID, Name := entry.1, Status := "pending" } ::
      ((stepRows (jobSeq + 1) entry.2.Steps 0 stepSeq).map Insert.step ++
        inserts runID rest (jobSeq + 1) (stepSeq + entry.2.Steps.length))

/-- The job rows among creates. -/
def insertedJobs : List Insert → List Job
  | [] => []
  | Insert.job row :: rest => row :: insertedJobs rest
  | Insert.step _ :: rest => insertedJobs rest

/-- The step rows among creates. -/
def insertedSteps : List Insert → List Step
  | [] => []
  | Insert.job _ :: rest => insertedSteps rest
  | Insert.step row :: rest => row :: insertedSteps rest

/-- The steps table holds a row under the key of `x`, and every row under that
key has the job, the name and the command of `x`. -/
def storedStep (s : Store) (x : Step) : Prop :=
  (∃ r ∈ s.steps, r.ID = x.ID) ∧
  ∀ r ∈ s.steps, r.ID = x.ID → r.JobID = x.JobID ∧ r.Name = x.Name ∧ r.Command = x.Command

/-- The step `x` is stored and every row under its key has the status
"success" and a time of start and of finish. -/
def succeededStep (s : Store) (x : Step) : Prop :=
  storedStep s x ∧
  ∀ r ∈ s.steps, r.ID = x.ID →
    r.Status = "success" ∧ r.StartedAt ≠ none ∧ r.FinishedAt ≠ none

/-- The number a list of decimal digits denotes, most significant digit
first. -/
def decimalValue (digits : List Char) : Nat :=
  digits.foldl (fun acc c => 10 * acc + (c.toNat - 48)) 0

/-- A job whose first step is named and whose other two steps are not. -/
def yamlNamed : String :=
  "name: named\njobs:\n  build:\n    steps:\n      - name: compile\n        run: make\n      - run: make test\n      - run: make install\n"

/-- The decoded `yamlNamed`. -/
def specNamed : WorkflowSpec :=
  { Name := "named",
    Jobs := [("build", { Steps := [{ Name := "compile", Run := "make" }, { Run := "make test" },
                                    { Run := "make install" }] })] }

/-- A job with a step that has a name and no command. -/
def yamlHollow : String :=
  "name: hollow\njobs:\n  build:\n    steps:\n      - name: nothing\n"

/-- The decoded `yamlHollow`. -/
def specHollow : WorkflowSpec :=
  { Name := "hollow", Jobs := [("build", { Steps := [{ Name := "nothing" }] })] }

/-- A database that acknowledges every statement, with a decoder for
`yamlNamed` and `yamlHollow` besides the sample documents. -/
def namedEnv : Env :=
  { unmarshal := fun text =>
      if text = yamlNamed then .ok specNamed
      else if text = yamlHollow then .ok specHollow
      else sampleUnmarshal text,
    fails := fun _ => false, now := fun n => 1000 + n }

/-- A store holding the workflows `yamlNamed` and `yamlHollow` of user 7, one
earlier run of that user with one job and one step, and the sample
workflows. -/
def namedStore : Store :=
  { workflows := sampleStore.workflows ++
      [{ ID := 5, UserID := 7, Name := "named", YAMLContent := yamlNamed },
       { ID := 6, UserID := 7, Name := "hollow", YAMLContent := yamlHollow }],
    runs := [{ ID := 1, WorkflowID := 3, UserID := 7, Status := "pending" }],
    jobs := [{ ID := 1, RunID := 1, Name := "build", Status := "pending" }],
    steps := [{ ID := 1, JobID := 1, Name := "Step 1", Command := "echo hi", Status := "pending" }],
    workflowSeq := 6, runSeq := 1, jobSeq := 1, stepSeq := 1, ops := 4 }

/-! ## Vocabulary for the runner -/

open runner

/-- The step at 0-based position `p.1` of a job is executed without error. -/
def stepSucceeds (host : Host) (jobID : Nat) (p : Nat × StepSpec) : Bool :=
  (executeStep host jobID (p.1 + 1) p.2).2.isNone

/-- The effects of executing the step at 0-based position `p.1` of a job. -/
def stepEffects (host : Host) (jobID : Nat) (p : Nat × StepSpec) : List Effect :=
  (executeStep host jobID (p.1 + 1) p.2).1

/-- The text of the error of the step at 0-based position `p.1` of a job. -/
def stepError (host : Host) (jobID : Nat) (p : Nat × StepSpec) : String :=
  (executeStep host jobID (p.1 + 1) p.2).2.getD ""

/-- The effect is the report of a job result. -/
def isJobResult : Effect → Bool
  | Effect.jobResult _ => true
  | _ => false

/-- The assignment with the continue-on-error flag of every step cleared. -/
def withoutContinue (assignment : JobAssignment) : JobAssignment :=
  { assignment with
    JobSpec := { assignment.JobSpec with
      Steps := assignment.JobSpec.Steps.map (fun st => { st with Continue := false }) } }

/-- The assignment without the job-level variables. -/
def withoutJobEnv (assignment : JobAssignment) : JobAssignment :=
  { assignment with JobSpec := { assignment.JobSpec with Env := [] } }

/-- The key and the value of an entry `key=value` of an environment: the text
before and the text after the first `=`. -/
def splitKV (kv : String) : Option (String × String) :=
  match kv.toList.dropWhile (fun c => c != '=') with
  | [] => none
  | _ :: value => some (String.mk (kv.toList.takeWhile (fun c => c != '=')), String.mk value)

/-- The value of a variable in effect in a process started with the
environment `env`: of several entries for one key, `os/exec` keeps the last. -/
def lookupEnv (env : List String) (key : String) : Option String :=
  List.lookup key (env.reverse.filterMap splitKV)

/-- A machine on which the command `false` exits with status 1 and every
other command succeeds. -/
def sampleHost : Host :=
  { environ := ["PATH=/bin", "HOME=/root"],
    run := fun _ cmd =>
      if cmd.Args = ["-c", "false"] then
        { stderr := "", err := some (RunError.exit 1 "exit status 1") }
      else { stdout := "ok" },
    now := fun n => toString n }

/-- An assignment whose first step fails with continue-on-error set, followed
by a step that would succeed; the job and the first step define variables. -/
def sampleAssignment : JobAssignment :=
  { JobID := 11, RunID := 1,
    JobSpec :=
      { Name := "build", Env := [("JOB_VAR", "1")],
        Steps := [{ Name := "lint", Run := "false", Continue := true, Env := [("STEP_VAR", "2")] },
                  { Name := "compile", Run := "make" }] } }

/-! ## Vocabulary for the log stream -/

open api

/-- The log row belongs to the run: its step is a step of a job of the run. -/
def belongsToRun (s : Store) (runID : Nat) (l : Log) : Prop :=
  l ∈ s.logs ∧ ∃ st ∈ s.steps, st.ID = l.StepID ∧ ∃ j ∈ s.jobs, j.ID = st.JobID ∧ j.RunID = runID

/-- The primary keys of the logs, steps and jobs tables are unique. -/
def uniqueKeys (s : Store) : Prop :=
  (s.logs.map (fun l => l.ID)).Nodup ∧ (s.steps.map (fun st => st.ID)).Nodup ∧
  (s.jobs.map (fun j => j.ID)).Nodup

/-- The logs of a run at a later tick are those of the earlier tick followed
by new ones, whose ids are positive and above the ids of the earlier ones:
the log store is append-only and its ids increase. -/
def grows (earlier later : List Log) : Prop :=
  ∃ extra, later = earlier ++ extra ∧ ∀ l ∈ extra, 0 < l.ID ∧ ∀ l' ∈ earlier, l'.ID < l.ID

/-- The cursor of a subscription is at or above the ids delivered, which
increase strictly. -/
def ordered (st : Subscription) : Prop :=
  (st.delivered.map (fun l => l.ID)).Pairwise (fun a b => a < b) ∧
  ∀ l ∈ st.delivered, l.ID ≤ st.lastLogID

/-- A connection on which nothing fails. -/
def quietWire : Wire :=
  { upgradeFails := false, queryFails := fun _ => false, writeFails := fun _ => false }

/-- The store after `executeRun` on the run of `createdStore`: it holds four
log rows, two per step. -/
def executedStore : Store := executeRun sampleEnv createdRun createdStore

/-- The cursor of a subscription is 0 or the id of a log row delivered. -/
def anchored (st : Subscription) : Prop :=
  st.lastLogID = 0 ∨ ∃ l ∈ st.delivered, l.ID = st.lastLogID

/-- What a subscription keeps true from tick to tick, `logs` being the logs of
the run at the last tick: the entries written are those of the rows in
`delivered`, whose ids increase up to the cursor, which is 0 or the id of one
of them; these rows are logs of the run and among the logs of the run none
with an id up to the cursor is missing; every entry written is a write that
did not fail, and at most one write has failed, the last one attempted, after
which the subscription is closed. -/
def tracks (wire : Wire) (runID : Nat) (st : Subscription) (logs : List Log) : Prop :=
  st.sent = st.delivered.map (toEntry runID) ∧
  ordered st ∧ anchored st ∧
  (∀ l ∈ st.delivered, l ∈ logs) ∧
  (∀ l ∈ logs, l.ID ≤ st.lastLogID → l ∈ st.delivered) ∧
  (∀ n, n < st.sent.length → wire.writeFails n = false) ∧
  (st.writes = st.sent.length ∨
    (st.writes = st.sent.length + 1 ∧ wire.writeFails st.sent.length = true ∧
      st.closed = true)) ∧
  (st.closed = false → st.writes = st.sent.length)

/-- A connection on which the query of the first tick fails and the third
write fails. -/
def lossyWire : Wire :=
  { upgradeFails := false, queryFails := fun k => k == 0, writeFails := fun n => n == 2 }

/-! ## The Authorization header

Go's `len` and slice expressions on a string work on its bytes, so the header
value is taken as the sequence of its bytes. -/

/-- The bytes of a text of ASCII characters. -/
def ascii (text : String) : List Nat := text.toList.map Char.toNat

/-- The bytes of the literal `"Bearer "`. -/
def bearer : List Nat := ascii "Bearer "

/-- What `authMiddleware` does with the request: it aborts it with a status
code and a message, or lets it through with the user as `ValidateToken`
returned it. -/
inductive Admission where
  | abort (code : Nat) (message : String)
  | next (user : User)
  deriving DecidableEq, Repr

/-- The token `authMiddleware` hands to `ValidateToken` for a non-empty header
value: the value without its first 7 bytes if it is longer than 7 bytes and
these are `"Bearer "`. -/
def bearerToken (header : List Nat) : List Nat :=
  if header.length > 7 && header.take 7 == bearer then header.drop 7 else header

/-- `Server.authMiddleware` on the value of the Authorization header, given
`ValidateToken`: the tokens handed to `ValidateToken`, in order, and what
becomes of the request. -/
def authMiddleware (validate : List Nat → Except String User) (header : List Nat) :
    List (List Nat) × Admission :=
  if header = [] then ([], Admission.abort 401 "Missing authorization token")
  else
    let token := bearerToken header
    match validate token with
    | .error _ => ([token], Admission.abort 401 "Invalid token")
    | .ok user => ([token], Admission.next user)

/-- A validation that accepts the token `abc` as that of user 7 and nothing
else. -/
def sampleValidate (token : List Nat) : Except String User :=
  if token = ascii "abc" then .ok { ID := 7, Username := "octocat" }
  else .error "token is malformed"

/-! ## Lemmas on the store -/

theorem Store.saveRun_tables (env : Env) (s : Store) (r : Run) :
    (s.saveRun env r).1.jobs = s.jobs ∧ (s.saveRun env r).1.steps = s.steps ∧
    (s.saveRun env r).1.logs = s.logs ∧ (s.saveRun env r).1.workflows = s.workflows := by
  unfold Store.saveRun Store.createRun Store.rejected
  split_ifs <;> simp

theorem Store.saveRun_ack (env : Env) (s : Store) (r : Run) (hid : r.ID ≠ 0)
    (hack : env.fails s.ops = false) :
    s.saveRun env r =
      ({ s with runs := if s.runs.any (fun x => x.ID == r.ID)
                        then s.runs.map (fun x => if x.ID == r.ID then { r with Jobs := [] } else x)
                        else s.runs ++ [{ r with Jobs := [] }],
                ops := s.ops + 1,
                journal := s.journal ++ [Event.run r.ID r.Status] }, .ok r) := by
  simp [Store.saveRun, hid, hack]

theorem find?_replace_run (id userID : Nat) (row : Run) (hrow : row.ID = id ∧ row.UserID = userID) :
    ∀ l : List Run, (∃ x ∈ l, x.ID = id) →
      (l.map (fun x => if x.ID == id then row else x)).find?
        (fun r => r.ID == id && r.UserID == userID) = some row := by
  intro l
  induction l with
  | nil => simp
  | cons a t ih =>
    intro h
    by_cases ha : a.ID = id
    · simp [ha, hrow.1, hrow.2]
    · have ht : ∃ x ∈ t, x.ID = id := by
        rcases h with ⟨x, hx, hxid⟩
        rcases List.mem_cons.1 hx with rfl | hx
        · exact absurd hxid ha
        · exact ⟨x, hx, hxid⟩
      have hhead : ((if (a.ID == id) = true then row else a).ID == id &&
          (if (a.ID == id) = true then row else a).UserID == userID) = false := by simp [ha]
      rw [List.map_cons, List.find?_cons, hhead]
      exact ih ht

theorem firstRun_some (s : Store) (id userID : Nat) (run : Run)
    (h : s.firstRun id userID = some run) : run ∈ s.runs ∧ run.ID = id ∧ run.UserID = userID := by
  unfold Store.firstRun at h
  have hm := List.mem_of_find?_eq_some h
  have hp := List.find?_some h
  simp at hp
  exact ⟨hm, hp.1, hp.2⟩

theorem Env.acksFrom_mono (env : Env) (n m : Nat) (h : env.acksFrom n) (hnm : n ≤ m) :
    env.acksFrom m := fun k hk => h k (le_trans hnm hk)

theorem jobWrites_append (a b : List Event) : jobWrites (a ++ b) = jobWrites a ++ jobWrites b := by
  induction a with
  | nil => rfl
  | cons e t ih => cases e <;> simp [jobWrites, ih]

theorem runWrites_append (a b : List Event) : runWrites (a ++ b) = runWrites a ++ runWrites b := by
  induction a with
  | nil => rfl
  | cons e t ih => cases e <;> simp [runWrites, ih]

theorem stepWrites_append (a b : List Event) :
    stepWrites (a ++ b) = stepWrites a ++ stepWrites b := by
  induction a with
  | nil => rfl
  | cons e t ih => cases e <;> simp [stepWrites, ih]

theorem logWrites_append (a b : List Event) : logWrites (a ++ b) = logWrites a ++ logWrites b := by
  induction a with
  | nil => rfl
  | cons e t ih => cases e <;> simp [logWrites, ih]

theorem stepLevel_refl (s : Store) : StepLevel s s :=
  ⟨rfl, rfl, rfl, le_refl _, [], by simp, rfl, rfl⟩

theorem stepLevel_trans {s t u : Store} (h1 : StepLevel s t) (h2 : StepLevel t u) :
    StepLevel s u := by
  obtain ⟨a1, a2, a3, a4, J1, a5, a6, a7⟩ := h1
  obtain ⟨b1, b2, b3, b4, J2, b5, b6, b7⟩ := h2
  refine ⟨b1.trans a1, b2.trans a2, b3.trans a3, le_trans a4 b4, J1 ++ J2, ?_, ?_, ?_⟩
  · rw [b5, a5, List.append_assoc]
  · rw [runWrites_append, a6, b6]; rfl
  · rw [jobWrites_append, a7, b7]; rfl

theorem Store.createStep_stepLevel (env : Env) (s : Store) (st : Step) :
    StepLevel s (s.createStep env st).1 := by
  unfold Store.createStep Store.rejected
  by_cases h : env.fails s.ops = true
  · rw [if_pos h]
    exact ⟨rfl, rfl, rfl, Nat.le_succ _, [], by simp, rfl, rfl⟩
  · rw [if_neg h]
    exact ⟨rfl, rfl, rfl, Nat.le_succ _, _, rfl, rfl, rfl⟩

theorem Store.saveStep_stepLevel (env : Env) (s : Store) (st : Step) :
    StepLevel s (s.saveStep env st).1 := by
  unfold Store.saveStep
  by_cases hid : st.ID = 0
  · rw [if_pos hid]
    exact Store.createStep_stepLevel env s st
  · rw [if_neg hid]
    by_cases h : env.fails s.ops = true
    · rw [if_pos h]
      exact ⟨rfl, rfl, rfl, Nat.le_succ _, [], by simp [Store.rejected], rfl, rfl⟩
    · rw [if_neg h]
      exact ⟨rfl, rfl, rfl, Nat.le_succ _, _, rfl, rfl, rfl⟩

theorem Store.createLog_stepLevel (env : Env) (s : Store) (l : Log) :
    StepLevel s (s.createLog env l).1 := by
  unfold Store.createLog Store.rejected
  by_cases h : env.fails s.ops = true
  · rw [if_pos h]
    exact ⟨rfl, rfl, rfl, Nat.le_succ _, [], by simp, rfl, rfl⟩
  · rw [if_neg h]
    exact ⟨rfl, rfl, rfl, Nat.le_succ _, _, rfl, rfl, rfl⟩

theorem executeRunStep_stepLevel (env : Env) (s : Store) (step : Step) :
    StepLevel s (executeRunStep env s step) := by
  unfold executeRunStep
  exact stepLevel_trans
    (stepLevel_trans (Store.saveStep_stepLevel env _ _) (Store.createLog_stepLevel env _ _))
    (stepLevel_trans (Store.saveStep_stepLevel env _ _) (Store.createLog_stepLevel env _ _))

theorem foldl_executeRunStep_stepLevel (env : Env) (steps : List Step) :
    ∀ s : Store, StepLevel s (steps.foldl (executeRunStep env) s) := by
  induction steps with
  | nil => intro s; exact stepLevel_refl s
  | cons a t ih =>
    intro s
    exact stepLevel_trans (executeRunStep_stepLevel env s a) (ih _)

theorem Store.saveJob_effect (env : Env) (s : Store) (j : Job) (hid : j.ID ≠ 0)
    (hack : env.fails s.ops = false) :
    (s.saveJob env j).2 = .ok j ∧ (s.saveJob env j).1.runs = s.runs ∧
    (s.saveJob env j).1.workflows = s.workflows ∧ (s.saveJob env j).1.ops = s.ops + 1 ∧
    (s.saveJob env j).1.journal = s.journal ++ [Event.job j.ID j.Status] := by
  simp [Store.saveJob, hid, hack]

theorem executeRunJob_jobLevel (env : Env) (s : Store) (b : Bool) (job : Job)
    (hid : job.ID ≠ 0) (hack : env.acksFrom s.ops) :
    (executeRunJob env (s, b) job).2 = b ∧ JobLevel [job] s (executeRunJob env (s, b) job).1 := by
  have h1 : env.fails s.ops = false := hack _ (le_refl _)
  obtain ⟨e1, e2, e3, e4, e5⟩ := Store.saveJob_effect env s
    { job with Status := "running", StartedAt := some (env.now s.ops) } hid h1
  unfold executeRunJob
  dsimp only
  rw [e1]
  dsimp only [written]
  generalize (s.saveJob env { job with Status := "running", StartedAt := some (env.now s.ops) }).1
    = s1 at e2 e3 e4 e5 ⊢
  obtain ⟨a1, _, a3, a4, J, a5, a6, a7⟩ := foldl_executeRunStep_stepLevel env job.Steps s1
  generalize List.foldl (executeRunStep env) s1 job.Steps = s2 at a1 a3 a4 a5 ⊢
  have h2 : env.fails s2.ops = false := hack _ (by omega)
  obtain ⟨f1, f2, f3, f4, f5⟩ := Store.saveJob_effect env s2
    { job with Status := "success", StartedAt := some (env.now s.ops),
               FinishedAt := some (env.now s2.ops) } hid h2
  refine ⟨by simp, ?_, ?_, ?_,
    [Event.job job.ID "running"] ++ J ++ [Event.job job.ID "success"], ?_, ?_, ?_⟩
  · simpa [a1, e2] using f2
  · simpa [a3, e3] using f3
  · simp only [if_true] at f4 ⊢
    omega
  · simpa [a5, e5] using f5
  · simp [runWrites_append, a6, runWrites]
  · simp [jobWrites_append, a7, jobWrites]

theorem jobLevel_nil (s : Store) : JobLevel [] s s :=
  ⟨rfl, rfl, le_refl _, [], by simp, rfl, rfl⟩

theorem jobLevel_append {js ks : List Job} {s t u : Store} (h1 : JobLevel js s t)
    (h2 : JobLevel ks t u) : JobLevel (js ++ ks) s u := by
  obtain ⟨a1, a3, a4, J1, a5, a6, a7⟩ := h1
  obtain ⟨b1, b3, b4, J2, b5, b6, b7⟩ := h2
  refine ⟨b1.trans a1, b3.trans a3, le_trans a4 b4, J1 ++ J2, ?_, ?_, ?_⟩
  · rw [b5, a5, List.append_assoc]
  · rw [runWrites_append, a6, b6]; rfl
  · rw [jobWrites_append, a7, b7, List.flatMap_append]

theorem foldl_executeRunJob_jobLevel (env : Env) (jobs : List Job) :
    ∀ (s : Store) (b : Bool), (∀ j ∈ jobs, j.ID ≠ 0) → env.acksFrom s.ops →
      (jobs.foldl (executeRunJob env) (s, b)).2 = b ∧
      JobLevel jobs s (jobs.foldl (executeRunJob env) (s, b)).1 := by
  induction jobs with
  | nil => intro s b _ _; exact ⟨rfl, jobLevel_nil s⟩
  | cons a t ih =>
    intro s b hids hack
    obtain ⟨h2, hl⟩ := executeRunJob_jobLevel env s b a (hids a (List.mem_cons_self _ _)) hack
    rw [List.foldl_cons]
    have hpair : executeRunJob env (s, b) a = ((executeRunJob env (s, b) a).1, b) :=
      Prod.ext rfl h2
    rw [hpair]
    have hack2 : env.acksFrom (executeRunJob env (s, b) a).1.ops :=
      env.acksFrom_mono _ _ hack hl.2.2.1
    obtain ⟨g2, gl⟩ := ih (executeRunJob env (s, b) a).1 b
      (fun j hj => hids j (List.mem_cons_of_mem _ hj)) hack2
    exact ⟨g2, jobLevel_append hl gl⟩

theorem Store.saveRun_effect (env : Env) (s : Store) (r : Run) (hid : r.ID ≠ 0)
    (hack : env.fails s.ops = false) :
    (s.saveRun env r).2 = .ok r ∧ (s.saveRun env r).1.jobs = s.jobs ∧
    (s.saveRun env r).1.steps = s.steps ∧ (s.saveRun env r).1.logs = s.logs ∧
    (s.saveRun env r).1.ops = s.ops + 1 ∧
    (s.saveRun env r).1.journal = s.journal ++ [Event.run r.ID r.Status] := by
  simp [Store.saveRun, hid, hack]

theorem Store.findJobs_congr (s t : Store) (id : Nat) (hj : t.jobs = s.jobs)
    (hs : t.steps = s.steps) : t.findJobs id = s.findJobs id := by
  unfold Store.findJobs Store.stepsOf
  rw [hj, hs]

/-- The journal of an uninterrupted `executeRun` on an acknowledging store. -/
theorem executeRun_journal (env : Env) (run : Run) (s : Store) (hid : run.ID ≠ 0)
    (hids : ∀ j ∈ s.findJobs run.ID, j.ID ≠ 0) (hack : env.acksFrom s.ops) :
    ∃ J, (executeRun env run s).journal = s.journal ++ J ∧
      runWrites J = [(run.ID, "running"), (run.ID, "success")] ∧
      jobWrites J =
        (s.findJobs run.ID).flatMap (fun j => [(j.ID, "running"), (j.ID, "success")]) := by
  have h1 : env.fails s.ops = false := hack _ (le_refl _)
  obtain ⟨e1, e2, e3, _, e5, e6⟩ := Store.saveRun_effect env s
    { run with Status := "running", StartedAt := some (env.now s.ops) } hid h1
  unfold executeRun
  dsimp only
  rw [e1]
  dsimp only [written]
  rw [Store.findJobs_congr s _ run.ID e2 e3]
  generalize (s.saveRun env { run with Status := "running", StartedAt := some (env.now s.ops) }).1
    = s1 at e2 e3 e5 e6 ⊢
  have hack1 : env.acksFrom s1.ops := env.acksFrom_mono _ _ hack (by omega)
  obtain ⟨g2, _, _, g4, J, g5, g6, g7⟩ :=
    foldl_executeRunJob_jobLevel env (s.findJobs run.ID) s1 true hids hack1
  rw [g2]
  generalize (List.foldl (executeRunJob env) (s1, true) (s.findJobs run.ID)).1 = s2 at g4 g5 ⊢
  have h2 : env.fails s2.ops = false := hack _ (by omega)
  obtain ⟨_, _, _, _, _, f6⟩ := Store.saveRun_effect env s2
    { run with Status := "success", StartedAt := some (env.now s.ops),
               FinishedAt := some (env.now s2.ops) } hid h2
  refine ⟨[Event.run run.ID "running"] ++ J ++ [Event.run run.ID "success"], ?_, ?_, ?_⟩
  · simpa [g5, e6] using f6
  · simp [runWrites_append, g6, runWrites]
  · simp [jobWrites_append, g7, jobWrites]

theorem mem_jobWrites (J : List Event) (id : Nat) (st : String) :
    (id, st) ∈ jobWrites J ↔ Event.job id st ∈ J := by
  induction J with
  | nil => simp [jobWrites]
  | cons e t ih => cases e <;> simp [jobWrites, ih]

theorem initial_segment_of_split {α : Type} (X Y P Q : List α) (e : α) (h : X ++ Y = P ++ e :: Q)
    (he : e ∉ X) : ∀ x ∈ X, x ∈ P := by
  rcases List.append_eq_append_iff.1 h with ⟨a, hP, _⟩ | ⟨c, hX, hQ⟩
  · intro x hx; rw [hP]; exact List.mem_append_left _ hx
  · cases c with
    | nil => intro x hx; rw [hX] at hx; simpa using hx
    | cons c0 ct =>
      exfalso
      simp only [List.cons_append, List.cons.injEq] at hQ
      apply he
      rw [hX, hQ.1]
      simp

theorem created_trans {s t u : Store} (h1 : Created s t) (h2 : Created t u) : Created s u :=
  ⟨h2.1.trans h1.1, h2.2.1.trans h1.2.1, h2.2.2.1.trans h1.2.2.1,
    le_trans h1.2.2.2.1 h2.2.2.2.1, h2.2.2.2.2.trans h1.2.2.2.2⟩

theorem Store.createStep_effect (env : Env) (s : Store) (st : Step)
    (hack : env.fails s.ops = false) :
    (∃ st1, (s.createStep env st).2 = .ok st1) ∧ Created s (s.createStep env st).1 ∧
    (s.createStep env st).1.jobs = s.jobs := by
  simp [Store.createStep, hack, Created]

theorem Store.createJob_effect (env : Env) (s : Store) (j : Job) (hid : j.ID = 0)
    (hack : env.fails s.ops = false) :
    (s.createJob env j).2 = .ok { j with ID := s.jobSeq + 1 } ∧
    Created s (s.createJob env j).1 ∧
    (s.createJob env j).1.jobs = s.jobs ++ [{ j with ID := s.jobSeq + 1, Steps := [] }] := by
  simp [Store.createJob, hack, Created, hid]

theorem createSteps_ok (env : Env) (jobID : Nat) (specs : List StepSpec) :
    ∀ (i : Nat) (s : Store), env.acksFrom s.ops →
      (createSteps env jobID specs i s).2 = .ok () ∧
      Created s (createSteps env jobID specs i s).1 ∧
      (createSteps env jobID specs i s).1.jobs = s.jobs := by
  induction specs with
  | nil => intro i s _; exact ⟨rfl, ⟨rfl, rfl, rfl, le_refl _, rfl⟩, rfl⟩
  | cons a t ih =>
    intro i s hack
    have h1 : env.fails s.ops = false := hack _ (le_refl _)
    obtain ⟨⟨st1, c1⟩, c2, c3⟩ := Store.createStep_effect env s
      { JobID := jobID, Name := stepName i a, Command := a.Run, Status := "pending" } h1
    unfold createSteps
    dsimp only
    rcases hcs : s.createStep env
      { JobID := jobID, Name := stepName i a, Command := a.Run, Status := "pending" } with ⟨s1, res⟩
    rw [hcs] at c1 c2 c3
    dsimp only at c1 c2 c3
    subst c1
    dsimp only
    obtain ⟨g1, g2, g3⟩ := ih (i + 1) s1 (env.acksFrom_mono _ _ hack c2.2.2.2.1)
    exact ⟨g1, created_trans c2 g2, g3.trans c3⟩

theorem createJobs_ok (env : Env) (runID : Nat) (entries : List (String × JobSpec)) :
    ∀ s : Store, env.acksFrom s.ops →
      (createJobs env runID entries s).2 = .ok () ∧
      Created s (createJobs env runID entries s).1 ∧
      ∃ rows, (createJobs env runID entries s).1.jobs = s.jobs ++ rows ∧
        rows.map (fun j => j.Name) = entries.map Prod.fst ∧
        ∀ j ∈ rows, j.RunID = runID ∧ j.Status = "pending" := by
  induction entries with
  | nil =>
    intro s _
    exact ⟨rfl, ⟨rfl, rfl, rfl, le_refl _, rfl⟩, [], by simp [createJobs], rfl, by simp⟩
  | cons a t ih =>
    intro s hack
    obtain ⟨jobName, jobSpec⟩ := a
    have h1 : env.fails s.ops = false := hack _ (le_refl _)
    obtain ⟨c1, c2, c3⟩ := Store.createJob_effect env s
      { RunID := runID, Name := jobName, Status := "pending" } rfl h1
    unfold createJobs
    dsimp only
    rcases hcj : s.createJob env { RunID := runID, Name := jobName, Status := "pending" }
      with ⟨s1, res⟩
    rw [hcj] at c1 c2 c3
    dsimp only at c1 c2 c3
    subst c1
    dsimp only
    have hack1 : env.acksFrom s1.ops := env.acksFrom_mono _ _ hack c2.2.2.2.1
    obtain ⟨d1, d2, d3⟩ := createSteps_ok env (s.jobSeq + 1) jobSpec.Steps 0 s1 hack1
    rcases hcs : createSteps env (s.jobSeq + 1) jobSpec.Steps 0 s1 with ⟨s2, res2⟩
    rw [hcs] at d1 d2 d3
    dsimp only at d1 d2 d3
    subst d1
    dsimp only
    have hack2 : env.acksFrom s2.ops := env.acksFrom_mono _ _ hack1 d2.2.2.2.1
    obtain ⟨g1, g2, rows, g7, g8, g9⟩ := ih s2 hack2
    refine ⟨g1, created_trans (created_trans c2 d2) g2,
      { ID := s.jobSeq + 1, RunID := runID, Name := jobName, Status := "pending" } :: rows,
      ?_, ?_, ?_⟩
    · rw [g7, d3, c3]; simp
    · simp [g8]
    · intro j hj
      rcases List.mem_cons.1 hj with rfl | hj
      · exact ⟨rfl, rfl⟩
      · exact g9 j hj

theorem Store.firstRunPreload_of_mem (s : Store) (id : Nat) (h : ∃ r ∈ s.runs, r.ID = id) :
    ∃ run, s.firstRunPreload id = some run ∧ run.ID = id := by
  unfold Store.firstRunPreload
  cases hf : s.runs.find? (fun r => r.ID == id) with
  | none =>
    exfalso
    obtain ⟨r, hr, hrid⟩ := h
    have := List.find?_eq_none.1 hf r hr
    simp [hrid] at this
  | some r =>
    have hp := List.find?_some hf
    simp only [beq_iff_eq] at hp
    exact ⟨_, rfl, hp⟩

theorem Store.any_run_of_mem (l : List Run) (id : Nat) (h : ∃ r ∈ l, r.ID = id) :
    l.any (fun x => x.ID == id) = true := by
  obtain ⟨r, hr, hrid⟩ := h
  simp only [List.any_eq_true]
  exact ⟨r, hr, by simp [hrid]⟩

theorem Store.saveRun_runs (env : Env) (s : Store) (r : Run) (hid : r.ID ≠ 0)
    (hack : env.fails s.ops = false) (hmem : ∃ x ∈ s.runs, x.ID = r.ID) :
    (s.saveRun env r).1.runs =
      s.runs.map (fun x => if x.ID == r.ID then { r with Jobs := [] } else x) := by
  rw [Store.saveRun_ack env s r hid hack]
  simp only [Store.any_run_of_mem s.runs r.ID hmem, if_true]

/-- An uninterrupted `executeRun` on a stored run that has no jobs. -/
theorem executeRun_no_jobs (env : Env) (run : Run) (s : Store) (hid : run.ID ≠ 0)
    (hnone : s.findJobs run.ID = []) (hack : env.acksFrom s.ops)
    (hmem : ∃ r ∈ s.runs, r.ID = run.ID) :
    (executeRun env run s).firstRun run.ID run.UserID =
        some { run with Status := "success", StartedAt := some (env.now s.ops),
                        FinishedAt := some (env.now (s.ops + 1)), Jobs := [] } ∧
    (executeRun env run s).journal =
        s.journal ++ [Event.run run.ID "running", Event.run run.ID "success"] ∧
    (executeRun env run s).jobs = s.jobs ∧ (executeRun env run s).steps = s.steps ∧
    (executeRun env run s).logs = s.logs := by
  have h1 : env.fails s.ops = false := hack _ (le_refl _)
  obtain ⟨e1, e2, e3, e4, e5, e6⟩ := Store.saveRun_effect env s
    { run with Status := "running", StartedAt := some (env.now s.ops) } hid h1
  have e7 := Store.saveRun_runs env s
    { run with Status := "running", StartedAt := some (env.now s.ops) } hid h1 hmem
  unfold executeRun
  dsimp only
  rw [e1]
  dsimp only [written]
  rw [Store.findJobs_congr s _ run.ID e2 e3, hnone]
  dsimp only [List.foldl_nil]
  generalize (s.saveRun env { run with Status := "running", StartedAt := some (env.now s.ops) }).1
    = s1 at e2 e3 e4 e5 e6 e7 ⊢
  dsimp only at e6 e7
  have h2 : env.fails s1.ops = false := hack _ (by omega)
  have hmem1 : ∃ r ∈ s1.runs, r.ID = run.ID := by
    obtain ⟨r, hr, hrid⟩ := hmem
    rw [e7]
    exact ⟨_, List.mem_map_of_mem _ hr, by simp [hrid]⟩
  obtain ⟨_, f2, f3, f4, _, f6⟩ := Store.saveRun_effect env s1
    { run with Status := "success", StartedAt := some (env.now s.ops),
               FinishedAt := some (env.now s1.ops) } hid h2
  have f7 := Store.saveRun_runs env s1
    { run with Status := "success", StartedAt := some (env.now s.ops),
               FinishedAt := some (env.now s1.ops) } hid h2 hmem1
  simp only [if_true]
  refine ⟨?_, ?_, f2.trans e2, f3.trans e3, f4.trans e4⟩
  · unfold Store.firstRun
    rw [f7, ← e5]
    exact find?_replace_run run.ID run.UserID
      { run with Status := "success", StartedAt := some (env.now s.ops),
                 FinishedAt := some (env.now s1.ops), Jobs := [] } ⟨rfl, rfl⟩ _ hmem1
  · rw [f6, e6]; simp

/-- The runs table after an uninterrupted `executeRun` on a stored run that
has no jobs. -/
theorem executeRun_no_jobs_runs (env : Env) (run : Run) (s : Store) (hid : run.ID ≠ 0)
    (hnone : s.findJobs run.ID = []) (hack : env.acksFrom s.ops)
    (hmem : ∃ r ∈ s.runs, r.ID = run.ID) :
    (executeRun env run s).runs =
      s.runs.map (fun x => if x.ID == run.ID then
        { run with Status := "success", StartedAt := some (env.now s.ops),
                   FinishedAt := some (env.now (s.ops + 1)), Jobs := [] } else x) := by
  have h1 : env.fails s.ops = false := hack _ (le_refl _)
  obtain ⟨e1, e2, e3, e4, e5, e6⟩ := Store.saveRun_effect env s
    { run with Status := "running", StartedAt := some (env.now s.ops) } hid h1
  have e7 := Store.saveRun_runs env s
    { run with Status := "running", StartedAt := some (env.now s.ops) } hid h1 hmem
  unfold executeRun
  dsimp only
  rw [e1]
  dsimp only [written]
  rw [Store.findJobs_congr s _ run.ID e2 e3, hnone]
  dsimp only [List.foldl_nil]
  generalize (s.saveRun env { run with Status := "running", StartedAt := some (env.now s.ops) }).1
    = s1 at e2 e3 e4 e5 e6 e7 ⊢
  dsimp only at e6 e7
  have h2 : env.fails s1.ops = false := hack _ (by omega)
  have hmem1 : ∃ r ∈ s1.runs, r.ID = run.ID := by
    obtain ⟨r, hr, hrid⟩ := hmem
    rw [e7]
    exact ⟨_, List.mem_map_of_mem _ hr, by simp [hrid]⟩
  have f7 := Store.saveRun_runs env s1
    { run with Status := "success", StartedAt := some (env.now s.ops),
               FinishedAt := some (env.now s1.ops) } hid h2 hmem1
  simp only [if_true]
  rw [f7, e7, List.map_map, ← e5]
  apply List.map_congr_left
  intro x _
  by_cases hx : x.ID = run.ID
  · simp [hx]
  · simp [hx]

theorem Store.saveRun_rows (env : Env) (s : Store) (r : Run) :
    ∀ x ∈ (s.saveRun env r).1.runs, x ∈ s.runs ∨
      (x.WorkflowID = r.WorkflowID ∧ x.UserID = r.UserID ∧ x.StartedAt = r.StartedAt) := by
  intro x hx
  unfold Store.saveRun Store.createRun Store.rejected at hx
  by_cases hid : r.ID = 0
  · rw [if_pos hid] at hx
    by_cases hf : env.fails s.ops = true
    · rw [if_pos hf] at hx
      exact Or.inl hx
    · rw [if_neg hf] at hx
      simp only [List.mem_append, List.mem_singleton] at hx
      rcases hx with hx | hx
      · exact Or.inl hx
      · right
        rw [hx, if_pos hid]
        exact ⟨rfl, rfl, rfl⟩
  · rw [if_neg hid] at hx
    by_cases hf : env.fails s.ops = true
    · rw [if_pos hf] at hx
      exact Or.inl hx
    · rw [if_neg hf] at hx
      dsimp only at hx
      split_ifs at hx
      · rcases List.mem_map.1 hx with ⟨y, hy, hyx⟩
        split_ifs at hyx
        · right; rw [← hyx]; exact ⟨rfl, rfl, rfl⟩
        · left; rw [← hyx]; exact hy
      · simp only [List.mem_append, List.mem_singleton] at hx
        rcases hx with hx | hx
        · exact Or.inl hx
        · right; rw [hx]; exact ⟨rfl, rfl, rfl⟩

theorem Store.reloadRun_tables (env : Env) (s : Store) (id : Nat) :
    (s.reloadRun env id).1.runs = s.runs ∧ (s.reloadRun env id).1.jobs = s.jobs ∧
    (s.reloadRun env id).1.steps = s.steps ∧ (s.reloadRun env id).1.logs = s.logs ∧
    (s.reloadRun env id).1.workflows = s.workflows ∧
    (s.reloadRun env id).1.journal = s.journal ∧ (s.reloadRun env id).1.ops = s.ops + 1 := by
  unfold Store.reloadRun
  by_cases hf : env.fails s.ops = true
  · simp [hf, Store.rejected]
  · cases hfr : s.firstRunPreload id <;> simp [hf, Store.rejected]

theorem Store.reloadRun_ack (env : Env) (s : Store) (id : Nat) (run : Run)
    (hack : env.fails s.ops = false) (hfound : s.firstRunPreload id = some run) :
    s.reloadRun env id = ({ s with ops := s.ops + 1 }, .ok run) := by
  simp [Store.reloadRun, hack, hfound]

theorem Store.reloadRun_rejected (env : Env) (s : Store) (id : Nat)
    (hrej : env.fails s.ops = true) :
    s.reloadRun env id = (s.rejected, .error errDatabase) := by
  simp [Store.reloadRun, hrej]

/-! ## CancelRun -/

/-- `CancelRun` on a stored run of the caller that is pending or running, on a
database that acknowledges the save. -/
theorem CancelRun_cancels (env : Env) (s : Store) (id userID : Nat) (run : Run)
    (hid : id ≠ 0) (hrun : s.firstRun id userID = some run) (hack : env.fails s.ops = false)
    (hst : run.Status = "running" ∨ run.Status = "pending") :
    CancelRun env id userID s =
      ({ s with runs := s.runs.map (fun x => if x.ID == id then
                    { run with Status := "cancelled", FinishedAt := some (env.now s.ops),
                               Jobs := [] }
                    else x),
                ops := s.ops + 1,
                journal := s.journal ++ [Event.run id "cancelled"] }, .ok ()) := by
  obtain ⟨hmem, hrid, _⟩ := firstRun_some s id userID run hrun
  have hid1 :
      ({ run with Status := "cancelled", FinishedAt := some (env.now s.ops) } : Run).ID ≠ 0 := by
    simpa [hrid] using hid
  have hany : s.runs.any (fun x => x.ID == id) = true :=
    Store.any_run_of_mem s.runs id ⟨run, hmem, hrid⟩
  unfold CancelRun
  rw [hrun]
  simp only [hst, if_true]
  rw [Store.saveRun_ack env s _ hid1 hack]
  simp [hrid, hany]

/-- `CancelRun` on a stored run of the caller in any other status. -/
theorem CancelRun_refuses (env : Env) (s : Store) (id userID : Nat) (run : Run)
    (hrun : s.firstRun id userID = some run)
    (hst : ¬ (run.Status = "running" ∨ run.Status = "pending")) :
    CancelRun env id userID s =
      (s, .error ("run cannot be cancelled in current status: " ++ run.Status)) := by
  unfold CancelRun
  rw [hrun]
  simp only [hst, if_false]

/-- The run a successful `CancelRun` leaves in the store. -/
theorem CancelRun_stored (env : Env) (s : Store) (id userID : Nat) (run : Run)
    (hid : id ≠ 0) (hrun : s.firstRun id userID = some run) (hack : env.fails s.ops = false)
    (hst : run.Status = "running" ∨ run.Status = "pending") :
    (CancelRun env id userID s).1.firstRun id userID =
      some { run with Status := "cancelled", FinishedAt := some (env.now s.ops), Jobs := [] } := by
  obtain ⟨hmem, hrid, hruid⟩ := firstRun_some s id userID run hrun
  rw [CancelRun_cancels env s id userID run hid hrun hack hst]
  unfold Store.firstRun
  exact find?_replace_run id userID
    { run with Status := "cancelled", FinishedAt := some (env.now s.ops), Jobs := [] }
    ⟨hrid, hruid⟩ s.runs ⟨run, hmem, hrid⟩

/-- C1: for a stored run looked up by its owner under its key (keys are
positive), on a database that acknowledges the save, `CancelRun` succeeds if
and only if the status of the run is "pending" or "running"; in that case the
stored run gets the status "cancelled" (and its finish time); in every other
status `CancelRun` returns an error and the store is left as it was. -/
theorem CancelRun_succeeds_iff_pending_or_running (env : Env) (s : Store) (id userID : Nat)
    (run : Run) (hid : id ≠ 0) (hrun : s.firstRun id userID = some run)
    (hack : env.fails s.ops = false) :
    ((CancelRun env id userID s).2 = .ok () ↔
      (run.Status = "pending" ∨ run.Status = "running")) ∧
    ((run.Status = "pending" ∨ run.Status = "running") →
      (CancelRun env id userID s).1.firstRun id userID =
        some { run with Status := "cancelled", FinishedAt := some (env.now s.ops),
                        Jobs := [] }) ∧
    (¬ (run.Status = "pending" ∨ run.Status = "running") →
      (∃ e, (CancelRun env id userID s).2 = .error e) ∧ (CancelRun env id userID s).1 = s) := by
  by_cases hst : run.Status = "running" ∨ run.Status = "pending"
  · have hst2 : run.Status = "pending" ∨ run.Status = "running" := hst.symm
    refine ⟨?_, ?_, ?_⟩
    · rw [CancelRun_cancels env s id userID run hid hrun hack hst]
      simp [hst2]
    · intro _
      exact CancelRun_stored env s id userID run hid hrun hack hst
    · intro h; exact absurd hst2 h
  · have hst2 : ¬ (run.Status = "pending" ∨ run.Status = "running") := fun h => hst h.symm
    have hc := CancelRun_refuses env s id userID run hrun hst
    refine ⟨?_, ?_, ?_⟩
    · simp [hc, hst2]
    · intro h; exact absurd h hst2
    · intro _; exact ⟨⟨_, by rw [hc]⟩, by rw [hc]⟩

/-- C1, at a pending run and at a run that has finished: the first is
cancelled, the second is refused and the store is unchanged. -/
theorem CancelRun_succeeds_iff_pending_or_running_witness :
    ((CancelRun sampleEnv 1 7 (storeWithRun "pending")).2 = .ok () ∧
      ((CancelRun sampleEnv 1 7 (storeWithRun "pending")).1.firstRun 1 7).map
        (fun r => r.Status) = some "cancelled") ∧
    ((∃ e, (CancelRun sampleEnv 1 7 (storeWithRun "success")).2 = .error e) ∧
      (CancelRun sampleEnv 1 7 (storeWithRun "success")).1 = storeWithRun "success") :=
  ⟨⟨(CancelRun_succeeds_iff_pending_or_running sampleEnv (storeWithRun "pending") 1 7
        { ID := 1, WorkflowID := 3, UserID := 7, Status := "pending" }
        (by decide) rfl rfl).1.2 (Or.inl rfl),
    by rw [(CancelRun_succeeds_iff_pending_or_running sampleEnv (storeWithRun "pending") 1 7
        { ID := 1, WorkflowID := 3, UserID := 7, Status := "pending" }
        (by decide) rfl rfl).2.1 (Or.inl rfl)]; rfl⟩,
   (CancelRun_succeeds_iff_pending_or_running sampleEnv (storeWithRun "success") 1 7
        { ID := 1, WorkflowID := 3, UserID := 7, Status := "success" }
        (by decide) rfl rfl).2.2 (by decide)⟩

/-- C9: `CancelRun` writes to the runs table only: whether it succeeds or
fails, the jobs, steps and logs tables (and so the stored status of every job
and step) are the same after the call as before it, and every row of the
runs table after the call is a row from before or carries the key-independent
columns `WorkflowID`, `UserID` and `StartedAt` of one. -/
theorem CancelRun_leaves_jobs_and_steps (env : Env) (s : Store) (id userID : Nat) :
    (CancelRun env id userID s).1.jobs = s.jobs ∧
    (CancelRun env id userID s).1.steps = s.steps ∧
    (CancelRun env id userID s).1.logs = s.logs ∧
    (CancelRun env id userID s).1.workflows = s.workflows ∧
    ∀ x ∈ (CancelRun env id userID s).1.runs, x ∈ s.runs ∨
      ∃ r ∈ s.runs, x.WorkflowID = r.WorkflowID ∧ x.UserID = r.UserID ∧
        x.StartedAt = r.StartedAt := by
  unfold CancelRun
  cases hrun : s.firstRun id userID with
  | none => exact ⟨rfl, rfl, rfl, rfl, fun x hx => Or.inl hx⟩
  | some run =>
    obtain ⟨hmem, _, _⟩ := firstRun_some s id userID run hrun
    dsimp only
    split_ifs with hst
    · have h := Store.saveRun_tables env s
        { run with Status := "cancelled", FinishedAt := some (env.now s.ops) }
      have hr := Store.saveRun_rows env s
        { run with Status := "cancelled", FinishedAt := some (env.now s.ops) }
      rcases hsave : s.saveRun env
        { run with Status := "cancelled", FinishedAt := some (env.now s.ops) } with ⟨s1, res⟩
      rw [hsave] at h hr
      have hrows : ∀ x ∈ s1.runs, x ∈ s.runs ∨
          ∃ r ∈ s.runs, x.WorkflowID = r.WorkflowID ∧ x.UserID = r.UserID ∧
            x.StartedAt = r.StartedAt := by
        intro x hx
        rcases hr x hx with h1 | ⟨h1, h2, h3⟩
        · exact Or.inl h1
        · exact Or.inr ⟨run, hmem, h1, h2, h3⟩
      cases res <;> exact ⟨h.1, h.2.1, h.2.2.1, h.2.2.2, hrows⟩
    · exact ⟨rfl, rfl, rfl, rfl, fun x hx => Or.inl hx⟩

/-! ## executeRun and cancellation -/

/-- C2: the code at the failing input.  A run is created, its owner cancels it
before the goroutine of `executeRun` has made its first write, and the stored
status is "cancelled"; `executeRun` then saves "running" and "success" over
it, and the run ends as "success". -/
theorem cancelled_run_rewritten_by_executeRun :
    ∃ s1 run s2, CreateRun sampleEnv 3 7 [] sampleStore = (s1, .ok run) ∧
      CancelRun sampleEnv run.ID 7 s1 = (s2, .ok ()) ∧
      (s2.firstRun run.ID 7).map (fun r => r.Status) = some "cancelled" ∧
      runWrites ((executeRun sampleEnv run s2).journal.drop s2.journal.length) =
        [(run.ID, "running"), (run.ID, "success")] ∧
      ((executeRun sampleEnv run s2).firstRun run.ID 7).map (fun r => r.Status) =
        some "success" :=
  ⟨_, _, _, rfl, rfl, rfl, rfl, rfl⟩

/-- C3: the code at the failing input.  Cancellation of the run has been
requested and acknowledged, no job is ever written "failed", and the last
status `executeRun` writes to the run is "success", not "cancelled". -/
theorem executeRun_final_status_ignores_cancellation :
    (CancelRun sampleEnv 1 7 (storeWithRun "pending")).2 = .ok () ∧
    (∀ w ∈ jobWrites
        (executeRun sampleEnv pendingRun (CancelRun sampleEnv 1 7 (storeWithRun "pending")).1).journal,
      w.2 ≠ "failed") ∧
    (runWrites
        (executeRun sampleEnv pendingRun
          (CancelRun sampleEnv 1 7 (storeWithRun "pending")).1).journal).getLast? =
      some (1, "success") :=
  ⟨rfl, by decide, rfl⟩

/-- C8 fails as stated: after a successful `CancelRun` on a pending run the
job of the run is still "pending", not "skipped", and a later `executeRun`
moves its step to "running". -/
theorem cancel_pending_skips_nothing_counterexample :
    (CancelRun sampleEnv 1 7 (storeWithRun "pending")).2 = .ok () ∧
    ¬ (∀ j ∈ (CancelRun sampleEnv 1 7 (storeWithRun "pending")).1.findJobs 1,
        j.Status = "skipped") ∧
    Event.step 1 "running" ∈
      (executeRun sampleEnv pendingRun
        (CancelRun sampleEnv 1 7 (storeWithRun "pending")).1).journal :=
  ⟨rfl, by decide, by decide⟩

/-- C8 amended: for a stored pending run looked up by its owner under its key,
on a database that acknowledges the save, `CancelRun` succeeds and the run's
status is "cancelled"; its single write goes to the runs table, and the jobs
of the run, with their steps, are as they were before the call (none is
written "skipped"). -/
theorem CancelRun_pending_leaves_jobs (env : Env) (s : Store) (id userID : Nat) (run : Run)
    (hid : id ≠ 0) (hrun : s.firstRun id userID = some run) (hack : env.fails s.ops = false)
    (hst : run.Status = "pending") :
    (CancelRun env id userID s).2 = .ok () ∧
    ((CancelRun env id userID s).1.firstRun id userID).map (fun r => r.Status) =
      some "cancelled" ∧
    (CancelRun env id userID s).1.findJobs id = s.findJobs id ∧
    (CancelRun env id userID s).1.journal = s.journal ++ [Event.run id "cancelled"] := by
  have hst1 : run.Status = "running" ∨ run.Status = "pending" := Or.inr hst
  refine ⟨?_, ?_, ?_, ?_⟩
  · rw [CancelRun_cancels env s id userID run hid hrun hack hst1]
  · rw [CancelRun_stored env s id userID run hid hrun hack hst1]
    rfl
  · rw [CancelRun_cancels env s id userID run hid hrun hack hst1]
    exact Store.findJobs_congr s _ id rfl rfl
  · rw [CancelRun_cancels env s id userID run hid hrun hack hst1]

/-- C8 amended, at the pending sample run: it is cancelled and its job is
still the pending job with its pending step. -/
theorem CancelRun_pending_leaves_jobs_witness :
    (CancelRun sampleEnv 1 7 (storeWithRun "pending")).2 = .ok () ∧
    ((CancelRun sampleEnv 1 7 (storeWithRun "pending")).1.firstRun 1 7).map
      (fun r => r.Status) = some "cancelled" ∧
    (CancelRun sampleEnv 1 7 (storeWithRun "pending")).1.findJobs 1 =
      (storeWithRun "pending").findJobs 1 ∧
    (CancelRun sampleEnv 1 7 (storeWithRun "pending")).1.journal =
      (storeWithRun "pending").journal ++ [Event.run 1 "cancelled"] :=
  CancelRun_pending_leaves_jobs sampleEnv (storeWithRun "pending") 1 7
    { ID := 1, WorkflowID := 3, UserID := 7, Status := "pending" } (by decide) rfl rfl rfl

/-- C4 fails as stated: in the sample workflow job test needs job build; the
jobs map is visited test first, so test gets key 1 and build key 2, and
`executeRun` writes "running" to test before it has written anything to
build. -/
theorem needs_ignored_counterexample :
    needs specNeeds "test" "build" ∧
    CreateRun sampleEnv 3 7 [] sampleStore = (createdStore, .ok createdRun) ∧
    (createdStore.findJobs 1).map (fun j => (j.ID, j.Name)) = [(1, "test"), (2, "build")] ∧
    ∃ J, (executeRun sampleEnv createdRun createdStore).journal = createdStore.journal ++ J ∧
      ¬ onlyAfterSuccess J 2 1 := by
  refine ⟨⟨{ Needs := ["build"], Steps := [{ Run := "echo ok" }] }, by decide, by decide⟩,
    rfl, rfl,
    [Event.run 1 "running", Event.job 1 "running", Event.step 1 "running", Event.log 1 1,
      Event.step 1 "success", Event.log 2 1, Event.job 1 "success", Event.job 2 "running",
      Event.step 2 "running", Event.log 3 2, Event.step 2 "success", Event.log 4 2,
      Event.job 2 "success", Event.run 1 "success"], rfl, ?_⟩
  intro h
  have h1 := h [Event.run 1 "running"] _ "running" rfl (by decide)
  exact absurd h1 (by decide)

/-- C4 amended: `executeRun` does not consult `needs`.  On a database that
acknowledges its writes, for a run whose jobs have distinct positive keys, it
takes the jobs in the order in which the store returns them: a job returned
after another one is written "running", and it is written a status other than
"pending" only after the earlier one has been written "success". -/
theorem executeRun_takes_jobs_in_store_order (env : Env) (run : Run) (s : Store)
    (l1 l2 : List Job) (ja jb : Job)
    (hid : run.ID ≠ 0) (hids : ∀ j ∈ s.findJobs run.ID, j.ID ≠ 0)
    (hnd : ((s.findJobs run.ID).map (fun j => j.ID)).Nodup) (hack : env.acksFrom s.ops)
    (hsplit : s.findJobs run.ID = l1 ++ ja :: l2) (hb : jb ∈ l2) :
    ∃ J, (executeRun env run s).journal = s.journal ++ J ∧
      Event.job jb.ID "running" ∈ J ∧ onlyAfterSuccess J ja.ID jb.ID := by
  obtain ⟨J, hJ, _, hjw⟩ := executeRun_journal env run s hid hids hack
  rw [hsplit] at hjw hnd
  refine ⟨J, hJ, ?_, ?_⟩
  · rw [← mem_jobWrites, hjw]
    simp only [List.mem_flatMap]
    exact ⟨jb, by simp [hb], by simp⟩
  · intro pre post st hsp _
    rw [← mem_jobWrites]
    have hw : jobWrites J = jobWrites pre ++ (jb.ID, st) :: jobWrites post := by
      rw [hsp, jobWrites_append]; rfl
    rw [hjw, List.flatMap_append, List.flatMap_cons] at hw
    have hX : (l1.flatMap (fun j => [(j.ID, "running"), (j.ID, "success")]) ++
        [(ja.ID, "running"), (ja.ID, "success")]) ++
        l2.flatMap (fun j => [(j.ID, "running"), (j.ID, "success")]) =
        jobWrites pre ++ (jb.ID, st) :: jobWrites post := by
      rw [← hw]; simp
    have hbid : jb.ID ∈ l2.map (fun j => j.ID) := List.mem_map_of_mem _ hb
    rw [List.map_append, List.map_cons, List.nodup_append] at hnd
    obtain ⟨_, hnd2, hdis⟩ := hnd
    have hab : ja.ID ≠ jb.ID := by
      intro h
      rw [List.nodup_cons] at hnd2
      exact hnd2.1 (h ▸ hbid)
    apply initial_segment_of_split _ _ _ _ _ hX
    · intro hmem
      simp only [List.mem_append, List.mem_flatMap, List.mem_cons, Prod.mk.injEq,
        List.mem_singleton, List.not_mem_nil, or_false] at hmem
      rcases hmem with ⟨j, hj, hje⟩ | hje
      · have h1 : jb.ID ∈ l1.map (fun j => j.ID) := by
          rcases hje with hje | hje <;> exact hje.1 ▸ List.mem_map_of_mem _ hj
        exact hdis h1 (List.mem_cons_of_mem _ hbid)
      · rcases hje with hje | hje <;> exact hab hje.1.symm
    · simp

/-- C4 amended, at the sample run: build, returned second, starts only after
test, returned first, has been written "success". -/
theorem executeRun_takes_jobs_in_store_order_witness :
    ∃ J, (executeRun sampleEnv createdRun createdStore).journal = createdStore.journal ++ J ∧
      Event.job 2 "running" ∈ J ∧ onlyAfterSuccess J 1 2 :=
  executeRun_takes_jobs_in_store_order sampleEnv createdRun createdStore [] [jobBuild]
    jobTest jobBuild (by decide) (by decide) (by decide) (fun _ _ => rfl) rfl
    (List.mem_singleton.2 rfl)

/-! ## CreateRun -/

theorem Store.createRun_effect (env : Env) (s : Store) (r : Run) (hid : r.ID = 0)
    (hack : env.fails s.ops = false) :
    (s.createRun env r).2 = .ok { r with ID := s.runSeq + 1 } ∧
    (s.createRun env r).1.runs = s.runs ++ [{ r with ID := s.runSeq + 1, Jobs := [] }] ∧
    (s.createRun env r).1.jobs = s.jobs ∧ (s.createRun env r).1.steps = s.steps ∧
    (s.createRun env r).1.logs = s.logs ∧ (s.createRun env r).1.workflows = s.workflows ∧
    (s.createRun env r).1.ops = s.ops + 1 ∧
    (s.createRun env r).1.journal = s.journal ++ [Event.run (s.runSeq + 1) r.Status] := by
  simp [Store.createRun, hack, hid]

/-- `CreateRun` on an active workflow of the caller whose document decodes, on
a database that acknowledges its writes: no check of the spec stands between
the decoding and the creation of the run and of one job per entry of the jobs
map. -/
theorem CreateRun_acknowledged (env : Env) (workflowID userID : Nat)
    (inputs : List (String × String)) (s : Store) (wf : Workflow) (spec : WorkflowSpec)
    (hwf : s.firstWorkflow workflowID userID = some wf) (hact : wf.IsActive = true)
    (hspec : env.unmarshal wf.YAMLContent = .ok spec) (hack : env.acksFrom s.ops) :
    ∃ run, (CreateRun env workflowID userID inputs s).2 = .ok run ∧ run.ID = s.runSeq + 1 ∧
      (CreateRun env workflowID userID inputs s).1.firstRunPreload (s.runSeq + 1) = some run ∧
      (CreateRun env workflowID userID inputs s).1.runs =
        s.runs ++ [{ ID := s.runSeq + 1, WorkflowID := workflowID, UserID := userID,
                     Status := "pending" }] ∧
      ∃ rows, (CreateRun env workflowID userID inputs s).1.jobs = s.jobs ++ rows ∧
        rows.map (fun j => j.Name) = spec.Jobs.map Prod.fst ∧
        ∀ j ∈ rows, j.RunID = s.runSeq + 1 ∧ j.Status = "pending" := by
  have h1 : env.fails s.ops = false := hack _ (le_refl _)
  obtain ⟨c1, c2, c3, _, _, _, c7, _⟩ := Store.createRun_effect env s
    { WorkflowID := workflowID, UserID := userID, Status := "pending" } rfl h1
  unfold CreateRun
  rw [hwf]
  simp only [hact, hspec, Bool.not_true, Bool.false_eq_true, if_false]
  rcases hcr : s.createRun env { WorkflowID := workflowID, UserID := userID, Status := "pending" }
    with ⟨s1, res⟩
  rw [hcr] at c1 c2 c3 c7
  dsimp only at c1 c2 c3 c7
  subst c1
  dsimp only
  have hack1 : env.acksFrom s1.ops := env.acksFrom_mono _ _ hack (by omega)
  obtain ⟨d1, d2, rows, d3, d4, d5⟩ := createJobs_ok env (s.runSeq + 1) spec.Jobs s1 hack1
  rcases hcj : createJobs env (s.runSeq + 1) spec.Jobs s1 with ⟨s2, res2⟩
  rw [hcj] at d1 d2 d3
  dsimp only at d1 d2 d3
  subst d1
  dsimp only
  have hmem : ∃ r ∈ s2.runs, r.ID = s.runSeq + 1 := by
    rw [d2.1, c2]
    exact ⟨_, List.mem_append_right _ (List.mem_singleton.2 rfl), rfl⟩
  obtain ⟨run, hfound, hrid⟩ := Store.firstRunPreload_of_mem s2 (s.runSeq + 1) hmem
  have hack2 : env.fails s2.ops = false := hack1 _ d2.2.2.2.1
  rw [Store.reloadRun_ack env s2 _ run hack2 hfound]
  exact ⟨run, rfl, hrid, hfound, by rw [d2.1, c2], rows, by rw [d3, c3], d4, d5⟩

/-- C5 fails as stated: the sample spec in which A needs B and B needs A is
not rejected; `CreateRun` returns a run and the store gains the run, both jobs
and both steps. -/
theorem cyclic_spec_accepted_counterexample :
    cyclic specCyclic ∧
    ∃ s1 run, CreateRun sampleEnv 1 7 [] sampleStore = (s1, .ok run) ∧
      s1.runs.map (fun r => (r.ID, r.Status)) = [(1, "pending")] ∧
      s1.jobs.map (fun j => j.Name) = ["A", "B"] ∧
      s1.steps.map (fun st => st.Command) = ["echo a", "echo b"] := by
  have hAB : needs specCyclic "A" "B" :=
    ⟨{ Needs := ["B"], Steps := [{ Run := "echo a" }] }, by decide, by decide⟩
  have hBA : needs specCyclic "B" "A" :=
    ⟨{ Needs := ["A"], Steps := [{ Run := "echo b" }] }, by decide, by decide⟩
  exact ⟨⟨"A", Relation.TransGen.tail (Relation.TransGen.single hAB) hBA⟩,
    _, _, rfl, rfl, rfl, rfl⟩

/-- C5 amended: `CreateRun` does not look for cycles.  For a spec whose needs
relation contains a cycle, on an active workflow of the caller whose document
decodes to it and a database that acknowledges its writes, `CreateRun` returns
the new run without error; the store gains that run, pending, and one pending
job per entry of the jobs map, named by its key. -/
theorem CreateRun_accepts_cyclic_spec (env : Env) (workflowID userID : Nat)
    (inputs : List (String × String)) (s : Store) (wf : Workflow) (spec : WorkflowSpec)
    (_hcyc : cyclic spec)
    (hwf : s.firstWorkflow workflowID userID = some wf) (hact : wf.IsActive = true)
    (hspec : env.unmarshal wf.YAMLContent = .ok spec) (hack : env.acksFrom s.ops) :
    ∃ run, (CreateRun env workflowID userID inputs s).2 = .ok run ∧ run.ID = s.runSeq + 1 ∧
      (CreateRun env workflowID userID inputs s).1.runs =
        s.runs ++ [{ ID := s.runSeq + 1, WorkflowID := workflowID, UserID := userID,
                     Status := "pending" }] ∧
      ∃ rows, (CreateRun env workflowID userID inputs s).1.jobs = s.jobs ++ rows ∧
        rows.map (fun j => j.Name) = spec.Jobs.map Prod.fst ∧
        ∀ j ∈ rows, j.RunID = s.runSeq + 1 ∧ j.Status = "pending" := by
  obtain ⟨run, h1, h2, _, h4, h5⟩ :=
    CreateRun_acknowledged env workflowID userID inputs s wf spec hwf hact hspec hack
  exact ⟨run, h1, h2, h4, h5⟩

/-- C5 amended, at the sample spec in which A needs B and B needs A. -/
theorem CreateRun_accepts_cyclic_spec_witness :
    cyclic specCyclic ∧
    ∃ run, (CreateRun sampleEnv 1 7 [] sampleStore).2 = .ok run ∧
      run.ID = sampleStore.runSeq + 1 ∧
      (CreateRun sampleEnv 1 7 [] sampleStore).1.runs =
        sampleStore.runs ++ [{ ID := sampleStore.runSeq + 1, WorkflowID := 1, UserID := 7,
                               Status := "pending" }] ∧
      ∃ rows, (CreateRun sampleEnv 1 7 [] sampleStore).1.jobs = sampleStore.jobs ++ rows ∧
        rows.map (fun j => j.Name) = specCyclic.Jobs.map Prod.fst ∧
        ∀ j ∈ rows, j.RunID = sampleStore.runSeq + 1 ∧ j.Status = "pending" := by
  have hAB : needs specCyclic "A" "B" :=
    ⟨{ Needs := ["B"], Steps := [{ Run := "echo a" }] }, by decide, by decide⟩
  have hBA : needs specCyclic "B" "A" :=
    ⟨{ Needs := ["A"], Steps := [{ Run := "echo b" }] }, by decide, by decide⟩
  have hcyc : cyclic specCyclic :=
    ⟨"B", Relation.TransGen.tail (Relation.TransGen.single hBA) hAB⟩
  exact ⟨hcyc, CreateRun_accepts_cyclic_spec sampleEnv 1 7 [] sampleStore
    { ID := 1, UserID := 7, Name := "cyclic", YAMLContent := yamlCyclic } specCyclic
    hcyc rfl rfl rfl (fun _ _ => rfl)⟩

/-- C6 fails as stated: the sample spec whose job build needs the undefined
job ghost passes `CreateWorkflow`, which stores the workflow, and `CreateRun`,
which creates the run. -/
theorem unknown_dependency_accepted_counterexample :
    unknownDependency specUnknown ∧
    (CreateWorkflow sampleEnv { UserID := 7, Name := "unknown", YAMLContent := yamlUnknown }
      { }).2 = .ok () ∧
    ∃ s1 run, CreateRun sampleEnv 2 7 [] sampleStore = (s1, .ok run) ∧
      s1.jobs.map (fun j => j.Name) = ["build"] :=
  ⟨⟨"build", "ghost",
      ⟨{ Needs := ["ghost"], Steps := [{ Run := "make" }] }, by decide, by decide⟩, by decide⟩,
    rfl, _, _, rfl, rfl⟩

/-- C6 amended: the only validation of a spec is that the document decodes;
the entries of `needs` are not compared with the keys of the jobs map.  For a
spec in which a job needs an undefined job, `CreateWorkflow` stores the
workflow without error when the database acknowledges the write, and
`CreateRun` on the stored, active workflow returns a run without error. -/
theorem unknown_dependency_accepted (env : Env) (s : Store) (wf : Workflow)
    (spec : WorkflowSpec) (_hunk : unknownDependency spec)
    (hspec : env.unmarshal wf.YAMLContent = .ok spec) (hack : env.fails s.ops = false) :
    (CreateWorkflow env wf s).2 = .ok () ∧
    (∃ w ∈ (CreateWorkflow env wf s).1.workflows,
      w.YAMLContent = wf.YAMLContent ∧ w.UserID = wf.UserID) ∧
    ∀ (workflowID userID : Nat) (inputs : List (String × String)) (t : Store),
      t.firstWorkflow workflowID userID = some wf → wf.IsActive = true →
      env.acksFrom t.ops → ∃ run, (CreateRun env workflowID userID inputs t).2 = .ok run := by
  refine ⟨?_, ?_, ?_⟩
  · simp [CreateWorkflow, hspec, Store.createWorkflow, hack]
  · simp only [CreateWorkflow, hspec, Store.createWorkflow, hack, Bool.false_eq_true, if_false]
    refine ⟨_, List.mem_append_right _ (List.mem_singleton.2 rfl), ?_⟩
    split_ifs <;> exact ⟨rfl, rfl⟩
  · intro workflowID userID inputs t hwf hact hackt
    obtain ⟨run, h1, _⟩ :=
      CreateRun_acknowledged env workflowID userID inputs t wf spec hwf hact hspec hackt
    exact ⟨run, h1⟩

/-- C6 amended, at the sample spec whose job build needs the undefined job
ghost. -/
theorem unknown_dependency_accepted_witness :
    unknownDependency specUnknown ∧
    (CreateWorkflow sampleEnv { ID := 2, UserID := 7, Name := "unknown",
                                YAMLContent := yamlUnknown } { }).2 = .ok () ∧
    ∃ run, (CreateRun sampleEnv 2 7 [] sampleStore).2 = .ok run :=
  have hunk : unknownDependency specUnknown :=
    ⟨"build", "ghost",
      ⟨{ Needs := ["ghost"], Steps := [{ Run := "make" }] }, by decide, by decide⟩, by decide⟩
  have h := unknown_dependency_accepted sampleEnv { }
    { ID := 2, UserID := 7, Name := "unknown", YAMLContent := yamlUnknown } specUnknown
    hunk rfl rfl
  ⟨hunk, h.1, h.2.2 2 7 [] sampleStore rfl rfl (fun _ _ => rfl)⟩

/-- C7 fails as stated: when the database rejects the create of the second
job, `CreateRun` returns the error and the run, the first job and its step,
created before, stay in the store. -/
theorem unfinished_run_left_behind_counterexample :
    (CreateRun (flakyEnv 3) 3 7 [] sampleStore).2 = .error errDatabase ∧
    sampleStore.runs = [] ∧ sampleStore.jobs = [] ∧ sampleStore.steps = [] ∧
    (CreateRun (flakyEnv 3) 3 7 [] sampleStore).1.runs.map (fun r => (r.ID, r.Status)) =
      [(1, "pending")] ∧
    (CreateRun (flakyEnv 3) 3 7 [] sampleStore).1.jobs.map (fun j => j.Name) = ["test"] ∧
    (CreateRun (flakyEnv 3) 3 7 [] sampleStore).1.steps.map (fun st => st.Command) =
      ["echo ok"] :=
  ⟨rfl, rfl, rfl, rfl, rfl, rfl, rfl⟩

/-- `CreateRun` for a spec without jobs, on a store whose id sequence for runs
is ahead of the keys in use. -/
theorem CreateRun_zero_jobs (env : Env) (workflowID userID : Nat)
    (inputs : List (String × String)) (s : Store) (wf : Workflow) (spec : WorkflowSpec)
    (hwf : s.firstWorkflow workflowID userID = some wf) (hact : wf.IsActive = true)
    (hspec : env.unmarshal wf.YAMLContent = .ok spec) (hzero : spec.Jobs = [])
    (hack : env.fails s.ops = false) (hack1 : env.fails (s.ops + 1) = false)
    (hruns : ∀ r ∈ s.runs, r.ID ≤ s.runSeq) (hjobs : ∀ j ∈ s.jobs, j.RunID ≤ s.runSeq) :
    CreateRun env workflowID userID inputs s =
      ({ s with runs := s.runs ++ [{ ID := s.runSeq + 1, WorkflowID := workflowID,
                                     UserID := userID, Status := "pending" }],
                runSeq := s.runSeq + 1,
                ops := s.ops + 2,
                journal := s.journal ++ [Event.run (s.runSeq + 1) "pending"] },
       .ok { ID := s.runSeq + 1, WorkflowID := workflowID, UserID := userID,
             Status := "pending" }) := by
  have hnone : s.runs.find? (fun r => r.ID == s.runSeq + 1) = none := by
    rw [List.find?_eq_none]
    intro r hr
    have := hruns r hr
    simp only [beq_iff_eq]
    omega
  have hfilter : s.jobs.filter (fun j => j.RunID == s.runSeq + 1) = [] := by
    rw [List.filter_eq_nil_iff]
    intro j hj
    have := hjobs j hj
    simp only [beq_iff_eq]
    omega
  unfold CreateRun
  rw [hwf]
  simp only [hact, hspec, Bool.not_true, Bool.false_eq_true, if_false, Store.createRun, hack,
    hack1, hzero, createJobs, Store.reloadRun, Store.firstRunPreload, Store.findJobs, if_true,
    List.find?_append, hnone, hfilter]
  simp only [List.find?_cons, List.find?_nil, beq_self_eq_true, Option.none_or, Option.map_some',
    List.filter_append, hfilter, List.append_nil, List.map_nil, Prod.mk.injEq, true_and]

/-- C10: for an active workflow of the caller whose document decodes to a spec
with zero jobs, on a database that acknowledges its statements and whose id
sequence for runs is ahead of the keys in use, `CreateRun` returns a pending
run with no jobs and creates no job or step; `executeRun` on that run leaves
the run with status "success", its only writes being the two saves of the run
("running", then "success"): no step is touched and no log row is written.
The run returned is the row with the next key of the sequence for the workflow
and the caller; `CreateRun` adds this row and nothing else to the runs table,
its one write, and after `executeRun` the runs table is the table from before
`CreateRun` followed by this row with status "success" and its two times. -/
theorem zero_jobs_run_succeeds (env : Env) (workflowID userID : Nat)
    (inputs : List (String × String)) (s : Store) (wf : Workflow) (spec : WorkflowSpec)
    (hwf : s.firstWorkflow workflowID userID = some wf) (hact : wf.IsActive = true)
    (hspec : env.unmarshal wf.YAMLContent = .ok spec) (hzero : spec.Jobs = [])
    (hack : env.acksFrom s.ops)
    (hruns : ∀ r ∈ s.runs, r.ID ≤ s.runSeq) (hjobs : ∀ j ∈ s.jobs, j.RunID ≤ s.runSeq) :
    ∃ run, (CreateRun env workflowID userID inputs s).2 = .ok run ∧
      run.Status = "pending" ∧ run.Jobs = [] ∧
      (CreateRun env workflowID userID inputs s).1.jobs = s.jobs ∧
      (CreateRun env workflowID userID inputs s).1.steps = s.steps ∧
      ((executeRun env run (CreateRun env workflowID userID inputs s).1).firstRun
          run.ID userID).map (fun r => r.Status) = some "success" ∧
      (executeRun env run (CreateRun env workflowID userID inputs s).1).journal =
        (CreateRun env workflowID userID inputs s).1.journal ++
          [Event.run run.ID "running", Event.run run.ID "success"] ∧
      (executeRun env run (CreateRun env workflowID userID inputs s).1).jobs = s.jobs ∧
      (executeRun env run (CreateRun env workflowID userID inputs s).1).steps = s.steps ∧
      (executeRun env run (CreateRun env workflowID userID inputs s).1).logs = s.logs ∧
      run = { ID := s.runSeq + 1, WorkflowID := workflowID, UserID := userID,
              Status := "pending" } ∧
      (CreateRun env workflowID userID inputs s).1.runs = s.runs ++ [run] ∧
      (CreateRun env workflowID userID inputs s).1.logs = s.logs ∧
      (CreateRun env workflowID userID inputs s).1.journal =
        s.journal ++ [Event.run (s.runSeq + 1) "pending"] ∧
      (executeRun env run (CreateRun env workflowID userID inputs s).1).runs =
        s.runs ++ [{ ID := s.runSeq + 1, WorkflowID := workflowID, UserID := userID,
                     Status := "success", StartedAt := some (env.now (s.ops + 2)),
                     FinishedAt := some (env.now (s.ops + 3)) }] := by
  have h1 : env.fails s.ops = false := hack _ (le_refl _)
  have h2 : env.fails (s.ops + 1) = false := hack _ (Nat.le_succ _)
  rw [CreateRun_zero_jobs env workflowID userID inputs s wf spec hwf hact hspec hzero h1 h2
    hruns hjobs]
  refine ⟨_, rfl, rfl, rfl, rfl, rfl, ?_⟩
  have hfind : ({ s with runs := s.runs ++ [{ ID := s.runSeq + 1, WorkflowID := workflowID,
                                              UserID := userID, Status := "pending" }],
                         runSeq := s.runSeq + 1,
                         ops := s.ops + 2,
                         journal := s.journal ++ [Event.run (s.runSeq + 1) "pending"] }
                  : Store).findJobs (s.runSeq + 1) = [] := by
    have hfilter : s.jobs.filter (fun j => j.RunID == s.runSeq + 1) = [] := by
      rw [List.filter_eq_nil_iff]
      intro j hj
      have := hjobs j hj
      simp only [beq_iff_eq]
      omega
    simp [Store.findJobs, hfilter]
  obtain ⟨e1, e2, e3, e4, e5⟩ := executeRun_no_jobs env
    { ID := s.runSeq + 1, WorkflowID := workflowID, UserID := userID, Status := "pending" }
    { s with runs := s.runs ++ [{ ID := s.runSeq + 1, WorkflowID := workflowID,
                                  UserID := userID, Status := "pending" }],
             runSeq := s.runSeq + 1,
             ops := s.ops + 2,
             journal := s.journal ++ [Event.run (s.runSeq + 1) "pending"] }
    (Nat.succ_ne_zero _) hfind (env.acksFrom_mono _ _ hack (by simp))
    ⟨_, List.mem_append_right _ (List.mem_singleton.2 rfl), rfl⟩
  have e6 := executeRun_no_jobs_runs env
    { ID := s.runSeq + 1, WorkflowID := workflowID, UserID := userID, Status := "pending" }
    { s with runs := s.runs ++ [{ ID := s.runSeq + 1, WorkflowID := workflowID,
                                  UserID := userID, Status := "pending" }],
             runSeq := s.runSeq + 1,
             ops := s.ops + 2,
             journal := s.journal ++ [Event.run (s.runSeq + 1) "pending"] }
    (Nat.succ_ne_zero _) hfind (env.acksFrom_mono _ _ hack (by simp))
    ⟨_, List.mem_append_right _ (List.mem_singleton.2 rfl), rfl⟩
  refine ⟨?_, e2, e3, e4, e5, rfl, rfl, rfl, rfl, ?_⟩
  · dsimp only at e1 ⊢
    rw [e1]
    rfl
  · dsimp only at e6 ⊢
    rw [e6, List.map_append]
    have hold : s.runs.map (fun x => if x.ID == s.runSeq + 1 then
        ({ ID := s.runSeq + 1, WorkflowID := workflowID, UserID := userID, Status := "success",
           StartedAt := some (env.now (s.ops + 2)),
           FinishedAt := some (env.now (s.ops + 2 + 1)) } : Run) else x) = s.runs := by
      rw [List.map_congr_left (g := id), List.map_id]
      intro x hx
      have := hruns x hx
      have hne : x.ID ≠ s.runSeq + 1 := by omega
      simp [hne]
    rw [hold]
    simp

/-- C10, at the sample workflow without jobs. -/
theorem zero_jobs_run_succeeds_witness :
    ∃ run, (CreateRun sampleEnv 4 7 [] sampleStore).2 = .ok run ∧
      run.Status = "pending" ∧ run.Jobs = [] ∧
      (CreateRun sampleEnv 4 7 [] sampleStore).1.jobs = sampleStore.jobs ∧
      (CreateRun sampleEnv 4 7 [] sampleStore).1.steps = sampleStore.steps ∧
      ((executeRun sampleEnv run (CreateRun sampleEnv 4 7 [] sampleStore).1).firstRun
          run.ID 7).map (fun r => r.Status) = some "success" ∧
      (executeRun sampleEnv run (CreateRun sampleEnv 4 7 [] sampleStore).1).journal =
        (CreateRun sampleEnv 4 7 [] sampleStore).1.journal ++
          [Event.run run.ID "running", Event.run run.ID "success"] ∧
      (executeRun sampleEnv run (CreateRun sampleEnv 4 7 [] sampleStore).1).jobs =
        sampleStore.jobs ∧
      (executeRun sampleEnv run (CreateRun sampleEnv 4 7 [] sampleStore).1).steps =
        sampleStore.steps ∧
      (executeRun sampleEnv run (CreateRun sampleEnv 4 7 [] sampleStore).1).logs =
        sampleStore.logs ∧
      run = { ID := sampleStore.runSeq + 1, WorkflowID := 4, UserID := 7,
              Status := "pending" } ∧
      (CreateRun sampleEnv 4 7 [] sampleStore).1.runs = sampleStore.runs ++ [run] ∧
      (CreateRun sampleEnv 4 7 [] sampleStore).1.logs = sampleStore.logs ∧
      (CreateRun sampleEnv 4 7 [] sampleStore).1.journal =
        sampleStore.journal ++ [Event.run (sampleStore.runSeq + 1) "pending"] ∧
      (executeRun sampleEnv run (CreateRun sampleEnv 4 7 [] sampleStore).1).runs =
        sampleStore.runs ++ [{ ID := sampleStore.runSeq + 1, WorkflowID := 4, UserID := 7,
                               Status := "success",
                               StartedAt := some (sampleEnv.now (sampleStore.ops + 2)),
                               FinishedAt := some (sampleEnv.now (sampleStore.ops + 3)) }] :=
  zero_jobs_run_succeeds sampleEnv 4 7 [] sampleStore
    { ID := 4, UserID := 7, Name := "empty", YAMLContent := yamlEmpty } specEmpty
    rfl rfl rfl rfl (fun _ _ => rfl) (by decide) (by decide)

/-! ## Ownership -/

theorem find?_none_of_forall {α : Type} (p : α → Bool) (l : List α) (h : ∀ x ∈ l, p x = false) :
    l.find? p = none := by
  rw [List.find?_eq_none]
  intro x hx
  simp [h x hx]

/-- C19: every run-level operation looks its row up under the key and the
caller together.  For a run under key `id` owned by `v` (the only owner of
rows with that key) and a caller `u` other than `v`: `CancelRun` returns an
error and leaves the whole store, the run included, as it was, and `GetRun`
returns an error; for a workflow under key `workflowID` owned by `v`,
`CreateRun` called by `u` returns an error and leaves the store as it was. -/
theorem operations_scoped_to_owner (env : Env) (s : Store) (id workflowID u v : Nat)
    (inputs : List (String × String)) (huv : u ≠ v)
    (hrun : ∀ r ∈ s.runs, r.ID = id → r.UserID = v)
    (hwf : ∀ w ∈ s.workflows, w.ID = workflowID → w.UserID = v) :
    ((∃ e, (CancelRun env id u s).2 = .error e) ∧ (CancelRun env id u s).1 = s) ∧
    (∃ e, GetRun id u s = .error e) ∧
    ((∃ e, (CreateRun env workflowID u inputs s).2 = .error e) ∧
      (CreateRun env workflowID u inputs s).1 = s) := by
  have h1 : s.firstRun id u = none := by
    unfold Store.firstRun
    apply find?_none_of_forall
    intro r hr
    by_cases hid : r.ID = id
    · have := hrun r hr hid
      simp [hid, this, Ne.symm huv]
    · simp [hid]
  have h2 : s.firstWorkflow workflowID u = none := by
    unfold Store.firstWorkflow
    apply find?_none_of_forall
    intro w hw
    by_cases hid : w.ID = workflowID
    · have := hwf w hw hid
      simp [hid, this, Ne.symm huv]
    · simp [hid]
  refine ⟨?_, ?_, ?_⟩
  · simp [CancelRun, h1]
  · simp [GetRun, h1]
  · simp [CreateRun, h2]

/-- C19, at a store holding workflows and a run of user 7, for the caller
8. -/
theorem operations_scoped_to_owner_witness :
    ((∃ e, (CancelRun namedEnv 1 8 namedStore).2 = .error e) ∧
      (CancelRun namedEnv 1 8 namedStore).1 = namedStore) ∧
    (∃ e, GetRun 1 8 namedStore = .error e) ∧
    ((∃ e, (CreateRun namedEnv 3 8 [] namedStore).2 = .error e) ∧
      (CreateRun namedEnv 3 8 [] namedStore).1 = namedStore) :=
  operations_scoped_to_owner namedEnv namedStore 1 3 8 7 [] (by decide)
    (by decide) (by decide)

/-! ## The rows CreateRun creates -/

theorem createSteps_rows (env : Env) (jobID : Nat) (specs : List StepSpec) :
    ∀ (i : Nat) (s : Store), (createSteps env jobID specs i s).2 = .ok () →
      (createSteps env jobID specs i s).1.steps = s.steps ++ stepRows jobID specs i s.stepSeq ∧
      (createSteps env jobID specs i s).1.stepSeq = s.stepSeq + specs.length ∧
      (createSteps env jobID specs i s).1.jobs = s.jobs ∧
      (createSteps env jobID specs i s).1.jobSeq = s.jobSeq ∧
      (createSteps env jobID specs i s).1.runs = s.runs := by
  induction specs with
  | nil => intro i s _; simp [createSteps, stepRows]
  | cons a t ih =>
    intro i s hok
    by_cases hf : env.fails s.ops = true
    · simp [createSteps, Store.createStep, hf] at hok
    · simp only [createSteps, Store.createStep, hf, Bool.false_eq_true, if_false, if_true] at hok ⊢
      obtain ⟨g1, g2, g3, g4, g5⟩ := ih (i + 1) _ hok
      rw [g1, g2, g3, g4, g5]
      simp only [stepRows, List.length_cons, List.append_assoc, List.singleton_append, and_true,
        true_and]
      omega

theorem createJobs_rows (env : Env) (runID : Nat) (entries : List (String × JobSpec)) :
    ∀ s : Store, (createJobs env runID entries s).2 = .ok () →
      (createJobs env runID entries s).1.jobs = s.jobs ++ jobRows runID entries s.jobSeq ∧
      (createJobs env runID entries s).1.steps =
        s.steps ++ allStepRows entries s.jobSeq s.stepSeq ∧
      (createJobs env runID entries s).1.runs = s.runs := by
  induction entries with
  | nil => intro s _; simp [createJobs, jobRows, allStepRows]
  | cons a t ih =>
    intro s hok
    obtain ⟨jobName, jobSpec⟩ := a
    by_cases hf : env.fails s.ops = true
    · simp [createJobs, Store.createJob, hf] at hok
    · simp only [createJobs, Store.createJob, hf, Bool.false_eq_true, if_false, if_true] at hok ⊢
      generalize hs1 : ({ s with
          jobs := s.jobs ++ [{ ID := s.jobSeq + 1, RunID := runID, Name := jobName, Status := "pending" }],
          jobSeq := s.jobSeq + 1, ops := s.ops + 1,
          journal := s.journal ++ [Event.job (s.jobSeq + 1) "pending"] } : Store) = s1 at hok ⊢
      have e1 : s1.jobs = s.jobs ++
          [{ ID := s.jobSeq + 1, RunID := runID, Name := jobName, Status := "pending" }] := by
        rw [← hs1]
      have e2 : s1.jobSeq = s.jobSeq + 1 := by rw [← hs1]
      have e3 : s1.steps = s.steps := by rw [← hs1]
      have e4 : s1.stepSeq = s.stepSeq := by rw [← hs1]
      have e5 : s1.runs = s.runs := by rw [← hs1]
      rcases hcs : createSteps env (s.jobSeq + 1) jobSpec.Steps 0 s1 with ⟨s2, res⟩
      rw [hcs] at hok
      cases res with
      | error e => simp at hok
      | ok u =>
        have hok2 : (createSteps env (s.jobSeq + 1) jobSpec.Steps 0 s1).2 = .ok () := by
          rw [hcs]
        obtain ⟨c1, c2, c3, c4, c5⟩ := createSteps_rows env (s.jobSeq + 1) jobSpec.Steps 0 s1 hok2
        rw [hcs] at c1 c2 c3 c4 c5
        dsimp only at c1 c2 c3 c4 c5 hok ⊢
        obtain ⟨g1, g2, g3⟩ := ih s2 hok
        rw [g1, g2, g3, c1, c2, c3, c4, c5, e1, e2, e3, e4, e5]
        simp [jobRows, allStepRows]

theorem CreateRun_rows (env : Env) (workflowID userID : Nat) (inputs : List (String × String))
    (s : Store) (wf : Workflow) (spec : WorkflowSpec) (run : Run)
    (hwf : s.firstWorkflow workflowID userID = some wf)
    (hspec : env.unmarshal wf.YAMLContent = .ok spec)
    (hok : (CreateRun env workflowID userID inputs s).2 = .ok run) :
    (CreateRun env workflowID userID inputs s).1.runs =
      s.runs ++ [{ ID := s.runSeq + 1, WorkflowID := workflowID, UserID := userID,
                   Status := "pending" }] ∧
    (CreateRun env workflowID userID inputs s).1.jobs =
      s.jobs ++ jobRows (s.runSeq + 1) spec.Jobs s.jobSeq ∧
    (CreateRun env workflowID userID inputs s).1.steps =
      s.steps ++ allStepRows spec.Jobs s.jobSeq s.stepSeq := by
  unfold CreateRun at hok ⊢
  rw [hwf] at hok ⊢
  by_cases hact : wf.IsActive = true
  · by_cases hf : env.fails s.ops = true
    · simp [hact, hspec, Store.createRun, hf] at hok
    · simp only [hact, hspec, Store.createRun, hf, Bool.not_true, Bool.false_eq_true, if_false,
        if_true] at hok ⊢
      generalize hs1 : ({ s with
          runs := s.runs ++ [{ ID := s.runSeq + 1, WorkflowID := workflowID, UserID := userID, Status := "pending" }],
          runSeq := s.runSeq + 1, ops := s.ops + 1,
          journal := s.journal ++ [Event.run (s.runSeq + 1) "pending"] } : Store) = s1 at hok ⊢
      have e1 : s1.runs = s.runs ++
          [{ ID := s.runSeq + 1, WorkflowID := workflowID, UserID := userID, Status := "pending" }] := by
        rw [← hs1]
      have e2 : s1.jobs = s.jobs := by rw [← hs1]
      have e3 : s1.steps = s.steps := by rw [← hs1]
      have e4 : s1.jobSeq = s.jobSeq := by rw [← hs1]
      have e5 : s1.stepSeq = s.stepSeq := by rw [← hs1]
      rcases hcj : createJobs env (s.runSeq + 1) spec.Jobs s1 with ⟨s2, res⟩
      rw [hcj] at hok
      cases res with
      | error e => simp at hok
      | ok u =>
        have hok2 : (createJobs env (s.runSeq + 1) spec.Jobs s1).2 = .ok () := by rw [hcj]
        obtain ⟨c1, c2, c3⟩ := createJobs_rows env (s.runSeq + 1) spec.Jobs s1 hok2
        rw [hcj] at c1 c2 c3
        dsimp only at c1 c2 c3 hok ⊢
        obtain ⟨r1, r2, r3, _⟩ := Store.reloadRun_tables env s2 (s.runSeq + 1)
        rw [r1, r2, r3, c1, c2, c3, e1, e2, e3, e4, e5]
        exact ⟨rfl, rfl, rfl⟩
  · simp [hact] at hok

theorem stepRows_jobID (jobID : Nat) (specs : List StepSpec) :
    ∀ (i seq : Nat), ∀ st ∈ stepRows jobID specs i seq, st.JobID = jobID := by
  induction specs with
  | nil => intro i seq st hst; simp [stepRows] at hst
  | cons a t ih =>
    intro i seq st hst
    simp only [stepRows, List.mem_cons] at hst
    rcases hst with rfl | hst
    · rfl
    · exact ih _ _ st hst

theorem stepRows_match (jobID : Nat) (specs : List StepSpec) :
    ∀ (i seq : Nat), List.Forall₂
      (fun (st : Step) (stepSpec : StepSpec) => st.Command = stepSpec.Run ∧ st.Status = "pending")
      (stepRows jobID specs i seq) specs := by
  induction specs with
  | nil => intro i seq; exact List.Forall₂.nil
  | cons a t ih => intro i seq; exact List.Forall₂.cons ⟨rfl, rfl⟩ (ih _ _)

theorem stepRows_names (jobID : Nat) (specs : List StepSpec) :
    ∀ (i seq : Nat), (stepRows jobID specs i seq).map (fun st => st.Name) =
      (specs.enumFrom i).map (fun p => stepName p.1 p.2) := by
  induction specs with
  | nil => intro i seq; rfl
  | cons a t ih =>
    intro i seq
    simp only [stepRows, List.map_cons, List.enumFrom_cons, ih]

theorem jobRows_id_gt (runID : Nat) (entries : List (String × JobSpec)) :
    ∀ (seq : Nat), ∀ j ∈ jobRows runID entries seq, seq < j.ID := by
  induction entries with
  | nil => intro seq j hj; simp [jobRows] at hj
  | cons a t ih =>
    intro seq j hj
    simp only [jobRows, List.mem_cons] at hj
    rcases hj with rfl | hj
    · exact Nat.lt_succ_self _
    · exact Nat.lt_of_succ_lt (ih _ j hj)

theorem allStepRows_job (runID : Nat) (entries : List (String × JobSpec)) :
    ∀ (jobSeq stepSeq : Nat), ∀ st ∈ allStepRows entries jobSeq stepSeq,
      jobSeq < st.JobID ∧ ∃ j ∈ jobRows runID entries jobSeq, st.JobID = j.ID := by
  induction entries with
  | nil => intro jobSeq stepSeq st hst; simp [allStepRows] at hst
  | cons a t ih =>
    intro jobSeq stepSeq st hst
    simp only [allStepRows, List.mem_append] at hst
    rcases hst with hst | hst
    · have h := stepRows_jobID _ _ _ _ st hst
      exact ⟨by omega, _, List.mem_cons_self _ _, h⟩
    · obtain ⟨h1, j, hj, h2⟩ := ih _ _ st hst
      exact ⟨by omega, j, List.mem_cons_of_mem _ hj, h2⟩

/-- The steps of each created job, found by its key among the created steps,
are the step rows of its spec. -/
theorem jobRows_grouped (runID : Nat) (entries : List (String × JobSpec)) :
    ∀ (jobSeq stepSeq : Nat), List.Forall₂
      (fun (j : Job) (entry : String × JobSpec) =>
        jobSeq < j.ID ∧ j.Name = entry.1 ∧ j.Status = "pending" ∧ j.RunID = runID ∧
        ∃ seq, (allStepRows entries jobSeq stepSeq).filter (fun st => st.JobID == j.ID) =
          stepRows j.ID entry.2.Steps 0 seq)
      (jobRows runID entries jobSeq) entries := by
  induction entries with
  | nil => intro jobSeq stepSeq; exact List.Forall₂.nil
  | cons a t ih =>
    intro jobSeq stepSeq
    have hhead : ∀ st ∈ stepRows (jobSeq + 1) a.2.Steps 0 stepSeq, st.JobID = jobSeq + 1 :=
      stepRows_jobID _ _ _ _
    have htail : ∀ st ∈ allStepRows t (jobSeq + 1) (stepSeq + a.2.Steps.length),
        jobSeq + 1 < st.JobID := fun st hst => (allStepRows_job runID t _ _ st hst).1
    refine List.Forall₂.cons ⟨Nat.lt_succ_self _, rfl, rfl, rfl, stepSeq, ?_⟩ ?_
    · simp only [allStepRows, List.filter_append]
      have h1 : (stepRows (jobSeq + 1) a.2.Steps 0 stepSeq).filter
          (fun st => st.JobID == jobSeq + 1) = stepRows (jobSeq + 1) a.2.Steps 0 stepSeq := by
        rw [List.filter_eq_self]
        intro st hst
        simp [hhead st hst]
      have h2 : (allStepRows t (jobSeq + 1) (stepSeq + a.2.Steps.length)).filter
          (fun st => st.JobID == jobSeq + 1) = [] := by
        rw [List.filter_eq_nil_iff]
        intro st hst
        have := htail st hst
        simp only [beq_iff_eq]
        omega
      rw [h1, h2, List.append_nil]
    · refine List.Forall₂.imp ?_ (ih (jobSeq + 1) (stepSeq + a.2.Steps.length))
      intro j entry ⟨g1, g2, g3, g4, seq, g5⟩
      refine ⟨by omega, g2, g3, g4, seq, ?_⟩
      simp only [allStepRows, List.filter_append]
      have h1 : (stepRows (jobSeq + 1) a.2.Steps 0 stepSeq).filter
          (fun st => st.JobID == j.ID) = [] := by
        rw [List.filter_eq_nil_iff]
        intro st hst
        have := hhead st hst
        simp only [beq_iff_eq]
        omega
      rw [h1, List.nil_append, g5]

theorem digitChar_value (k : Nat) (h : k < 10) : (Nat.digitChar k).toNat - 48 = k := by
  interval_cases k <;> rfl

theorem decimalValue_snoc (pre : List Char) (c : Char) :
    decimalValue (pre ++ [c]) = 10 * decimalValue pre + (c.toNat - 48) := by
  simp [decimalValue, List.foldl_append]

theorem toDigitsCore_value : ∀ (fuel n : Nat) (ds : List Char), n < fuel →
    ∃ pre, Nat.toDigitsCore 10 fuel n ds = pre ++ ds ∧ decimalValue pre = n := by
  intro fuel
  induction fuel with
  | zero => intro n ds h; exact absurd h (Nat.not_lt_zero _)
  | succ fuel ih =>
    intro n ds h
    unfold Nat.toDigitsCore
    dsimp only
    by_cases h0 : n / 10 = 0
    · rw [if_pos h0]
      refine ⟨[Nat.digitChar (n % 10)], rfl, ?_⟩
      have hlt : n < 10 := by omega
      have := digitChar_value (n % 10) (Nat.mod_lt _ (by decide))
      simp only [decimalValue, List.foldl_cons, List.foldl_nil, this]
      omega
    · rw [if_neg h0]
      obtain ⟨pre, hpre, hval⟩ := ih (n / 10) (Nat.digitChar (n % 10) :: ds) (by omega)
      refine ⟨pre ++ [Nat.digitChar (n % 10)], ?_, ?_⟩
      · rw [hpre]; simp
      · rw [decimalValue_snoc, hval, digitChar_value (n % 10) (Nat.mod_lt _ (by decide))]
        omega

/-- `Nat.repr` writes a number in decimal. -/
theorem decimalValue_repr (n : Nat) : decimalValue (Nat.repr n).toList = n := by
  obtain ⟨pre, hpre, hval⟩ := toDigitsCore_value (n + 1) n [] (Nat.lt_succ_self _)
  have : (Nat.repr n).toList = pre := by
    simp only [Nat.repr, Nat.toDigits, hpre, List.append_nil]
    rfl
  rw [this, hval]

theorem default_name_injective (i j : Nat) (h : "Step " ++ Nat.repr (i + 1) = "Step " ++ Nat.repr (j + 1)) :
    i = j := by
  have h1 : ("Step " ++ Nat.repr (i + 1)).data = ("Step " ++ Nat.repr (j + 1)).data := by rw [h]
  simp only [String.data_append, List.append_cancel_left_eq] at h1
  have h2 : decimalValue (Nat.repr (i + 1)).toList = decimalValue (Nat.repr (j + 1)).toList := by
    show decimalValue (Nat.repr (i + 1)).data = decimalValue (Nat.repr (j + 1)).data
    rw [h1]
  rw [decimalValue_repr, decimalValue_repr] at h2
  omega

/-- C17: when `CreateRun` returns a run, the store has gained exactly one run,
with status "pending"; one job per entry of the jobs map of the decoded spec,
in the order in which the map was visited, each named by its key, with status
"pending" and belonging to the new run; and for each of these jobs one step
per `StepSpec` of its spec, in the declared order, each with status
"pending" and with the `run` field as its command.  Every created step
belongs to one of the created jobs. -/
theorem CreateRun_creates_run_jobs_steps (env : Env) (workflowID userID : Nat)
    (inputs : List (String × String)) (s : Store) (wf : Workflow) (spec : WorkflowSpec)
    (run : Run) (hwf : s.firstWorkflow workflowID userID = some wf)
    (hspec : env.unmarshal wf.YAMLContent = .ok spec)
    (hok : (CreateRun env workflowID userID inputs s).2 = .ok run) :
    ∃ newJobs newSteps,
      (CreateRun env workflowID userID inputs s).1.runs =
        s.runs ++ [{ ID := s.runSeq + 1, WorkflowID := workflowID, UserID := userID,
                     Status := "pending" }] ∧
      (CreateRun env workflowID userID inputs s).1.jobs = s.jobs ++ newJobs ∧
      (CreateRun env workflowID userID inputs s).1.steps = s.steps ++ newSteps ∧
      List.Forall₂
        (fun (j : Job) (entry : String × JobSpec) =>
          j.Name = entry.1 ∧ j.Status = "pending" ∧ j.RunID = s.runSeq + 1 ∧
          List.Forall₂
            (fun (st : Step) (stepSpec : StepSpec) =>
              st.Command = stepSpec.Run ∧ st.Status = "pending")
            (newSteps.filter (fun st => st.JobID == j.ID)) entry.2.Steps)
        newJobs spec.Jobs ∧
      ∀ st ∈ newSteps, ∃ j ∈ newJobs, st.JobID = j.ID := by
  obtain ⟨h1, h2, h3⟩ := CreateRun_rows env workflowID userID inputs s wf spec run hwf hspec hok
  refine ⟨jobRows (s.runSeq + 1) spec.Jobs s.jobSeq, allStepRows spec.Jobs s.jobSeq s.stepSeq,
    h1, h2, h3, ?_, ?_⟩
  · refine List.Forall₂.imp ?_ (jobRows_grouped (s.runSeq + 1) spec.Jobs s.jobSeq s.stepSeq)
    intro j entry ⟨_, g2, g3, g4, seq, g5⟩
    refine ⟨g2, g3, g4, ?_⟩
    rw [g5]
    exact stepRows_match _ _ _ _
  · intro st hst
    exact (allStepRows_job (s.runSeq + 1) spec.Jobs _ _ st hst).2

/-- C17, at the sample workflow with one job of three steps, in a store that
already holds a run, a job and a step. -/
theorem CreateRun_creates_run_jobs_steps_witness :
    ∃ newJobs newSteps,
      (CreateRun namedEnv 5 7 [] namedStore).1.runs =
        namedStore.runs ++ [{ ID := namedStore.runSeq + 1, WorkflowID := 5, UserID := 7,
                              Status := "pending" }] ∧
      (CreateRun namedEnv 5 7 [] namedStore).1.jobs = namedStore.jobs ++ newJobs ∧
      (CreateRun namedEnv 5 7 [] namedStore).1.steps = namedStore.steps ++ newSteps ∧
      List.Forall₂
        (fun (j : Job) (entry : String × JobSpec) =>
          j.Name = entry.1 ∧ j.Status = "pending" ∧ j.RunID = namedStore.runSeq + 1 ∧
          List.Forall₂
            (fun (st : Step) (stepSpec : StepSpec) =>
              st.Command = stepSpec.Run ∧ st.Status = "pending")
            (newSteps.filter (fun st => st.JobID == j.ID)) entry.2.Steps)
        newJobs specNamed.Jobs ∧
      ∀ st ∈ newSteps, ∃ j ∈ newJobs, st.JobID = j.ID :=
  CreateRun_creates_run_jobs_steps namedEnv 5 7 [] namedStore
    { ID := 5, UserID := 7, Name := "named", YAMLContent := yamlNamed } specNamed
    { ID := 2, WorkflowID := 5, UserID := 7, Status := "pending",
      Jobs := (CreateRun namedEnv 5 7 [] namedStore).1.findJobs 2 }
    rfl rfl rfl

/-- C20: when `CreateRun` returns a run, the steps of each created job carry,
in order, the names of its `StepSpec`s, where a step at 0-based position `i`
with an empty name is named "Step " followed by `Nat.repr (i + 1)`;
`Nat.repr` is the decimal numeral of the number, and two default names for
different positions differ. -/
theorem CreateRun_names_steps (env : Env) (workflowID userID : Nat)
    (inputs : List (String × String)) (s : Store) (wf : Workflow) (spec : WorkflowSpec)
    (run : Run) (hwf : s.firstWorkflow workflowID userID = some wf)
    (hspec : env.unmarshal wf.YAMLContent = .ok spec)
    (hok : (CreateRun env workflowID userID inputs s).2 = .ok run) :
    (∃ newJobs newSteps,
      (CreateRun env workflowID userID inputs s).1.jobs = s.jobs ++ newJobs ∧
      (CreateRun env workflowID userID inputs s).1.steps = s.steps ++ newSteps ∧
      List.Forall₂
        (fun (j : Job) (entry : String × JobSpec) =>
          (newSteps.filter (fun st => st.JobID == j.ID)).map (fun st => st.Name) =
            entry.2.Steps.enum.map
              (fun p => if p.2.Name = "" then "Step " ++ Nat.repr (p.1 + 1) else p.2.Name))
        newJobs spec.Jobs) ∧
    (∀ n, decimalValue (Nat.repr n).toList = n) ∧
    (∀ i j, i ≠ j → "Step " ++ Nat.repr (i + 1) ≠ "Step " ++ Nat.repr (j + 1)) := by
  obtain ⟨_, h2, h3⟩ := CreateRun_rows env workflowID userID inputs s wf spec run hwf hspec hok
  refine ⟨⟨jobRows (s.runSeq + 1) spec.Jobs s.jobSeq, allStepRows spec.Jobs s.jobSeq s.stepSeq,
    h2, h3, ?_⟩, decimalValue_repr, fun i j hij h => hij (default_name_injective i j h)⟩
  refine List.Forall₂.imp ?_ (jobRows_grouped (s.runSeq + 1) spec.Jobs s.jobSeq s.stepSeq)
  intro j entry ⟨_, _, _, _, seq, g5⟩
  rw [g5, stepRows_names]
  rfl

/-- C20, at the sample job whose steps are named "compile", "" and "": the
created steps are called "compile", "Step 2" and "Step 3". -/
theorem CreateRun_names_steps_witness :
    ((CreateRun namedEnv 5 7 [] namedStore).1.steps.drop namedStore.steps.length).map
        (fun st => st.Name) = ["compile", "Step 2", "Step 3"] ∧
    (∃ newJobs newSteps,
      (CreateRun namedEnv 5 7 [] namedStore).1.jobs = namedStore.jobs ++ newJobs ∧
      (CreateRun namedEnv 5 7 [] namedStore).1.steps = namedStore.steps ++ newSteps ∧
      List.Forall₂
        (fun (j : Job) (entry : String × JobSpec) =>
          (newSteps.filter (fun st => st.JobID == j.ID)).map (fun st => st.Name) =
            entry.2.Steps.enum.map
              (fun p => if p.2.Name = "" then "Step " ++ Nat.repr (p.1 + 1) else p.2.Name))
        newJobs specNamed.Jobs) :=
  ⟨rfl, (CreateRun_names_steps namedEnv 5 7 [] namedStore
    { ID := 5, UserID := 7, Name := "named", YAMLContent := yamlNamed } specNamed
    { ID := 2, WorkflowID := 5, UserID := 7, Status := "pending",
      Jobs := (CreateRun namedEnv 5 7 [] namedStore).1.findJobs 2 }
    rfl rfl rfl).1⟩

theorem stepRows_commands (jobID : Nat) (specs : List StepSpec) :
    ∀ (i seq : Nat), (stepRows jobID specs i seq).map (fun st => st.Command) =
      specs.map (fun stepSpec => stepSpec.Run) := by
  induction specs with
  | nil => intro i seq; rfl
  | cons a t ih => intro i seq; simp only [stepRows, List.map_cons, ih]

theorem allStepRows_commands (entries : List (String × JobSpec)) :
    ∀ (jobSeq stepSeq : Nat), (allStepRows entries jobSeq stepSeq).map (fun st => st.Command) =
      entries.flatMap (fun entry => entry.2.Steps.map (fun stepSpec => stepSpec.Run)) := by
  induction entries with
  | nil => intro jobSeq stepSeq; rfl
  | cons a t ih =>
    intro jobSeq stepSeq
    simp only [allStepRows, List.map_append, List.flatMap_cons, stepRows_commands, ih]

/-- C15 fails as stated: the sample spec has a step without a command;
`CreateWorkflow` stores the workflow and `CreateRun` returns a run and creates
a step whose command is empty. -/
theorem empty_command_accepted_counterexample :
    (specHollow.Jobs.flatMap (fun entry => entry.2.Steps.map (fun stepSpec => stepSpec.Run)) =
      [""]) ∧
    (CreateWorkflow namedEnv { UserID := 7, Name := "hollow", YAMLContent := yamlHollow }
      { }).2 = .ok () ∧
    ∃ s1 run, CreateRun namedEnv 6 7 [] namedStore = (s1, .ok run) ∧
      (s1.steps.drop namedStore.steps.length).map (fun st => (st.Name, st.Command)) =
        [("nothing", "")] :=
  ⟨rfl, rfl, _, _, rfl, rfl⟩

/-! ## CreateRun and rejected statements -/

theorem insertedJobs_append (a b : List Insert) :
    insertedJobs (a ++ b) = insertedJobs a ++ insertedJobs b := by
  induction a with
  | nil => rfl
  | cons x a ih => cases x <;> simp [insertedJobs, ih]

theorem insertedSteps_append (a b : List Insert) :
    insertedSteps (a ++ b) = insertedSteps a ++ insertedSteps b := by
  induction a with
  | nil => rfl
  | cons x a ih => cases x <;> simp [insertedSteps, ih]

theorem insertedJobs_steps (l : List Step) : insertedJobs (l.map Insert.step) = [] := by
  induction l with
  | nil => rfl
  | cons x l ih => simp [insertedJobs, ih]

theorem insertedSteps_steps (l : List Step) : insertedSteps (l.map Insert.step) = l := by
  induction l with
  | nil => rfl
  | cons x l ih => simp [insertedSteps, ih]

theorem stepRows_length (jobID : Nat) (specs : List StepSpec) :
    ∀ (i seq : Nat), (stepRows jobID specs i seq).length = specs.length := by
  induction specs with
  | nil => intro i seq; rfl
  | cons a rest ih => intro i seq; simp [stepRows, ih]

/-- The creates of a complete call are the job rows and the step rows of the
run. -/
theorem inserts_rows (runID : Nat) (entries : List (String × JobSpec)) :
    ∀ (jobSeq stepSeq : Nat),
      insertedJobs (inserts runID entries jobSeq stepSeq) = jobRows runID entries jobSeq ∧
      insertedSteps (inserts runID entries jobSeq stepSeq) = allStepRows entries jobSeq stepSeq := by
  induction entries with
  | nil => intro jobSeq stepSeq; exact ⟨rfl, rfl⟩
  | cons entry rest ih =>
    intro jobSeq stepSeq
    obtain ⟨h1, h2⟩ := ih (jobSeq + 1) (stepSeq + entry.2.Steps.length)
    constructor
    · simp [inserts, insertedJobs, insertedJobs_append, insertedJobs_steps, jobRows, h1]
    · simp [inserts, insertedSteps, insertedSteps_append, insertedSteps_steps, allStepRows, h2]

theorem Store.createStep_acked (env : Env) (s : Store) (st : Step) (hid : st.ID = 0)
    (hack : env.fails s.ops = false) :
    s.createStep env st =
      ({ s with steps := s.steps ++ [{ st with ID := s.stepSeq + 1, Logs := [] }],
                stepSeq := s.stepSeq + 1, ops := s.ops + 1,
                journal := s.journal ++ [Event.step (s.stepSeq + 1) st.Status] },
       .ok { st with ID := s.stepSeq + 1 }) := by
  simp [Store.createStep, hack, hid]

theorem Store.createJob_acked (env : Env) (s : Store) (j : Job) (hid : j.ID = 0)
    (hack : env.fails s.ops = false) :
    s.createJob env j =
      ({ s with jobs := s.jobs ++ [{ j with ID := s.jobSeq + 1, Steps := [] }],
                jobSeq := s.jobSeq + 1, ops := s.ops + 1,
                journal := s.journal ++ [Event.job (s.jobSeq + 1) j.Status] },
       .ok { j with ID := s.jobSeq + 1 }) := by
  simp [Store.createJob, hack, hid]

/-- The inner loop of `CreateRun` on any database: it stores the rows of the
steps up to the first create that is rejected. -/
theorem createSteps_upto (env : Env) (jobID : Nat) (specs : List StepSpec) :
    ∀ (i : Nat) (s : Store), ∃ n, n ≤ specs.length ∧
      (∀ k, k < n → env.fails (s.ops + k) = false) ∧
      (createSteps env jobID specs i s).1.steps =
        s.steps ++ (stepRows jobID specs i s.stepSeq).take n ∧
      (createSteps env jobID specs i s).1.jobs = s.jobs ∧
      (createSteps env jobID specs i s).1.runs = s.runs ∧
      (createSteps env jobID specs i s).1.logs = s.logs ∧
      (createSteps env jobID specs i s).1.workflows = s.workflows ∧
      (createSteps env jobID specs i s).1.jobSeq = s.jobSeq ∧
      ((n = specs.length ∧ (createSteps env jobID specs i s).2 = .ok () ∧
          (createSteps env jobID specs i s).1.ops = s.ops + n ∧
          (createSteps env jobID specs i s).1.stepSeq = s.stepSeq + n) ∨
       (n < specs.length ∧ env.fails (s.ops + n) = true ∧
          (createSteps env jobID specs i s).2 = .error errDatabase ∧
          (createSteps env jobID specs i s).1.ops = s.ops + n + 1)) := by
  induction specs with
  | nil =>
    intro i s
    exact ⟨0, le_refl _, fun k hk => absurd hk (Nat.not_lt_zero _), by simp [createSteps, stepRows],
      rfl, rfl, rfl, rfl, rfl, Or.inl ⟨rfl, rfl, rfl, rfl⟩⟩
  | cons stepSpec rest ih =>
    intro i s
    by_cases hf : env.fails s.ops = true
    · refine ⟨0, Nat.zero_le _, fun k hk => absurd hk (Nat.not_lt_zero _), ?_, ?_, ?_, ?_, ?_, ?_,
        Or.inr ⟨by simp, by simpa using hf, ?_, ?_⟩⟩ <;>
      simp [createSteps, Store.createStep, hf, Store.rejected]
    · have hf0 : env.fails s.ops = false := by simpa using hf
      unfold createSteps
      dsimp only
      rw [Store.createStep_acked env s _ rfl hf0]
      dsimp only
      obtain ⟨n, hn, hacc, hsteps, hjobs, hruns, hlogs, hwfs, hjseq, hcase⟩ := ih (i + 1)
        { s with steps := s.steps ++ [{ ID := s.stepSeq + 1, JobID := jobID, Name := stepName i stepSpec, Command := stepSpec.Run, Status := "pending" }],
                 stepSeq := s.stepSeq + 1, ops := s.ops + 1,
                 journal := s.journal ++ [Event.step (s.stepSeq + 1) "pending"] }
      dsimp only at hacc hsteps hjobs hruns hlogs hwfs hjseq hcase
      refine ⟨n + 1, by simpa using hn, ?_, ?_, hjobs, hruns, hlogs, hwfs, hjseq, ?_⟩
      · intro k hk
        cases k with
        | zero => simpa using hf0
        | succ k =>
          have := hacc k (by omega)
          rw [← this]
          congr 1
          omega
      · rw [hsteps]
        simp [stepRows]
      · rcases hcase with ⟨h1, h2, h3, h4⟩ | ⟨h1, h2, h3, h4⟩
        · left
          refine ⟨by simp [h1], h2, ?_, ?_⟩
          · rw [h3]; omega
          · rw [h4]; omega
        · right
          refine ⟨by simpa using h1, ?_, h3, ?_⟩
          · rw [← h2]
            congr 1
            omega
          · rw [h4]; omega

/-- The outer loop of `CreateRun` on any database: it stores the rows of the
creates up to the first one that is rejected. -/
theorem createJobs_upto (env : Env) (runID : Nat) (entries : List (String × JobSpec)) :
    ∀ s : Store, ∃ n, n ≤ (inserts runID entries s.jobSeq s.stepSeq).length ∧
      (∀ k, k < n → env.fails (s.ops + k) = false) ∧
      (createJobs env runID entries s).1.jobs =
        s.jobs ++ insertedJobs ((inserts runID entries s.jobSeq s.stepSeq).take n) ∧
      (createJobs env runID entries s).1.steps =
        s.steps ++ insertedSteps ((inserts runID entries s.jobSeq s.stepSeq).take n) ∧
      (createJobs env runID entries s).1.runs = s.runs ∧
      (createJobs env runID entries s).1.logs = s.logs ∧
      (createJobs env runID entries s).1.workflows = s.workflows ∧
      ((n = (inserts runID entries s.jobSeq s.stepSeq).length ∧
          (createJobs env runID entries s).2 = .ok () ∧
          (createJobs env runID entries s).1.ops = s.ops + n) ∨
       (n < (inserts runID entries s.jobSeq s.stepSeq).length ∧ env.fails (s.ops + n) = true ∧
          (createJobs env runID entries s).2 = .error errDatabase ∧
          (createJobs env runID entries s).1.ops = s.ops + n + 1)) := by
  induction entries with
  | nil =>
    intro s
    exact ⟨0, le_refl _, fun k hk => absurd hk (Nat.not_lt_zero _),
      by simp [createJobs, inserts, insertedJobs],
      by simp [createJobs, inserts, insertedSteps], rfl, rfl, rfl, Or.inl ⟨rfl, rfl, rfl⟩⟩
  | cons entry rest ih =>
    intro s
    obtain ⟨jobName, jobSpec⟩ := entry
    by_cases hf : env.fails s.ops = true
    · refine ⟨0, Nat.zero_le _, fun k hk => absurd hk (Nat.not_lt_zero _), ?_, ?_, ?_, ?_, ?_,
        Or.inr ⟨by simp [inserts], by simpa using hf, ?_, ?_⟩⟩ <;>
      simp [createJobs, Store.createJob, hf, Store.rejected, insertedJobs, insertedSteps]
    · have hf0 : env.fails s.ops = false := by simpa using hf
      unfold createJobs
      dsimp only
      rw [Store.createJob_acked env s _ rfl hf0]
      dsimp only
      obtain ⟨m, hm, macc, msteps, mjobs, mruns, mlogs, mwfs, mjseq, mcase⟩ :=
        createSteps_upto env (s.jobSeq + 1) jobSpec.Steps 0
          { s with jobs := s.jobs ++ [{ ID := s.jobSeq + 1, RunID := runID, Name := jobName, Status := "pending" }],
                   jobSeq := s.jobSeq + 1, ops := s.ops + 1,
                   journal := s.journal ++ [Event.job (s.jobSeq + 1) "pending"] }
      dsimp only at macc msteps mjobs mruns mlogs mwfs mjseq mcase
      rcases hcs : createSteps env (s.jobSeq + 1) jobSpec.Steps 0
          { s with jobs := s.jobs ++ [{ ID := s.jobSeq + 1, RunID := runID, Name := jobName, Status := "pending" }],
                   jobSeq := s.jobSeq + 1, ops := s.ops + 1,
                   journal := s.journal ++ [Event.job (s.jobSeq + 1) "pending"] } with ⟨s2, res⟩
      rw [hcs] at msteps mjobs mruns mlogs mwfs mjseq mcase
      dsimp only at msteps mjobs mruns mlogs mwfs mjseq mcase
      have hlen := stepRows_length (s.jobSeq + 1) jobSpec.Steps 0 s.stepSeq
      rcases mcase with ⟨h1, h2, h3, h4⟩ | ⟨h1, h2, h3, h4⟩
      · subst h2
        dsimp only
        obtain ⟨n, hn, hacc, hjobs, hsteps, hruns, hlogs, hwfs, hcase⟩ := ih s2
        rw [mjseq, h4, h1] at hn hjobs hsteps hcase
        refine ⟨1 + (jobSpec.Steps.length + n), ?_, ?_, ?_, ?_, hruns.trans mruns,
          hlogs.trans mlogs, hwfs.trans mwfs, ?_⟩
        · simp only [inserts, List.length_cons, List.length_append, List.length_map, hlen]
          omega
        · intro k hk
          cases k with
          | zero => simpa using hf0
          | succ k =>
            by_cases hk2 : k < m
            · have := macc k hk2
              rw [← this]
              congr 1
              omega
            · have := hacc (k - m) (by omega)
              rw [← this, h3]
              congr 1
              omega
        · rw [hjobs, mjobs]
          simp only [inserts, Nat.add_comm 1, List.take_succ_cons, insertedJobs]
          rw [← hlen, ← List.length_map (stepRows (s.jobSeq + 1) jobSpec.Steps 0 s.stepSeq) Insert.step,
            List.take_append, insertedJobs_append, insertedJobs_steps]
          simp
        · rw [hsteps, msteps]
          simp only [inserts, Nat.add_comm 1, List.take_succ_cons, insertedSteps]
          rw [← hlen, ← List.length_map (stepRows (s.jobSeq + 1) jobSpec.Steps 0 s.stepSeq) Insert.step,
            List.take_append, insertedSteps_append, insertedSteps_steps, h1]
          rw [← hlen, List.take_length]
          simp
        · rcases hcase with ⟨g1, g2, g3⟩ | ⟨g1, g2, g3, g4⟩
          · left
            refine ⟨?_, g2, ?_⟩
            · simp only [inserts, List.length_cons, List.length_append, List.length_map, hlen]
              omega
            · rw [g3, h3]; omega
          · right
            refine ⟨?_, ?_, g3, ?_⟩
            · simp only [inserts, List.length_cons, List.length_append, List.length_map, hlen]
              omega
            · rw [← g2, h3]
              congr 1
              omega
            · rw [g4, h3]; omega
      · subst h3
        dsimp only
        refine ⟨1 + m, ?_, ?_, ?_, ?_, mruns, mlogs, mwfs, Or.inr ⟨?_, ?_, rfl, ?_⟩⟩
        · simp only [inserts, List.length_cons, List.length_append, List.length_map, hlen]
          omega
        · intro k hk
          cases k with
          | zero => simpa using hf0
          | succ k =>
            have := macc k (by omega)
            rw [← this]
            congr 1
            omega
        · rw [mjobs]
          simp only [inserts, Nat.add_comm 1, List.take_succ_cons, insertedJobs]
          rw [List.take_append_of_le_length (by rw [List.length_map, hlen]; omega),
            ← List.map_take, insertedJobs_steps]
        · rw [msteps]
          simp only [inserts, Nat.add_comm 1, List.take_succ_cons, insertedSteps]
          rw [List.take_append_of_le_length (by rw [List.length_map, hlen]; omega),
            ← List.map_take, insertedSteps_steps]
        · simp only [inserts, List.length_cons, List.length_append, List.length_map, hlen]
          omega
        · rw [← h2]
          congr 1
          omega
        · rw [h4]; omega

/-- What `CreateRun` does once its checks have passed and the create of the run
is acknowledged, on any database: the run row is stored, and of the creates
that follow, those up to the first rejected statement; the call returns a run
when no statement up to and including the reload is rejected, and the
database error otherwise. -/
theorem CreateRun_upto (env : Env) (workflowID userID : Nat) (inputs : List (String × String))
    (s : Store) (wf : Workflow) (spec : WorkflowSpec)
    (hwf : s.firstWorkflow workflowID userID = some wf) (hact : wf.IsActive = true)
    (hspec : env.unmarshal wf.YAMLContent = .ok spec) (h0 : env.fails s.ops = false) :
    ∃ n, n ≤ (inserts (s.runSeq + 1) spec.Jobs s.jobSeq s.stepSeq).length ∧
      (∀ k, k < n → env.fails (s.ops + 1 + k) = false) ∧
      (CreateRun env workflowID userID inputs s).1.runs =
        s.runs ++ [{ ID := s.runSeq + 1, WorkflowID := workflowID, UserID := userID,
                     Status := "pending" }] ∧
      (CreateRun env workflowID userID inputs s).1.jobs =
        s.jobs ++ insertedJobs ((inserts (s.runSeq + 1) spec.Jobs s.jobSeq s.stepSeq).take n) ∧
      (CreateRun env workflowID userID inputs s).1.steps =
        s.steps ++ insertedSteps ((inserts (s.runSeq + 1) spec.Jobs s.jobSeq s.stepSeq).take n) ∧
      (CreateRun env workflowID userID inputs s).1.logs = s.logs ∧
      (CreateRun env workflowID userID inputs s).1.workflows = s.workflows ∧
      ((n = (inserts (s.runSeq + 1) spec.Jobs s.jobSeq s.stepSeq).length ∧
          env.fails (s.ops + 1 + n) = false ∧
          ∃ run, (CreateRun env workflowID userID inputs s).2 = .ok run) ∨
       (env.fails (s.ops + 1 + n) = true ∧
          (CreateRun env workflowID userID inputs s).2 = .error errDatabase)) := by
  unfold CreateRun
  rw [hwf]
  simp only [hact, hspec, Bool.not_true, Bool.false_eq_true, if_false, Store.createRun, h0,
    if_true]
  obtain ⟨n, hn, hacc, hjobs, hsteps, hruns, hlogs, hwfs, hcase⟩ :=
    createJobs_upto env (s.runSeq + 1) spec.Jobs
      { s with runs := s.runs ++ [{ ID := s.runSeq + 1, WorkflowID := workflowID, UserID := userID, Status := "pending" }],
               runSeq := s.runSeq + 1, ops := s.ops + 1,
               journal := s.journal ++ [Event.run (s.runSeq + 1) "pending"] }
  dsimp only at hn hacc hjobs hsteps hruns hlogs hwfs hcase
  rcases hcj : createJobs env (s.runSeq + 1) spec.Jobs
      { s with runs := s.runs ++ [{ ID := s.runSeq + 1, WorkflowID := workflowID, UserID := userID, Status := "pending" }],
               runSeq := s.runSeq + 1, ops := s.ops + 1,
               journal := s.journal ++ [Event.run (s.runSeq + 1) "pending"] } with ⟨s2, res⟩
  rw [hcj] at hjobs hsteps hruns hlogs hwfs hcase
  dsimp only at hjobs hsteps hruns hlogs hwfs hcase
  rcases hcase with ⟨g1, g2, g3⟩ | ⟨g1, g2, g3, g4⟩
  · subst g2
    dsimp only
    obtain ⟨r1, r2, r3, r4, r5, _, _⟩ := Store.reloadRun_tables env s2 (s.runSeq + 1)
    refine ⟨n, hn, hacc, r1.trans hruns, r2.trans hjobs, r3.trans hsteps, r4.trans hlogs,
      r5.trans hwfs, ?_⟩
    by_cases hf : env.fails s2.ops = true
    · right
      rw [g3] at hf
      exact ⟨hf, by rw [Store.reloadRun_rejected env s2 _ (by rw [g3]; exact hf)]⟩
    · left
      have hf0 : env.fails s2.ops = false := by simpa using hf
      have hmem : ∃ r ∈ s2.runs, r.ID = s.runSeq + 1 := by
        rw [hruns]
        exact ⟨_, List.mem_append_right _ (List.mem_singleton.2 rfl), rfl⟩
      obtain ⟨run, hfound, _⟩ := Store.firstRunPreload_of_mem s2 (s.runSeq + 1) hmem
      refine ⟨g1, by rw [← g3]; exact hf0, run, ?_⟩
      rw [Store.reloadRun_ack env s2 _ run hf0 hfound]
  · subst g3
    dsimp only
    exact ⟨n, hn, hacc, hruns, hjobs, hsteps, hlogs, hwfs, Or.inr ⟨g2, rfl⟩⟩

/-- C7 amended: `CreateRun` makes its checks (workflow of the caller found,
active, document decodes) before its first write, uses no transaction and
undoes no write.  When it returns an error, either the error comes from a
check or from the create of the run, and the runs, jobs, steps, logs and
workflows tables are as before; or the create of the run was acknowledged and
a later statement, the `n`-th after it (a create of a job or of a step, or the
reload that ends the call), is the first the database rejected: then the error
is the one of the database, and the run row and the rows of the `n` creates
before the rejected statement are in the store.  Conversely, whenever the
`n`-th statement after an acknowledged create of the run is the first one
rejected, the call returns the error and leaves these rows behind, all job and
step rows of the run when the rejected statement is the reload.  In
particular an error on a database that rejects no statement after the create
of the run leaves the tables as they were. -/
theorem CreateRun_error_leaves_rows_created (env : Env) (workflowID userID : Nat)
    (inputs : List (String × String)) (s : Store) :
    (∀ e, (CreateRun env workflowID userID inputs s).2 = .error e →
      (((s.firstWorkflow workflowID userID = none ∨
          (∃ wf, s.firstWorkflow workflowID userID = some wf ∧
            (wf.IsActive = false ∨ ∃ msg, env.unmarshal wf.YAMLContent = .error msg)) ∨
          env.fails s.ops = true) ∧
        (CreateRun env workflowID userID inputs s).1.runs = s.runs ∧
        (CreateRun env workflowID userID inputs s).1.jobs = s.jobs ∧
        (CreateRun env workflowID userID inputs s).1.steps = s.steps ∧
        (CreateRun env workflowID userID inputs s).1.logs = s.logs ∧
        (CreateRun env workflowID userID inputs s).1.workflows = s.workflows) ∨
       (∃ wf spec n, s.firstWorkflow workflowID userID = some wf ∧ wf.IsActive = true ∧
          env.unmarshal wf.YAMLContent = .ok spec ∧ env.fails s.ops = false ∧
          n ≤ (inserts (s.runSeq + 1) spec.Jobs s.jobSeq s.stepSeq).length ∧
          (∀ k, k < n → env.fails (s.ops + 1 + k) = false) ∧
          env.fails (s.ops + 1 + n) = true ∧ e = errDatabase ∧
          (CreateRun env workflowID userID inputs s).1.runs =
            s.runs ++ [{ ID := s.runSeq + 1, WorkflowID := workflowID, UserID := userID,
                         Status := "pending" }] ∧
          (CreateRun env workflowID userID inputs s).1.jobs = s.jobs ++
            insertedJobs ((inserts (s.runSeq + 1) spec.Jobs s.jobSeq s.stepSeq).take n) ∧
          (CreateRun env workflowID userID inputs s).1.steps = s.steps ++
            insertedSteps ((inserts (s.runSeq + 1) spec.Jobs s.jobSeq s.stepSeq).take n)))) ∧
    (∀ wf spec n, s.firstWorkflow workflowID userID = some wf → wf.IsActive = true →
      env.unmarshal wf.YAMLContent = .ok spec → env.fails s.ops = false →
      n ≤ (inserts (s.runSeq + 1) spec.Jobs s.jobSeq s.stepSeq).length →
      (∀ k, k < n → env.fails (s.ops + 1 + k) = false) →
      env.fails (s.ops + 1 + n) = true →
      (CreateRun env workflowID userID inputs s).2 = .error errDatabase ∧
      (CreateRun env workflowID userID inputs s).1.runs =
        s.runs ++ [{ ID := s.runSeq + 1, WorkflowID := workflowID, UserID := userID,
                     Status := "pending" }] ∧
      (CreateRun env workflowID userID inputs s).1.jobs = s.jobs ++
        insertedJobs ((inserts (s.runSeq + 1) spec.Jobs s.jobSeq s.stepSeq).take n) ∧
      (CreateRun env workflowID userID inputs s).1.steps = s.steps ++
        insertedSteps ((inserts (s.runSeq + 1) spec.Jobs s.jobSeq s.stepSeq).take n) ∧
      (CreateRun env workflowID userID inputs s).1.logs = s.logs ∧
      (CreateRun env workflowID userID inputs s).1.workflows = s.workflows ∧
      (n = (inserts (s.runSeq + 1) spec.Jobs s.jobSeq s.stepSeq).length →
        (CreateRun env workflowID userID inputs s).1.jobs =
          s.jobs ++ jobRows (s.runSeq + 1) spec.Jobs s.jobSeq ∧
        (CreateRun env workflowID userID inputs s).1.steps =
          s.steps ++ allStepRows spec.Jobs s.jobSeq s.stepSeq)) ∧
    (∀ e, (CreateRun env workflowID userID inputs s).2 = .error e → env.acksFrom (s.ops + 1) →
      (CreateRun env workflowID userID inputs s).1.runs = s.runs ∧
      (CreateRun env workflowID userID inputs s).1.jobs = s.jobs ∧
      (CreateRun env workflowID userID inputs s).1.steps = s.steps ∧
      (CreateRun env workflowID userID inputs s).1.logs = s.logs ∧
      (CreateRun env workflowID userID inputs s).1.workflows = s.workflows) := by
  have hA : ∀ e, (CreateRun env workflowID userID inputs s).2 = .error e →
      (((s.firstWorkflow workflowID userID = none ∨
          (∃ wf, s.firstWorkflow workflowID userID = some wf ∧
            (wf.IsActive = false ∨ ∃ msg, env.unmarshal wf.YAMLContent = .error msg)) ∨
          env.fails s.ops = true) ∧
        (CreateRun env workflowID userID inputs s).1.runs = s.runs ∧
        (CreateRun env workflowID userID inputs s).1.jobs = s.jobs ∧
        (CreateRun env workflowID userID inputs s).1.steps = s.steps ∧
        (CreateRun env workflowID userID inputs s).1.logs = s.logs ∧
        (CreateRun env workflowID userID inputs s).1.workflows = s.workflows) ∨
       (∃ wf spec n, s.firstWorkflow workflowID userID = some wf ∧ wf.IsActive = true ∧
          env.unmarshal wf.YAMLContent = .ok spec ∧ env.fails s.ops = false ∧
          n ≤ (inserts (s.runSeq + 1) spec.Jobs s.jobSeq s.stepSeq).length ∧
          (∀ k, k < n → env.fails (s.ops + 1 + k) = false) ∧
          env.fails (s.ops + 1 + n) = true ∧ e = errDatabase ∧
          (CreateRun env workflowID userID inputs s).1.runs =
            s.runs ++ [{ ID := s.runSeq + 1, WorkflowID := workflowID, UserID := userID,
                         Status := "pending" }] ∧
          (CreateRun env workflowID userID inputs s).1.jobs = s.jobs ++
            insertedJobs ((inserts (s.runSeq + 1) spec.Jobs s.jobSeq s.stepSeq).take n) ∧
          (CreateRun env workflowID userID inputs s).1.steps = s.steps ++
            insertedSteps ((inserts (s.runSeq + 1) spec.Jobs s.jobSeq s.stepSeq).take n))) := by
    intro e herr
    cases hwf : s.firstWorkflow workflowID userID with
    | none => left; simp [CreateRun, hwf]
    | some wf =>
      by_cases hact : wf.IsActive = true
      · cases hspec : env.unmarshal wf.YAMLContent with
        | error msg =>
          left
          refine ⟨Or.inr (Or.inl ⟨wf, rfl, Or.inr ⟨msg, hspec⟩⟩), ?_⟩
          simp [CreateRun, hwf, hact, hspec]
        | ok spec =>
          by_cases hf : env.fails s.ops = true
          · left
            refine ⟨Or.inr (Or.inr hf), ?_⟩
            simp [CreateRun, hwf, hact, hspec, Store.createRun, hf, Store.rejected]
          · right
            have hf0 : env.fails s.ops = false := by simpa using hf
            obtain ⟨n, hn, hacc, hruns, hjobs, hsteps, _, _, hcase⟩ :=
              CreateRun_upto env workflowID userID inputs s wf spec hwf hact hspec hf0
            rcases hcase with ⟨_, _, run, hok⟩ | ⟨hrej, herr2⟩
            · rw [hok] at herr
              cases herr
            · rw [herr2] at herr
              cases herr
              exact ⟨wf, spec, n, rfl, hact, hspec, hf0, hn, hacc, hrej, rfl, hruns, hjobs, hsteps⟩
      · left
        have hact0 : wf.IsActive = false := by simpa using hact
        refine ⟨Or.inr (Or.inl ⟨wf, rfl, Or.inl hact0⟩), ?_⟩
        simp [CreateRun, hwf, hact0]
  refine ⟨hA, ?_, ?_⟩
  · intro wf spec n hwf hact hspec hf0 hn hacc hrej
    obtain ⟨m, hm, macc, hruns, hjobs, hsteps, hlogs, hwfs, hcase⟩ :=
      CreateRun_upto env workflowID userID inputs s wf spec hwf hact hspec hf0
    have hmn : m = n := by
      rcases Nat.lt_trichotomy m n with h | h | h
      · exfalso
        have hfalse := hacc m h
        rcases hcase with ⟨g1, _, _⟩ | ⟨g1, _⟩
        · omega
        · rw [g1] at hfalse
          cases hfalse
      · exact h
      · exfalso
        have hfalse := macc n h
        rw [hrej] at hfalse
        cases hfalse
    subst hmn
    rcases hcase with ⟨_, g2, _⟩ | ⟨_, herr⟩
    · rw [hrej] at g2
      cases g2
    · refine ⟨herr, hruns, hjobs, hsteps, hlogs, hwfs, ?_⟩
      intro hall
      obtain ⟨i1, i2⟩ := inserts_rows (s.runSeq + 1) spec.Jobs s.jobSeq s.stepSeq
      rw [hjobs, hsteps, hall, List.take_length, i1, i2]
      exact ⟨rfl, rfl⟩
  · intro e herr hack
    rcases hA e herr with ⟨_, h⟩ | ⟨wf, spec, n, _, _, _, _, _, _, hrej, _⟩
    · exact h
    · exfalso
      have := hack (s.ops + 1 + n) (by omega)
      rw [hrej] at this
      cases this

/-- C7 amended, at three databases for the sample workflow 3, whose run has
two jobs of one step each.  Rejecting the reload (statement 5) leaves the run,
both jobs and both steps in the store; rejecting the create of the second job
(statement 3) leaves the run, the first job and its step; rejecting the create
of the run (statement 0) leaves the tables as they were. -/
theorem CreateRun_error_leaves_rows_created_witness :
    ((CreateRun (flakyEnv 5) 3 7 [] sampleStore).2 = .error errDatabase ∧
      (CreateRun (flakyEnv 5) 3 7 [] sampleStore).1.runs.map (fun r => (r.ID, r.Status)) =
        [(1, "pending")] ∧
      (CreateRun (flakyEnv 5) 3 7 [] sampleStore).1.jobs =
        sampleStore.jobs ++ jobRows 1 specNeeds.Jobs 0 ∧
      (CreateRun (flakyEnv 5) 3 7 [] sampleStore).1.steps =
        sampleStore.steps ++ allStepRows specNeeds.Jobs 0 0 ∧
      (CreateRun (flakyEnv 5) 3 7 [] sampleStore).1.jobs.map (fun j => j.Name) =
        ["test", "build"] ∧
      (CreateRun (flakyEnv 5) 3 7 [] sampleStore).1.steps.map (fun st => st.Command) =
        ["echo ok", "echo hi"]) ∧
    ((CreateRun (flakyEnv 3) 3 7 [] sampleStore).2 = .error errDatabase ∧
      (CreateRun (flakyEnv 3) 3 7 [] sampleStore).1.jobs = sampleStore.jobs ++
        insertedJobs ((inserts 1 specNeeds.Jobs 0 0).take 2) ∧
      (CreateRun (flakyEnv 3) 3 7 [] sampleStore).1.steps = sampleStore.steps ++
        insertedSteps ((inserts 1 specNeeds.Jobs 0 0).take 2) ∧
      (CreateRun (flakyEnv 3) 3 7 [] sampleStore).1.jobs.map (fun j => j.Name) = ["test"]) ∧
    ((CreateRun (flakyEnv 0) 3 7 [] sampleStore).2 = .error errDatabase ∧
      (CreateRun (flakyEnv 0) 3 7 [] sampleStore).1.runs = sampleStore.runs ∧
      (CreateRun (flakyEnv 0) 3 7 [] sampleStore).1.jobs = sampleStore.jobs ∧
      (CreateRun (flakyEnv 0) 3 7 [] sampleStore).1.steps = sampleStore.steps) :=
  have h5 := (CreateRun_error_leaves_rows_created (flakyEnv 5) 3 7 [] sampleStore).2.1
    { ID := 3, UserID := 7, Name := "ci", YAMLContent := yamlNeeds } specNeeds 4
    rfl rfl rfl rfl (by decide) (by decide) rfl
  have h3 := (CreateRun_error_leaves_rows_created (flakyEnv 3) 3 7 [] sampleStore).2.1
    { ID := 3, UserID := 7, Name := "ci", YAMLContent := yamlNeeds } specNeeds 2
    rfl rfl rfl rfl (by decide) (by decide) rfl
  have h0 := (CreateRun_error_leaves_rows_created (flakyEnv 0) 3 7 [] sampleStore).2.2
    errDatabase rfl (fun k hk => by
      have hk0 : k ≠ 0 := by
        intro h
        rw [h] at hk
        exact absurd hk (by decide)
      simpa [flakyEnv] using hk0)
  ⟨⟨h5.1, rfl, (h5.2.2.2.2.2.2 rfl).1, (h5.2.2.2.2.2.2 rfl).2, rfl, rfl⟩,
    ⟨h3.1, h3.2.2.1, h3.2.2.2.1, rfl⟩, ⟨rfl, h0.1, h0.2.1, h0.2.2.1⟩⟩

/-! ## executeRun and the stored steps -/

theorem Store.saveStep_acked (env : Env) (s : Store) (st : Step) (hid : st.ID ≠ 0)
    (hack : env.fails s.ops = false) :
    (s.saveStep env st).2 = .ok st ∧ (s.saveStep env st).1.logs = s.logs ∧
    (s.saveStep env st).1.ops = s.ops + 1 ∧ (s.saveStep env st).1.logSeq = s.logSeq ∧
    ∀ r, r ∈ (s.saveStep env st).1.steps ↔
      (r ∈ s.steps ∧ r.ID ≠ st.ID) ∨ r = { st with Logs := [] } := by
  refine ⟨by simp [Store.saveStep, hid, hack], by simp [Store.saveStep, hid, hack],
    by simp [Store.saveStep, hid, hack], by simp [Store.saveStep, hid, hack], ?_⟩
  intro r
  simp only [Store.saveStep, hid, hack, if_false, Bool.false_eq_true]
  by_cases hany : s.steps.any (fun x => x.ID == st.ID) = true
  · simp only [hany, if_true, List.mem_map]
    constructor
    · rintro ⟨x, hx, rfl⟩
      by_cases hxid : x.ID = st.ID
      · right; simp [hxid]
      · left; simp [hxid, hx]
    · rintro (⟨hr, hne⟩ | rfl)
      · exact ⟨r, hr, by simp [hne]⟩
      · obtain ⟨x, hx, hxid⟩ := List.any_eq_true.1 hany
        exact ⟨x, hx, by simp only [hxid, if_true]⟩
  · simp only [hany, if_false, Bool.false_eq_true, List.mem_append, List.mem_singleton]
    constructor
    · rintro (hr | hr)
      · left
        refine ⟨hr, ?_⟩
        intro h
        apply hany
        exact List.any_eq_true.2 ⟨r, hr, by simp [h]⟩
      · right; exact hr
    · rintro (⟨hr, _⟩ | hr)
      · left; exact hr
      · right; exact hr

theorem Store.createLog_acked (env : Env) (s : Store) (l : Log) (hid : l.ID = 0)
    (hack : env.fails s.ops = false) :
    (s.createLog env l).1.steps = s.steps ∧
    (s.createLog env l).1.logs = s.logs ++ [{ l with ID := s.logSeq + 1 }] ∧
    (s.createLog env l).1.ops = s.ops + 1 ∧ (s.createLog env l).1.logSeq = s.logSeq + 1 := by
  simp [Store.createLog, hack, hid]

/-- The body of the step loop of `executeRun` on an acknowledging database,
for a step with a key: the rows under the key of the step are replaced by the
step with status "success" and its two times, the other rows of the steps
table stay, and two log rows are added, the first with the command of the
step. -/
theorem executeRunStep_rows (env : Env) (s : Store) (step : Step) (hid : step.ID ≠ 0)
    (hack : env.acksFrom s.ops) :
    (∀ r, r ∈ (executeRunStep env s step).steps ↔
      (r ∈ s.steps ∧ r.ID ≠ step.ID) ∨
        r = { step with Status := "success", StartedAt := some (env.now s.ops),
                        FinishedAt := some (env.now (s.ops + 2)), Logs := [] }) ∧
    (executeRunStep env s step).logs = s.logs ++
      [{ ID := s.logSeq + 1, StepID := step.ID, Content := "Executing: " ++ step.Command,
         Level := "info" },
       { ID := s.logSeq + 2, StepID := step.ID, Content := "Step completed successfully",
         Level := "info" }] ∧
    (executeRunStep env s step).ops = s.ops + 4 := by
  have h0 : env.fails s.ops = false := hack _ (le_refl _)
  obtain ⟨a1, a2, a3, a4, a5⟩ := Store.saveStep_acked env s
    { step with Status := "running", StartedAt := some (env.now s.ops) } hid h0
  unfold executeRunStep
  dsimp only
  rw [a1]
  dsimp only [written]
  generalize (s.saveStep env { step with Status := "running", StartedAt := some (env.now s.ops) }).1
    = s1 at a2 a3 a4 a5 ⊢
  dsimp only at a5
  have h1 : env.fails s1.ops = false := hack _ (by omega)
  obtain ⟨b1, b2, b3, b4⟩ := Store.createLog_acked env s1
    { StepID := step.ID, Content := "Executing: " ++ step.Command, Level := "info" } rfl h1
  generalize (s1.createLog env
    { StepID := step.ID, Content := "Executing: " ++ step.Command, Level := "info" }).1
    = s2 at b1 b2 b3 b4 ⊢
  dsimp only at b2
  have h2 : env.fails s2.ops = false := hack _ (by omega)
  obtain ⟨c1, c2, c3, c4, c5⟩ := Store.saveStep_acked env s2
    { step with Status := "success", StartedAt := some (env.now s.ops), FinishedAt := some (env.now s2.ops) } hid h2
  rw [c1]
  dsimp only
  generalize (s2.saveStep env { step with Status := "success", StartedAt := some (env.now s.ops), FinishedAt := some (env.now s2.ops) }).1 = s3 at c2 c3 c4 c5 ⊢
  dsimp only at c5
  have h3 : env.fails s3.ops = false := hack _ (by omega)
  obtain ⟨d1, d2, d3, d4⟩ := Store.createLog_acked env s3
    { StepID := step.ID, Content := "Step completed successfully", Level := "info" } rfl h3
  dsimp only at d2
  have hops : s2.ops = s.ops + 2 := by omega
  refine ⟨?_, ?_, ?_⟩
  · intro r
    rw [d1, c5, b1, a5, hops]
    constructor
    · rintro (⟨h | h, hne⟩ | h)
      · exact Or.inl h
      · exfalso; apply hne; rw [h]
      · exact Or.inr h
    · rintro (h | h)
      · exact Or.inl ⟨Or.inl h, h.2⟩
      · exact Or.inr h
  · rw [d2, c2, b2, a2, c4, b4, a4]
    simp
  · omega

theorem executeRunStep_tracks (env : Env) (s : Store) (step x : Step) (hid : step.ID ≠ 0)
    (hack : env.acksFrom s.ops)
    (hsame : step.ID = x.ID →
      step.JobID = x.JobID ∧ step.Name = x.Name ∧ step.Command = x.Command)
    (h : storedStep s x) :
    storedStep (executeRunStep env s step) x ∧
    (succeededStep s x → succeededStep (executeRunStep env s step) x) ∧
    (step.ID = x.ID → succeededStep (executeRunStep env s step) x) := by
  obtain ⟨hmem, _, _⟩ := executeRunStep_rows env s step hid hack
  have hstored : storedStep (executeRunStep env s step) x := by
    constructor
    · obtain ⟨r, hr, hrid⟩ := h.1
      by_cases hne : r.ID = step.ID
      · exact ⟨_, (hmem _).2 (Or.inr rfl), by rw [← hrid, hne]⟩
      · exact ⟨r, (hmem r).2 (Or.inl ⟨hr, hne⟩), hrid⟩
    · intro r hr hrid
      rcases (hmem r).1 hr with ⟨hr0, _⟩ | rfl
      · exact h.2 r hr0 hrid
      · exact hsame hrid
  refine ⟨hstored, ?_, ?_⟩
  · intro hs
    refine ⟨hstored, ?_⟩
    intro r hr hrid
    rcases (hmem r).1 hr with ⟨hr0, _⟩ | rfl
    · exact hs.2 r hr0 hrid
    · exact ⟨rfl, by simp, by simp⟩
  · intro hx
    refine ⟨hstored, ?_⟩
    intro r hr hrid
    rcases (hmem r).1 hr with ⟨_, hne⟩ | rfl
    · exact absurd (hrid.trans hx.symm) hne
    · exact ⟨rfl, by simp, by simp⟩

/-- The step loop of `executeRun` on an acknowledging database, for steps with
keys: a stored step stays stored, a step that has succeeded stays so, every
step of the loop has succeeded at its end, and the log has gained rows, among
them the line "Executing: " with the command of each of the steps. -/
theorem foldl_executeRunStep_tracks (env : Env) (x : Step) (steps : List Step) :
    ∀ s : Store, env.acksFrom s.ops →
      (∀ st ∈ steps, st.ID ≠ 0 ∧
        (st.ID = x.ID → st.JobID = x.JobID ∧ st.Name = x.Name ∧ st.Command = x.Command)) →
      storedStep s x →
      storedStep (steps.foldl (executeRunStep env) s) x ∧
      (succeededStep s x → succeededStep (steps.foldl (executeRunStep env) s) x) ∧
      ((∃ st ∈ steps, st.ID = x.ID) → succeededStep (steps.foldl (executeRunStep env) s) x) ∧
      (∃ extra, (steps.foldl (executeRunStep env) s).logs = s.logs ++ extra ∧
        ∀ st ∈ steps, ∃ l ∈ extra,
          l.StepID = st.ID ∧ l.Content = "Executing: " ++ st.Command ∧ l.Level = "info") ∧
      s.ops ≤ (steps.foldl (executeRunStep env) s).ops := by
  induction steps with
  | nil =>
    intro s _ _ h
    exact ⟨h, id, fun ⟨_, hst, _⟩ => absurd hst (List.not_mem_nil _),
      ⟨[], by simp, fun st hst => absurd hst (List.not_mem_nil _)⟩, le_refl _⟩
  | cons a rest ih =>
    intro s hack hsteps h
    obtain ⟨ha0, hasame⟩ := hsteps a (List.mem_cons_self _ _)
    obtain ⟨t1, t2, t3⟩ := executeRunStep_tracks env s a x ha0 hack hasame h
    obtain ⟨_, hlogs, hops⟩ := executeRunStep_rows env s a ha0 hack
    have hack1 : env.acksFrom (executeRunStep env s a).ops :=
      env.acksFrom_mono _ _ hack (by omega)
    obtain ⟨g1, g2, g3, ⟨extra, g4, g5⟩, g6⟩ := ih (executeRunStep env s a) hack1
      (fun st hst => hsteps st (List.mem_cons_of_mem _ hst)) t1
    rw [List.foldl_cons]
    refine ⟨g1, fun hs => g2 (t2 hs), ?_,
      ⟨[{ ID := s.logSeq + 1, StepID := a.ID, Content := "Executing: " ++ a.Command,
          Level := "info" },
        { ID := s.logSeq + 2, StepID := a.ID, Content := "Step completed successfully",
          Level := "info" }] ++ extra, ?_, ?_⟩, by omega⟩
    · rintro ⟨st, hst, hstid⟩
      rcases List.mem_cons.1 hst with rfl | hst
      · exact g2 (t3 hstid)
      · exact g3 ⟨st, hst, hstid⟩
    · rw [g4, hlogs, List.append_assoc]
    · intro st hst
      rcases List.mem_cons.1 hst with rfl | hst
      · exact ⟨{ ID := s.logSeq + 1, StepID := st.ID,
                 Content := "Executing: " ++ st.Command, Level := "info" },
          List.mem_append_left _ (List.mem_cons_self _ _), rfl, rfl, rfl⟩
      · obtain ⟨l, hl, hrest⟩ := g5 st hst
        exact ⟨l, List.mem_append_right _ hl, hrest⟩

theorem Store.saveJob_tables (env : Env) (s : Store) (j : Job) :
    (s.saveJob env j).1.steps = s.steps ∧ (s.saveJob env j).1.logs = s.logs ∧
    s.ops ≤ (s.saveJob env j).1.ops ∧ (written (s.saveJob env j).2 j).Steps = j.Steps := by
  unfold Store.saveJob Store.createJob Store.rejected written
  split_ifs <;> simp

/-- The body of the job loop of `executeRun` on an acknowledging database, for
a job whose steps have keys. -/
theorem executeRunJob_tracks (env : Env) (x : Step) (s : Store) (b : Bool) (job : Job)
    (hack : env.acksFrom s.ops)
    (hsteps : ∀ st ∈ job.Steps, st.ID ≠ 0 ∧
      (st.ID = x.ID → st.JobID = x.JobID ∧ st.Name = x.Name ∧ st.Command = x.Command))
    (h : storedStep s x) :
    storedStep (executeRunJob env (s, b) job).1 x ∧
    (succeededStep s x → succeededStep (executeRunJob env (s, b) job).1 x) ∧
    ((∃ st ∈ job.Steps, st.ID = x.ID) → succeededStep (executeRunJob env (s, b) job).1 x) ∧
    (∃ extra, (executeRunJob env (s, b) job).1.logs = s.logs ++ extra ∧
      ∀ st ∈ job.Steps, ∃ l ∈ extra,
        l.StepID = st.ID ∧ l.Content = "Executing: " ++ st.Command ∧ l.Level = "info") ∧
    s.ops ≤ (executeRunJob env (s, b) job).1.ops := by
  obtain ⟨a1, a2, a3, a4⟩ := Store.saveJob_tables env s
    { job with Status := "running", StartedAt := some (env.now s.ops) }
  unfold executeRunJob
  dsimp only
  dsimp only at a4
  rw [a4]
  generalize (s.saveJob env { job with Status := "running", StartedAt := some (env.now s.ops) }).2
    = res1
  generalize (s.saveJob env { job with Status := "running", StartedAt := some (env.now s.ops) }).1
    = s1 at a1 a2 a3 ⊢
  have h1 : storedStep s1 x := by
    unfold storedStep at h ⊢
    rw [a1]
    exact h
  obtain ⟨g1, g2, g3, ⟨extra, g4, g5⟩, g6⟩ := foldl_executeRunStep_tracks env x job.Steps s1
    (env.acksFrom_mono _ _ hack a3) hsteps h1
  generalize List.foldl (executeRunStep env) s1 job.Steps = s2 at g1 g2 g3 g4 g6 ⊢
  have hst : ∀ (j4 : Job) (y : Step), storedStep s2 y → storedStep (s2.saveJob env j4).1 y := by
    intro j4 y hy
    unfold storedStep at hy ⊢
    rw [(Store.saveJob_tables env s2 j4).1]
    exact hy
  have hsu : ∀ (j4 : Job) (y : Step), succeededStep s2 y →
      succeededStep (s2.saveJob env j4).1 y := by
    intro j4 y hy
    unfold succeededStep storedStep at hy ⊢
    rw [(Store.saveJob_tables env s2 j4).1]
    exact hy
  refine ⟨hst _ x g1, fun hs => hsu _ x (g2 ?_), fun he => hsu _ x (g3 he),
    ⟨extra, ?_, g5⟩, le_trans (le_trans a3 g6) (Store.saveJob_tables env s2 _).2.2.1⟩
  · unfold succeededStep storedStep at hs ⊢
    rw [a1]
    exact hs
  · rw [(Store.saveJob_tables env s2 _).2.1, g4, a2]

/-- The job loop of `executeRun` on an acknowledging database, for jobs whose
steps have keys. -/
theorem foldl_executeRunJob_tracks (env : Env) (x : Step) (jobs : List Job) :
    ∀ (s : Store) (b : Bool), env.acksFrom s.ops →
      (∀ j ∈ jobs, ∀ st ∈ j.Steps, st.ID ≠ 0 ∧
        (st.ID = x.ID → st.JobID = x.JobID ∧ st.Name = x.Name ∧ st.Command = x.Command)) →
      storedStep s x →
      storedStep (jobs.foldl (executeRunJob env) (s, b)).1 x ∧
      (succeededStep s x → succeededStep (jobs.foldl (executeRunJob env) (s, b)).1 x) ∧
      ((∃ j ∈ jobs, ∃ st ∈ j.Steps, st.ID = x.ID) →
        succeededStep (jobs.foldl (executeRunJob env) (s, b)).1 x) ∧
      (∃ extra, (jobs.foldl (executeRunJob env) (s, b)).1.logs = s.logs ++ extra ∧
        ∀ j ∈ jobs, ∀ st ∈ j.Steps, ∃ l ∈ extra,
          l.StepID = st.ID ∧ l.Content = "Executing: " ++ st.Command ∧ l.Level = "info") ∧
      s.ops ≤ (jobs.foldl (executeRunJob env) (s, b)).1.ops := by
  induction jobs with
  | nil =>
    intro s b _ _ h
    exact ⟨h, id, fun ⟨_, hj, _⟩ => absurd hj (List.not_mem_nil _),
      ⟨[], by simp, fun j hj => absurd hj (List.not_mem_nil _)⟩, le_refl _⟩
  | cons a rest ih =>
    intro s b hack hsteps h
    obtain ⟨t1, t2, t3, ⟨extra1, t4, t5⟩, t6⟩ := executeRunJob_tracks env x s b a hack
      (hsteps a (List.mem_cons_self _ _)) h
    rw [List.foldl_cons]
    have hpair : executeRunJob env (s, b) a =
        ((executeRunJob env (s, b) a).1, (executeRunJob env (s, b) a).2) := rfl
    rw [hpair]
    obtain ⟨g1, g2, g3, ⟨extra2, g4, g5⟩, g6⟩ := ih (executeRunJob env (s, b) a).1
      (executeRunJob env (s, b) a).2 (env.acksFrom_mono _ _ hack t6)
      (fun j hj => hsteps j (List.mem_cons_of_mem _ hj)) t1
    refine ⟨g1, fun hs => g2 (t2 hs), ?_, ⟨extra1 ++ extra2, ?_, ?_⟩, le_trans t6 g6⟩
    · rintro ⟨j, hj, he⟩
      rcases List.mem_cons.1 hj with rfl | hj
      · exact g2 (t3 he)
      · exact g3 ⟨j, hj, he⟩
    · rw [g4, t4, List.append_assoc]
    · intro j hj st hst
      rcases List.mem_cons.1 hj with rfl | hj
      · obtain ⟨l, hl, hrest⟩ := t5 st hst
        exact ⟨l, List.mem_append_left _ hl, hrest⟩
      · obtain ⟨l, hl, hrest⟩ := g5 j hj st hst
        exact ⟨l, List.mem_append_right _ hl, hrest⟩

/-- An uninterrupted `executeRun` on an acknowledging database whose step keys
are not zero: a step stored under a key of its own, in a job of the run, ends
with status "success" and both times set, with its job, name and command as
stored, and the log has gained the line "Executing: " followed by its
command. -/
theorem executeRun_step_succeeds (env : Env) (run : Run) (s : Store) (x : Step)
    (hid : run.ID ≠ 0) (hack : env.acksFrom s.ops) (hkeys : ∀ st ∈ s.steps, st.ID ≠ 0)
    (hx : x ∈ s.steps) (huniq : ∀ r ∈ s.steps, r.ID = x.ID → r = x)
    (hjob : ∃ j ∈ s.jobs, j.ID = x.JobID ∧ j.RunID = run.ID) :
    succeededStep (executeRun env run s) x ∧
    ∃ extra, (executeRun env run s).logs = s.logs ++ extra ∧
      ∃ l ∈ extra, l.StepID = x.ID ∧ l.Content = "Executing: " ++ x.Command ∧
        l.Level = "info" := by
  have h1 : env.fails s.ops = false := hack _ (le_refl _)
  obtain ⟨e1, e2, e3, e4, e5, _⟩ := Store.saveRun_effect env s
    { run with Status := "running", StartedAt := some (env.now s.ops) } hid h1
  unfold executeRun
  dsimp only
  rw [e1]
  dsimp only [written]
  rw [Store.findJobs_congr s _ run.ID e2 e3]
  generalize (s.saveRun env { run with Status := "running", StartedAt := some (env.now s.ops) }).1
    = s1 at e2 e3 e4 e5 ⊢
  have hstored : storedStep s1 x := by
    unfold storedStep
    rw [e3]
    exact ⟨⟨x, hx, rfl⟩, fun r hr hrid => by rw [huniq r hr hrid]; exact ⟨rfl, rfl, rfl⟩⟩
  have hin : ∀ j ∈ s.findJobs run.ID, ∀ st ∈ j.Steps, st ∈ s.steps := by
    intro j hj st hst
    unfold Store.findJobs at hj
    obtain ⟨j0, _, rfl⟩ := List.mem_map.1 hj
    dsimp only at hst
    unfold Store.stepsOf at hst
    exact (List.mem_filter.1 hst).1
  have hsteps : ∀ j ∈ s.findJobs run.ID, ∀ st ∈ j.Steps, st.ID ≠ 0 ∧
      (st.ID = x.ID → st.JobID = x.JobID ∧ st.Name = x.Name ∧ st.Command = x.Command) := by
    intro j hj st hst
    have hmem := hin j hj st hst
    exact ⟨hkeys st hmem, fun hrid => by rw [huniq st hmem hrid]; exact ⟨rfl, rfl, rfl⟩⟩
  have hex : ∃ j ∈ s.findJobs run.ID, x ∈ j.Steps := by
    obtain ⟨j, hj, hjid, hjrun⟩ := hjob
    refine ⟨{ j with Steps := s.stepsOf j.ID }, ?_, ?_⟩
    · unfold Store.findJobs
      exact List.mem_map.2 ⟨j, List.mem_filter.2 ⟨hj, by simp [hjrun]⟩, rfl⟩
    · dsimp only
      unfold Store.stepsOf
      exact List.mem_filter.2 ⟨hx, by simp [hjid]⟩
  obtain ⟨g1, _, g3, ⟨extra, g4, g5⟩, _⟩ :=
    foldl_executeRunJob_tracks env x (s.findJobs run.ID) s1 true
      (env.acksFrom_mono _ _ hack (by omega)) hsteps hstored
  generalize (List.foldl (executeRunJob env) (s1, true) (s.findJobs run.ID)) = acc
    at g1 g3 g4 ⊢
  obtain ⟨j, hj, hxj⟩ := hex
  have hsu := g3 ⟨j, hj, x, hxj, rfl⟩
  obtain ⟨l, hl, hrest⟩ := g5 j hj x hxj
  obtain ⟨f1, f2, f3, _⟩ := Store.saveRun_tables env acc.1
    { run with Status := if acc.2 = true then "success" else "failed",
               StartedAt := some (env.now s.ops), FinishedAt := some (env.now acc.1.ops) }
  refine ⟨?_, extra, by rw [f3, g4, e4], l, hl, hrest⟩
  unfold succeededStep storedStep at hsu ⊢
  rw [f2]
  exact hsu

theorem eq_of_pairwise_lt {α : Type} (key : α → Nat) (l : List α)
    (h : l.Pairwise (fun a b => key a < key b)) :
    ∀ x ∈ l, ∀ y ∈ l, key x = key y → x = y := by
  induction l with
  | nil => intro x hx; exact absurd hx (List.not_mem_nil _)
  | cons a l ih =>
    obtain ⟨h1, h2⟩ := List.pairwise_cons.1 h
    intro x hx y hy hxy
    rcases List.mem_cons.1 hx with hxa | hxl
    · rcases List.mem_cons.1 hy with hya | hyl
      · rw [hxa, hya]
      · exfalso
        have := h1 y hyl
        rw [hxa] at hxy
        omega
    · rcases List.mem_cons.1 hy with hya | hyl
      · exfalso
        have := h1 x hxl
        rw [hya] at hxy
        omega
      · exact ih h2 x hxl y hyl hxy

theorem stepRows_sorted (jobID : Nat) (specs : List StepSpec) :
    ∀ (i seq : Nat), (stepRows jobID specs i seq).Pairwise (fun a b => a.ID < b.ID) ∧
      ∀ st ∈ stepRows jobID specs i seq,
        seq < st.ID ∧ st.ID ≤ seq + specs.length ∧ st.Status = "pending" := by
  induction specs with
  | nil => intro i seq; exact ⟨List.Pairwise.nil, fun st hst => absurd hst (List.not_mem_nil _)⟩
  | cons a rest ih =>
    intro i seq
    obtain ⟨h1, h2⟩ := ih (i + 1) (seq + 1)
    constructor
    · simp only [stepRows, List.pairwise_cons]
      refine ⟨fun st hst => ?_, h1⟩
      have := (h2 st hst).1
      omega
    · intro st hst
      simp only [stepRows, List.mem_cons] at hst
      rcases hst with rfl | hst
      · exact ⟨Nat.lt_succ_self _, by simp, rfl⟩
      · obtain ⟨g1, g2, g3⟩ := h2 st hst
        simp only [List.length_cons]
        exact ⟨by omega, by omega, g3⟩

theorem allStepRows_sorted (entries : List (String × JobSpec)) :
    ∀ (jobSeq stepSeq : Nat),
      (allStepRows entries jobSeq stepSeq).Pairwise (fun a b => a.ID < b.ID) ∧
      ∀ st ∈ allStepRows entries jobSeq stepSeq, stepSeq < st.ID ∧ st.Status = "pending" := by
  induction entries with
  | nil =>
    intro jobSeq stepSeq
    exact ⟨List.Pairwise.nil, fun st hst => absurd hst (List.not_mem_nil _)⟩
  | cons a rest ih =>
    intro jobSeq stepSeq
    obtain ⟨h1, h2⟩ := stepRows_sorted (jobSeq + 1) a.2.Steps 0 stepSeq
    obtain ⟨g1, g2⟩ := ih (jobSeq + 1) (stepSeq + a.2.Steps.length)
    constructor
    · simp only [allStepRows, List.pairwise_append]
      refine ⟨h1, g1, fun x hx y hy => ?_⟩
      have := (h2 x hx).2.1
      have := (g2 y hy).1
      omega
    · intro st hst
      simp only [allStepRows, List.mem_append] at hst
      rcases hst with hst | hst
      · exact ⟨(h2 st hst).1, (h2 st hst).2.2⟩
      · exact ⟨by have := (g2 st hst).1; omega, (g2 st hst).2⟩

theorem jobRows_runID (runID : Nat) (entries : List (String × JobSpec)) :
    ∀ (seq : Nat), ∀ j ∈ jobRows runID entries seq, j.RunID = runID := by
  induction entries with
  | nil => intro seq j hj; simp [jobRows] at hj
  | cons a t ih =>
    intro seq j hj
    simp only [jobRows, List.mem_cons] at hj
    rcases hj with rfl | hj
    · rfl
    · exact ih _ j hj

/-- The runner's `executeStep` is where a step without a command is refused:
it returns the error without running a command or reporting a step result.
`executeRun` of the service does not go through it. -/
theorem executeStep_empty_command (host : Host) (jobID stepID : Nat) (stepSpec : StepSpec)
    (hr : stepSpec.Run = "") :
    executeStep host jobID stepID stepSpec =
      ([Effect.log ("Executing step: " ++ stepSpec.Name)],
       some "no command specified for step") := by
  unfold executeStep
  rw [if_pos hr]

/-- C15 amended: a step without a command is rejected neither when the spec is
validated nor when the run is executed.  For a spec with such a step whose
document decodes, `CreateWorkflow` stores the workflow, active, without error
(the write acknowledged), and `CreateRun` on the stored active workflow, on a
database that acknowledges its statements and whose step keys are positive and
not ahead of their sequence, returns a run and creates a step whose command is
empty.  `executeRun` on the run returned treats every step created, the ones
without a command included, alike: the step ends with status "success" and
its two times set (its job, name and command as created), and the log gains
the line "Executing: " followed by the command, which for a step without a
command is the line "Executing: ". -/
theorem empty_command_step_is_run (env : Env) (s : Store) (wf : Workflow)
    (spec : WorkflowSpec)
    (hempty : ∃ entry ∈ spec.Jobs, ∃ stepSpec ∈ entry.2.Steps, stepSpec.Run = "")
    (hspec : env.unmarshal wf.YAMLContent = .ok spec) (hack : env.fails s.ops = false) :
    (CreateWorkflow env wf s).2 = .ok () ∧
    (∃ w ∈ (CreateWorkflow env wf s).1.workflows,
      w.YAMLContent = wf.YAMLContent ∧ w.UserID = wf.UserID ∧ w.IsActive = true) ∧
    ∀ (workflowID userID : Nat) (inputs : List (String × String)) (t : Store),
      t.firstWorkflow workflowID userID = some wf → wf.IsActive = true →
      env.acksFrom t.ops → (∀ st ∈ t.steps, 0 < st.ID ∧ st.ID ≤ t.stepSeq) →
      ∃ run, (CreateRun env workflowID userID inputs t).2 = .ok run ∧
        (∃ x ∈ (CreateRun env workflowID userID inputs t).1.steps.drop t.steps.length,
          x.Command = "") ∧
        (CreateRun env workflowID userID inputs t).1.logs = t.logs ∧
        ∀ x ∈ (CreateRun env workflowID userID inputs t).1.steps.drop t.steps.length,
          x.Status = "pending" ∧
          succeededStep (executeRun env run (CreateRun env workflowID userID inputs t).1) x ∧
          ∃ l ∈ (executeRun env run (CreateRun env workflowID userID inputs t).1).logs.drop
              t.logs.length,
            l.StepID = x.ID ∧ l.Content = "Executing: " ++ x.Command ∧ l.Level = "info" := by
  refine ⟨?_, ?_, ?_⟩
  · simp [CreateWorkflow, hspec, Store.createWorkflow, hack]
  · simp only [CreateWorkflow, hspec, Store.createWorkflow, hack, Bool.false_eq_true, if_false]
    refine ⟨_, List.mem_append_right _ (List.mem_singleton.2 rfl), ?_⟩
    split_ifs <;> exact ⟨rfl, rfl, rfl⟩
  · intro workflowID userID inputs t hwf hact hackt hkeys
    obtain ⟨run, h1, hrid, _, _, _⟩ :=
      CreateRun_acknowledged env workflowID userID inputs t wf spec hwf hact hspec hackt
    obtain ⟨_, h2, h3⟩ := CreateRun_rows env workflowID userID inputs t wf spec run hwf hspec h1
    have hlogs : (CreateRun env workflowID userID inputs t).1.logs = t.logs := by
      have hA := (CreateRun_upto env workflowID userID inputs t wf spec hwf hact hspec
        (hackt _ (le_refl _)))
      obtain ⟨_, _, _, _, _, _, hl, _⟩ := hA
      exact hl
    have hops : t.ops ≤ (CreateRun env workflowID userID inputs t).1.ops := by
      unfold CreateRun
      rw [hwf]
      simp only [hact, hspec, Bool.not_true, Bool.false_eq_true, if_false]
      have h0 : env.fails t.ops = false := hackt _ (le_refl _)
      obtain ⟨c1, c2, _⟩ := Store.createRun_effect env t
        { WorkflowID := workflowID, UserID := userID, Status := "pending" } rfl h0
      rcases hcr : t.createRun env { WorkflowID := workflowID, UserID := userID, Status := "pending" }
        with ⟨s1, res⟩
      have c7 : s1.ops = t.ops + 1 := by
        have := (Store.createRun_effect env t
          { WorkflowID := workflowID, UserID := userID, Status := "pending" } rfl h0).2.2.2.2.2.2.1
        rw [hcr] at this
        exact this
      rw [hcr] at c1
      dsimp only at c1
      subst c1
      dsimp only
      obtain ⟨_, d2, _⟩ := createJobs_ok env (t.runSeq + 1) spec.Jobs s1
        (env.acksFrom_mono _ _ hackt (by omega))
      rcases hcj : createJobs env (t.runSeq + 1) spec.Jobs s1 with ⟨s2, res2⟩
      rw [hcj] at d2
      have d3 : s1.ops ≤ s2.ops := d2.2.2.2.1
      cases res2 with
      | error e => dsimp only; omega
      | ok u =>
        dsimp only
        have := (Store.reloadRun_tables env s2 (t.runSeq + 1)).2.2.2.2.2.2
        omega
    rw [h3, List.drop_left]
    refine ⟨run, h1, ?_, hlogs, ?_⟩
    · have hmem : "" ∈ (allStepRows spec.Jobs t.jobSeq t.stepSeq).map (fun st => st.Command) := by
        rw [allStepRows_commands]
        obtain ⟨entry, he, stepSpec, hs, hr⟩ := hempty
        simp only [List.mem_flatMap, List.mem_map]
        exact ⟨entry, he, stepSpec, hs, hr⟩
      obtain ⟨st, hst, hcmd⟩ := List.mem_map.1 hmem
      exact ⟨st, hst, hcmd⟩
    · intro x hx
      obtain ⟨hsorted, hnew⟩ := allStepRows_sorted spec.Jobs t.jobSeq t.stepSeq
      have hkeys1 : ∀ st ∈ (CreateRun env workflowID userID inputs t).1.steps, st.ID ≠ 0 := by
        intro st hst
        rw [h3] at hst
        rcases List.mem_append.1 hst with hst | hst
        · have := (hkeys st hst).1
          omega
        · have := (hnew st hst).1
          omega
      have hx1 : x ∈ (CreateRun env workflowID userID inputs t).1.steps := by
        rw [h3]
        exact List.mem_append_right _ hx
      have huniq : ∀ r ∈ (CreateRun env workflowID userID inputs t).1.steps,
          r.ID = x.ID → r = x := by
        intro r hr hrx
        rw [h3] at hr
        rcases List.mem_append.1 hr with hr | hr
        · have := (hkeys r hr).2
          have := (hnew x hx).1
          omega
        · exact eq_of_pairwise_lt (fun st => st.ID) _ hsorted r hr x hx hrx
      have hjob : ∃ j ∈ (CreateRun env workflowID userID inputs t).1.jobs,
          j.ID = x.JobID ∧ j.RunID = run.ID := by
        obtain ⟨_, j, hj, hjx⟩ := allStepRows_job (t.runSeq + 1) spec.Jobs t.jobSeq t.stepSeq x hx
        refine ⟨j, ?_, hjx.symm, ?_⟩
        · rw [h2]
          exact List.mem_append_right _ hj
        · rw [hrid]
          exact jobRows_runID _ _ _ j hj
      obtain ⟨e1, extra, e2, l, hl, hrest⟩ := executeRun_step_succeeds env run
        (CreateRun env workflowID userID inputs t).1 x (by rw [hrid]; exact Nat.succ_ne_zero _)
        (env.acksFrom_mono _ _ hackt hops) hkeys1 hx1 huniq hjob
      refine ⟨(hnew x hx).2, e1, l, ?_, hrest⟩
      rw [e2, hlogs, List.drop_left]
      exact hl

/-- C15 amended, at the sample spec with a step without a command: the step
is created under key 2 with an empty command, and after `executeRun` its row
has status "success" and the log has the line "Executing: " for it. -/
theorem empty_command_step_is_run_witness :
    (CreateWorkflow namedEnv { ID := 6, UserID := 7, Name := "hollow",
                               YAMLContent := yamlHollow } { }).2 = .ok () ∧
    (∃ run, (CreateRun namedEnv 6 7 [] namedStore).2 = .ok run ∧
      (∃ x ∈ (CreateRun namedEnv 6 7 [] namedStore).1.steps.drop namedStore.steps.length,
        x.Command = "") ∧
      (CreateRun namedEnv 6 7 [] namedStore).1.logs = namedStore.logs ∧
      ∀ x ∈ (CreateRun namedEnv 6 7 [] namedStore).1.steps.drop namedStore.steps.length,
        x.Status = "pending" ∧
        succeededStep (executeRun namedEnv run (CreateRun namedEnv 6 7 [] namedStore).1) x ∧
        ∃ l ∈ (executeRun namedEnv run (CreateRun namedEnv 6 7 [] namedStore).1).logs.drop
            namedStore.logs.length,
          l.StepID = x.ID ∧ l.Content = "Executing: " ++ x.Command ∧ l.Level = "info") ∧
    ((CreateRun namedEnv 6 7 [] namedStore).1.steps.drop namedStore.steps.length).map
        (fun st => (st.ID, st.Name, st.Command, st.Status)) = [(2, "nothing", "", "pending")] ∧
    (∃ s1 run, CreateRun namedEnv 6 7 [] namedStore = (s1, .ok run) ∧
      (executeRun namedEnv run s1).steps.map (fun st => (st.ID, st.Command, st.Status)) =
        [(1, "echo hi", "pending"), (2, "", "success")] ∧
      (executeRun namedEnv run s1).logs.map (fun l => (l.StepID, l.Content)) =
        [(2, "Executing: "), (2, "Step completed successfully")]) :=
  have h := empty_command_step_is_run namedEnv { }
    { ID := 6, UserID := 7, Name := "hollow", YAMLContent := yamlHollow } specHollow
    ⟨("build", { Steps := [{ Name := "nothing" }] }), by decide, { Name := "nothing" },
      by decide, rfl⟩
    rfl rfl
  ⟨h.1, h.2.2 6 7 [] namedStore rfl rfl (fun _ _ => rfl) (by decide), rfl,
    _, _, rfl, rfl, rfl⟩

/-! ## The runner -/

theorem executeStep_continue (host : Host) (jobID stepID : Nat) (step : StepSpec) :
    executeStep host jobID stepID { step with Continue := false } =
      executeStep host jobID stepID step := rfl

theorem executeSteps_continue (host : Host) (jobID : Nat) (steps : List StepSpec) :
    ∀ i, executeSteps host jobID (steps.map (fun st => { st with Continue := false })) i =
      executeSteps host jobID steps i := by
  induction steps with
  | nil => intro i; rfl
  | cons a t ih =>
    intro i
    simp only [List.map_cons, executeSteps, executeStep_continue, ih]

/-- The step loop of `executeJob`: the steps executed are those up to and
including the first one that returns an error. -/
theorem executeSteps_eq (host : Host) (jobID : Nat) (steps : List StepSpec) :
    ∀ i, executeSteps host jobID steps i =
      ((((steps.enumFrom i).takeWhile (stepSucceeds host jobID)) ++
          ((steps.enumFrom i).dropWhile (stepSucceeds host jobID)).take 1).flatMap
            (stepEffects host jobID),
       (((steps.enumFrom i).dropWhile (stepSucceeds host jobID)).head?).bind
          (fun p => (executeStep host jobID (p.1 + 1) p.2).2)) := by
  induction steps with
  | nil => intro i; rfl
  | cons a t ih =>
    intro i
    rcases hstep : executeStep host jobID (i + 1) a with ⟨effects, err⟩
    cases err with
    | some e =>
      have hs : stepSucceeds host jobID (i, a) = false := by
        simp [stepSucceeds, hstep]
      simp [executeSteps, hstep, List.enumFrom_cons, List.takeWhile_cons, List.dropWhile_cons,
        hs, stepEffects]
    | none =>
      have hs : stepSucceeds host jobID (i, a) = true := by
        simp [stepSucceeds, hstep]
      simp [executeSteps, hstep, List.enumFrom_cons, List.takeWhile_cons, List.dropWhile_cons,
        hs, stepEffects, ih (i + 1)]

theorem executeStep_no_jobResult (host : Host) (jobID stepID : Nat) (step : StepSpec) :
    (executeStep host jobID stepID step).1.filter isJobResult = [] := by
  unfold executeStep
  split_ifs <;> rfl

theorem stepEffects_no_jobResult (host : Host) (jobID : Nat) (l : List (Nat × StepSpec)) :
    (l.flatMap (stepEffects host jobID)).filter isJobResult = [] := by
  induction l with
  | nil => rfl
  | cons a t ih =>
    simp only [List.flatMap_cons, List.filter_append, ih, List.append_nil]
    exact executeStep_no_jobResult host jobID _ _

/-- C11 fails as stated: the first step of the sample assignment has
continue-on-error set and fails; `executeJob` does not run the command of the
step that follows it and reports the job as failed. -/
theorem continue_on_error_ignored_counterexample :
    (sampleAssignment.JobSpec.Steps.map (fun st => (st.Name, st.Continue)) =
      [("lint", true), ("compile", false)]) ∧
    (executeStep sampleHost 11 1 { Name := "lint", Run := "false", Continue := true,
                                   Env := [("STEP_VAR", "2")] }).2 = some "exit status 1" ∧
    (∀ cmd, Effect.run 2 cmd ∉ executeJob sampleHost sampleAssignment) ∧
    (executeJob sampleHost sampleAssignment).getLast? =
      some (Effect.jobResult { JobID := 11, Status := "failed", Error := "exit status 1" }) := by
  refine ⟨rfl, rfl, ?_, rfl⟩
  intro cmd h
  have h1 : executeJob sampleHost sampleAssignment =
      [Effect.log "Executing job 11 for run 1", Effect.log "Executing step: lint",
       Effect.stepResult { StepID := 1, Status := "running", StartedAt := "2" },
       Effect.run 1 (command sampleHost { Name := "lint", Run := "false", Continue := true,
                                          Env := [("STEP_VAR", "2")] }),
       Effect.stepResult { StepID := 1, Status := "failed", ExitCode := 1, FinishedAt := "3" },
       Effect.log "Step failed: exit status 1",
       Effect.jobResult { JobID := 11, Status := "failed", Error := "exit status 1" }] := rfl
  rw [h1] at h
  simp at h

/-- C11 amended: `executeJob` does not read the continue-on-error flag: what
it does is the same with every flag cleared, so a failing step stops the job
whether or not its flag is set.  If no step returns an error, every step is
executed, in order, and the job result reported is "success". -/
theorem executeJob_ignores_continue (host : Host) (assignment : JobAssignment) :
    executeJob host (withoutContinue assignment) = executeJob host assignment ∧
    ((∀ p ∈ assignment.JobSpec.Steps.enum, stepSucceeds host assignment.JobID p = true) →
      executeJob host assignment =
        Effect.log ("Executing job " ++ toString assignment.JobID ++ " for run " ++
            toString assignment.RunID) ::
          assignment.JobSpec.Steps.enum.flatMap (stepEffects host assignment.JobID) ++
          [Effect.jobResult { JobID := assignment.JobID, Status := "success" }]) := by
  constructor
  · simp only [executeJob, withoutContinue, executeSteps_continue]
  · intro hall
    have h1 : (assignment.JobSpec.Steps.enumFrom 0).takeWhile
        (stepSucceeds host assignment.JobID) = assignment.JobSpec.Steps.enumFrom 0 := by
      rw [List.takeWhile_eq_self_iff]
      exact hall
    have h2 : (assignment.JobSpec.Steps.enumFrom 0).dropWhile
        (stepSucceeds host assignment.JobID) = [] := by
      rw [List.dropWhile_eq_nil_iff]
      exact hall
    simp only [executeJob, executeSteps_eq, h1, h2, List.take_nil, List.append_nil,
      List.head?_nil, Option.none_bind, List.enum]

/-- C12 fails as stated: in the sample assignment no step without
continue-on-error fails, so the claim has all steps executed and the result
"success"; `executeJob` executes the first step only and reports "failed". -/
theorem first_failure_stops_job_counterexample :
    (∀ p ∈ sampleAssignment.JobSpec.Steps.enum,
      p.2.Continue = false → stepSucceeds sampleHost 11 p = true) ∧
    (executeJob sampleHost sampleAssignment).filterMap
        (fun e => match e with
          | Effect.run stepID _ => some stepID
          | _ => none) = [1] ∧
    (executeJob sampleHost sampleAssignment).filter isJobResult =
      [Effect.jobResult { JobID := 11, Status := "failed", Error := "exit status 1" }] :=
  ⟨by decide, rfl, rfl⟩

/-- C12 amended: `executeJob` executes the steps in declaration order, and the
steps it executes are exactly those up to and including the first step whose
execution returns an error, whether or not continue-on-error is set on it;
no later step is executed.  The job result reported is "failed", with the
error of that step, when there is such a step and "success" otherwise, and
exactly one job result is reported. -/
theorem executeJob_stops_at_first_failure (host : Host) (assignment : JobAssignment) :
    executeJob host assignment =
      Effect.log ("Executing job " ++ toString assignment.JobID ++ " for run " ++
          toString assignment.RunID) ::
        ((assignment.JobSpec.Steps.enum.takeWhile (stepSucceeds host assignment.JobID) ++
          (assignment.JobSpec.Steps.enum.dropWhile
            (stepSucceeds host assignment.JobID)).take 1).flatMap
              (stepEffects host assignment.JobID)) ++
        (match (assignment.JobSpec.Steps.enum.dropWhile
            (stepSucceeds host assignment.JobID)).head? with
          | none => [Effect.jobResult { JobID := assignment.JobID, Status := "success" }]
          | some p =>
            [Effect.log ("Step failed: " ++ stepError host assignment.JobID p),
             Effect.jobResult { JobID := assignment.JobID, Status := "failed",
                                Error := stepError host assignment.JobID p }]) ∧
    ((executeJob host assignment).filter isJobResult).length = 1 := by
  have hmain : executeJob host assignment =
      Effect.log ("Executing job " ++ toString assignment.JobID ++ " for run " ++
          toString assignment.RunID) ::
        ((assignment.JobSpec.Steps.enum.takeWhile (stepSucceeds host assignment.JobID) ++
          (assignment.JobSpec.Steps.enum.dropWhile
            (stepSucceeds host assignment.JobID)).take 1).flatMap
              (stepEffects host assignment.JobID)) ++
        (match (assignment.JobSpec.Steps.enum.dropWhile
            (stepSucceeds host assignment.JobID)).head? with
          | none => [Effect.jobResult { JobID := assignment.JobID, Status := "success" }]
          | some p =>
            [Effect.log ("Step failed: " ++ stepError host assignment.JobID p),
             Effect.jobResult { JobID := assignment.JobID, Status := "failed",
                                Error := stepError host assignment.JobID p }]) := by
    simp only [executeJob, executeSteps_eq, List.enum]
    cases hd : ((assignment.JobSpec.Steps.enumFrom 0).dropWhile
        (stepSucceeds host assignment.JobID)).head? with
    | none => rfl
    | some p =>
      have hp : stepSucceeds host assignment.JobID p = false := by
        have hne : (assignment.JobSpec.Steps.enumFrom 0).dropWhile
            (stepSucceeds host assignment.JobID) ≠ [] := by
          intro h0
          rw [h0] at hd
          simp at hd
        have := List.head_dropWhile_not (stepSucceeds host assignment.JobID) _ hne
        rw [List.head?_eq_head hne] at hd
        simp only [Option.some.injEq] at hd
        rw [hd] at this
        simpa using this
      simp only [stepSucceeds] at hp
      cases he : (executeStep host assignment.JobID (p.1 + 1) p.2).2 with
      | none => rw [he] at hp; simp at hp
      | some e => simp [stepError, he]
  refine ⟨hmain, ?_⟩
  rw [hmain]
  simp only [List.filter_cons, isJobResult, List.filter_append, stepEffects_no_jobResult,
    List.nil_append]
  cases (assignment.JobSpec.Steps.enum.dropWhile (stepSucceeds host assignment.JobID)).head? <;>
    simp [isJobResult]

/-- C13: for a step with a non-empty command, whatever running the command
gives (an `*exec.ExitError` carries the exit code of a process that did not
succeed, which is not 0), the last effect of `executeStep` is the report of
a step result for that step whose status is "success" exactly when its exit
code is 0 and is "failed" with a non-zero exit code otherwise; a failure
that is not an exit error is reported with exit code 1. -/
theorem executeStep_status_matches_exit_code (host : Host) (jobID stepID : Nat)
    (step : StepSpec) (hrun : step.Run ≠ "")
    (hexit : ∀ code message,
      (host.run stepID (command host step)).err = some (RunError.exit code message) →
        code ≠ 0) :
    ∃ result, (executeStep host jobID stepID step).1.getLast? =
        some (Effect.stepResult result) ∧
      result.StepID = stepID ∧
      (result.Status = "success" ↔ result.ExitCode = 0) ∧
      (result.Status = "success" ∨ (result.Status = "failed" ∧ result.ExitCode ≠ 0)) ∧
      (result.Status = "success" ↔ (host.run stepID (command host step)).err = none) ∧
      (∀ message, (host.run stepID (command host step)).err = some (RunError.other message) →
        result.Status = "failed" ∧ result.ExitCode = 1) := by
  unfold executeStep
  rw [if_neg hrun]
  cases herr : (host.run stepID (command host step)).err with
  | none =>
    simp only [herr]
    exact ⟨_, rfl, rfl, by simp, Or.inl rfl, by simp, fun message h => by cases h⟩
  | some e =>
    cases e with
    | exit code message =>
      have hc := hexit code message herr
      simp only [herr]
      exact ⟨_, rfl, rfl, by simp [hc], Or.inr ⟨rfl, hc⟩, by simp,
        fun m h => by cases h⟩
    | other message =>
      simp only [herr]
      exact ⟨_, rfl, rfl, by simp, Or.inr ⟨rfl, by simp⟩, by simp, fun m _ => ⟨rfl, rfl⟩⟩

/-- C13, at the failing step of the sample assignment: it is reported
"failed" with exit code 1. -/
theorem executeStep_status_matches_exit_code_witness :
    ∃ result, (executeStep sampleHost 11 1
        { Name := "lint", Run := "false", Continue := true,
          Env := [("STEP_VAR", "2")] }).1.getLast? = some (Effect.stepResult result) ∧
      result.StepID = 1 ∧
      (result.Status = "success" ↔ result.ExitCode = 0) ∧
      (result.Status = "success" ∨ (result.Status = "failed" ∧ result.ExitCode ≠ 0)) :=
  have h := executeStep_status_matches_exit_code sampleHost 11 1
    { Name := "lint", Run := "false", Continue := true, Env := [("STEP_VAR", "2")] }
    (by decide)
    (fun code message hc => by
      have h1 : RunError.exit 1 "exit status 1" = RunError.exit code message :=
        Option.some.inj hc
      cases h1
      decide)
  h.imp (fun _ hr => ⟨hr.1, hr.2.1, hr.2.2.1, hr.2.2.2.1⟩)

theorem foldl_append_singleton {α β : Type} (f : α → β) (l : List α) :
    ∀ init : List β, l.foldl (fun acc x => acc ++ [f x]) init = init ++ l.map f := by
  induction l with
  | nil => intro init; simp
  | cons a t ih => intro init; simp [ih]

theorem command_env (host : Host) (step : StepSpec) :
    (command host step).Env =
      host.environ ++ step.Env.map (fun kv => kv.1 ++ "=" ++ kv.2) :=
  foldl_append_singleton (fun kv : String × String => kv.1 ++ "=" ++ kv.2) step.Env host.environ

theorem takeWhile_key (k v : List Char) (hk : '=' ∉ k) :
    (k ++ '=' :: v).takeWhile (fun c => c != '=') = k ∧
    (k ++ '=' :: v).dropWhile (fun c => c != '=') = '=' :: v := by
  induction k with
  | nil => simp
  | cons a t ih =>
    have ha : a ≠ '=' := fun h => hk (h ▸ List.mem_cons_self _ _)
    have ht : '=' ∉ t := fun h => hk (List.mem_cons_of_mem _ h)
    obtain ⟨h1, h2⟩ := ih ht
    simp [List.takeWhile_cons, List.dropWhile_cons, ha, h1, h2]

theorem splitKV_entry (k v : String) (hk : '=' ∉ k.toList) :
    splitKV (k ++ "=" ++ v) = some (k, v) := by
  have hdata : (k ++ "=" ++ v).toList = k.toList ++ '=' :: v.toList := by
    simp [String.toList, String.data_append]
  obtain ⟨h1, h2⟩ := takeWhile_key k.toList v.toList hk
  simp only [splitKV, hdata, h1, h2]
  rfl

theorem filterMap_splitKV_entries (l : List (String × String))
    (hl : ∀ kv ∈ l, '=' ∉ kv.1.toList) :
    (l.map (fun kv => kv.1 ++ "=" ++ kv.2)).filterMap splitKV = l := by
  induction l with
  | nil => rfl
  | cons a t ih =>
    have ha := splitKV_entry a.1 a.2 (hl a (List.mem_cons_self _ _))
    simp only [List.map_cons, List.filterMap_cons, ha]
    rw [ih (fun kv hkv => hl kv (List.mem_cons_of_mem _ hkv))]

theorem lookup_append_of_mem (k v : String) (l r : List (String × String))
    (hnd : (l.map Prod.fst).Nodup) (hmem : (k, v) ∈ l) : List.lookup k (l ++ r) = some v := by
  induction l with
  | nil => simp at hmem
  | cons a t ih =>
    obtain ⟨ak, av⟩ := a
    simp only [List.map_cons, List.nodup_cons] at hnd
    rcases List.mem_cons.1 hmem with h | h
    · cases h
      simp [List.lookup]
    · have hne : k ≠ ak := by
        intro hk
        apply hnd.1
        rw [← hk]
        exact List.mem_map_of_mem Prod.fst h
      have hbeq : (k == ak) = false := by simpa using hne
      simp only [List.cons_append, List.lookup, hbeq]
      exact ih hnd.2 h

/-- C14 fails as stated: the job of the sample assignment defines `JOB_VAR`,
and the environment of the command run for its first step has no entry for
it; it holds the environment of the runner process and the variable of the
step. -/
theorem job_env_not_passed_counterexample :
    sampleAssignment.JobSpec.Env = [("JOB_VAR", "1")] ∧
    (executeJob sampleHost sampleAssignment).filterMap
        (fun e => match e with
          | Effect.run _ cmd => some cmd.Env
          | _ => none) = [["PATH=/bin", "HOME=/root", "STEP_VAR=2"]] ∧
    lookupEnv ["PATH=/bin", "HOME=/root", "STEP_VAR=2"] "JOB_VAR" = none :=
  ⟨rfl, rfl, by decide⟩

/-- C14 amended: the environment `executeStep` gives the subprocess of a step
with a command is the environment of the runner process followed by one entry
`key=value` per step-level variable, so it contains every step-level
variable and, the keys holding no `=`, the step-level value is the one in
effect for each of them, also when the runner process defines the same key.
The job-level variables are not read: `executeJob` does the same without
them. -/
theorem step_env_overrides_process_env (host : Host) (jobID stepID : Nat) (step : StepSpec)
    (hrun : step.Run ≠ "") (hkeys : (step.Env.map Prod.fst).Nodup)
    (heq : ∀ kv ∈ step.Env, '=' ∉ kv.1.toList) :
    Effect.run stepID (command host step) ∈ (executeStep host jobID stepID step).1 ∧
    (command host step).Env =
      host.environ ++ step.Env.map (fun kv => kv.1 ++ "=" ++ kv.2) ∧
    (∀ kv ∈ step.Env, lookupEnv (command host step).Env kv.1 = some kv.2) ∧
    (∀ assignment, executeJob host (withoutJobEnv assignment) = executeJob host assignment) := by
  refine ⟨?_, command_env host step, ?_, fun _ => rfl⟩
  · unfold executeStep
    rw [if_neg hrun]
    simp
  · intro kv hkv
    unfold lookupEnv
    rw [command_env, List.reverse_append, List.filterMap_append, ← List.map_reverse,
      filterMap_splitKV_entries _ (fun x hx => heq x (List.mem_reverse.1 hx))]
    apply lookup_append_of_mem
    · rw [List.map_reverse]
      exact List.nodup_reverse.2 hkeys
    · exact List.mem_reverse.2 hkv

/-- C14 amended, at a step that sets `PATH`, which the runner process defines
too: the value of the step is the one in effect. -/
theorem step_env_overrides_process_env_witness :
    (command sampleHost { Run := "make", Env := [("PATH", "/opt/bin"), ("CI", "true")] }).Env =
      ["PATH=/bin", "HOME=/root", "PATH=/opt/bin", "CI=true"] ∧
    (∀ kv ∈ [("PATH", "/opt/bin"), ("CI", "true")],
      lookupEnv (command sampleHost
        { Run := "make", Env := [("PATH", "/opt/bin"), ("CI", "true")] }).Env kv.1 =
        some kv.2) :=
  have h := step_env_overrides_process_env sampleHost 11 1
    { Run := "make", Env := [("PATH", "/opt/bin"), ("CI", "true")] }
    (by decide) (by decide) (by decide)
  ⟨h.2.1, h.2.2.1⟩

/-! ## The log stream -/

theorem mem_runLogs (s : Store) (runID : Nat) (l : Log) :
    l ∈ runLogs s runID ↔ belongsToRun s runID l := by
  unfold runLogs belongsToRun
  simp only [List.mem_flatMap, List.mem_filter, List.mem_map, beq_iff_eq, Bool.and_eq_true]
  constructor
  · rintro ⟨l0, hl0, st, ⟨hst, hsid⟩, j, ⟨hj, hjid, hjr⟩, rfl⟩
    exact ⟨hl0, st, hst, hsid, j, hj, hjid, hjr⟩
  · rintro ⟨hl, st, hst, hsid, j, hj, hjid, hjr⟩
    exact ⟨l, hl, st, ⟨hst, hsid⟩, j, ⟨hj, hjid, hjr⟩, rfl⟩

theorem filter_key_length_le_one {α : Type} (key : α → Nat) (p : α → Bool) (l : List α)
    (hnd : (l.map key).Nodup) (k : Nat) (hp : ∀ x, p x = true → key x = k) :
    (l.filter p).length ≤ 1 := by
  induction l with
  | nil => simp
  | cons a t ih =>
    simp only [List.map_cons, List.nodup_cons] at hnd
    by_cases hpa : p a = true
    · have ht : t.filter p = [] := by
        rw [List.filter_eq_nil_iff]
        intro x hx hpx
        apply hnd.1
        rw [hp a hpa, ← hp x hpx]
        exact List.mem_map_of_mem key hx
      simp [List.filter_cons, hpa, ht]
    · simp only [List.filter_cons, hpa]
      exact ih hnd.2

theorem joined_sublist (s : Store) (runID : Nat) (hu : uniqueKeys s) (l : Log) :
    List.Sublist
      ((s.steps.filter (fun st => st.ID == l.StepID)).flatMap (fun st =>
        (s.jobs.filter (fun j => j.ID == st.JobID && j.RunID == runID)).map (fun _ => l)))
      [l] := by
  have hs : (s.steps.filter (fun st => st.ID == l.StepID)).length ≤ 1 :=
    filter_key_length_le_one (fun st => st.ID) _ s.steps hu.2.1 l.StepID
      (fun x hx => by simpa using hx)
  have hj : ∀ st : Step,
      (s.jobs.filter (fun j => j.ID == st.JobID && j.RunID == runID)).length ≤ 1 :=
    fun st => filter_key_length_le_one (fun j => j.ID) _ s.jobs hu.2.2 st.JobID
      (fun x hx => by
        simp only [Bool.and_eq_true, beq_iff_eq] at hx
        exact hx.1)
  cases hsf : s.steps.filter (fun st => st.ID == l.StepID) with
  | nil => simp
  | cons st rest =>
    rw [hsf] at hs
    have hrest : rest = [] := by
      cases rest with
      | nil => rfl
      | cons _ _ => simp at hs
    subst hrest
    simp only [List.flatMap_cons, List.flatMap_nil, List.append_nil]
    have hj1 := hj st
    cases hjf : s.jobs.filter (fun j => j.ID == st.JobID && j.RunID == runID) with
    | nil => simp
    | cons j rest2 =>
      rw [hjf] at hj1
      have hrest2 : rest2 = [] := by
        cases rest2 with
        | nil => rfl
        | cons _ _ => simp at hj1
      subst hrest2
      simp

theorem runLogs_sublist (s : Store) (runID : Nat) (hu : uniqueKeys s) :
    List.Sublist (runLogs s runID) s.logs := by
  unfold runLogs
  have h : ∀ ls : List Log, List.Sublist
      (ls.flatMap (fun l =>
        (s.steps.filter (fun st => st.ID == l.StepID)).flatMap (fun st =>
          (s.jobs.filter (fun j => j.ID == st.JobID && j.RunID == runID)).map (fun _ => l))))
      ls := by
    intro ls
    induction ls with
    | nil => simp
    | cons a t ih =>
      rw [List.flatMap_cons]
      have := List.Sublist.append (joined_sublist s runID hu a) ih
      simpa using this
  exact h s.logs

theorem runLogs_nodup (s : Store) (runID : Nat) (hu : uniqueKeys s) :
    ((runLogs s runID).map (fun l => l.ID)).Nodup :=
  List.Nodup.sublist ((runLogs_sublist s runID hu).map _) hu.1

theorem mem_logsQuery (s : Store) (runID cursor : Nat) (l : Log) :
    l ∈ logsQuery s runID cursor ↔ l ∈ runLogs s runID ∧ cursor < l.ID := by
  unfold logsQuery
  rw [(List.perm_insertionSort _ _).mem_iff]
  simp

theorem logsQuery_increasing (s : Store) (runID cursor : Nat) (hu : uniqueKeys s) :
    ((logsQuery s runID cursor).map (fun l => l.ID)).Pairwise (fun a b => a < b) := by
  haveI : IsTotal Log (fun a b => a.ID ≤ b.ID) := ⟨fun a b => Nat.le_total a.ID b.ID⟩
  haveI : IsTrans Log (fun a b => a.ID ≤ b.ID) := ⟨fun a b c h1 h2 => Nat.le_trans h1 h2⟩
  have hsorted : (logsQuery s runID cursor).Pairwise (fun a b => a.ID ≤ b.ID) :=
    List.sorted_insertionSort (fun a b : Log => a.ID ≤ b.ID) _
  have hperm : (logsQuery s runID cursor).Perm
      ((runLogs s runID).filter (fun l => cursor < l.ID)) := List.perm_insertionSort _ _
  have hnd : ((logsQuery s runID cursor).map (fun l => l.ID)).Nodup := by
    rw [(hperm.map _).nodup_iff]
    exact List.Nodup.sublist ((List.filter_sublist _).map _) (runLogs_nodup s runID hu)
  have hne : (logsQuery s runID cursor).Pairwise (fun a b => a.ID ≠ b.ID) :=
    List.pairwise_map.1 hnd
  rw [List.pairwise_map]
  exact (hsorted.and hne).imp (fun h => Nat.lt_of_le_of_ne h.1 h.2)

theorem writeLogs_ordered (wire : Wire) (runID : Nat) (logs : List Log) :
    ∀ st : Subscription, (logs.map (fun l => l.ID)).Pairwise (fun a b => a < b) →
      (∀ l ∈ logs, st.lastLogID < l.ID) → ordered st → ordered (writeLogs wire runID logs st) := by
  induction logs with
  | nil => intro st _ _ h; exact h
  | cons a t ih =>
    intro st hp hgt hord
    unfold writeLogs
    by_cases hf : wire.writeFails st.writes = true
    · rw [if_pos hf]
      exact hord
    · rw [if_neg hf]
      simp only [List.map_cons, List.pairwise_cons] at hp
      apply ih _ hp.2
      · intro l hl
        exact hp.1 l.ID (List.mem_map_of_mem _ hl)
      · have ha := hgt a (List.mem_cons_self _ _)
        constructor
        · simp only [List.map_append, List.map_cons, List.map_nil]
          rw [List.pairwise_append]
          refine ⟨hord.1, List.pairwise_singleton _ _, ?_⟩
          intro x hx y hy
          obtain ⟨l, hl, rfl⟩ := List.mem_map.1 hx
          have := hord.2 l hl
          simp only [List.mem_singleton] at hy
          omega
        · intro l hl
          rcases List.mem_append.1 hl with hl | hl
          · exact le_trans (hord.2 l hl) (le_of_lt ha)
          · simp only [List.mem_singleton] at hl
            rw [hl]

theorem writeLogs_mem (wire : Wire) (runID : Nat) (logs : List Log) :
    ∀ st : Subscription, ∀ l ∈ (writeLogs wire runID logs st).delivered, l ∈ st.delivered ∨ l ∈ logs := by
  induction logs with
  | nil => intro st l hl; exact Or.inl hl
  | cons a t ih =>
    intro st l hl
    unfold writeLogs at hl
    by_cases hf : wire.writeFails st.writes = true
    · rw [if_pos hf] at hl
      exact Or.inl hl
    · rw [if_neg hf] at hl
      rcases ih _ l hl with h | h
      · rcases List.mem_append.1 h with h | h
        · exact Or.inl h
        · exact Or.inr (List.mem_cons.2 (Or.inl (List.mem_singleton.1 h)))
      · exact Or.inr (List.mem_cons_of_mem _ h)

theorem writeLogs_anchored (wire : Wire) (runID : Nat) (logs : List Log) :
    ∀ st : Subscription, anchored st → anchored (writeLogs wire runID logs st) := by
  induction logs with
  | nil => intro st h; exact h
  | cons a t ih =>
    intro st h
    unfold writeLogs
    by_cases hf : wire.writeFails st.writes = true
    · rw [if_pos hf]
      exact h
    · rw [if_neg hf]
      apply ih
      exact Or.inr ⟨a, List.mem_append_right _ (List.mem_singleton.2 rfl), rfl⟩

theorem writeLogs_quiet (wire : Wire) (runID : Nat) (hw : ∀ n, wire.writeFails n = false)
    (logs : List Log) :
    ∀ st : Subscription, (writeLogs wire runID logs st).delivered = st.delivered ++ logs ∧
      (writeLogs wire runID logs st).closed = st.closed := by
  induction logs with
  | nil => intro st; simp [writeLogs]
  | cons a t ih =>
    intro st
    unfold writeLogs
    simp only [hw, Bool.false_eq_true, if_false]
    obtain ⟨h1, h2⟩ := ih
      { st with lastLogID := a.ID, writes := st.writes + 1,
                sent := st.sent ++ [toEntry runID a], delivered := st.delivered ++ [a] }
    rw [h1, h2]
    simp

theorem poll_ordered (wire : Wire) (runID k : Nat) (s : Store) (st : Subscription)
    (hu : uniqueKeys s) (hord : ordered st) : ordered (poll wire runID k s st) := by
  unfold poll
  split_ifs
  · exact hord
  · exact hord
  · exact writeLogs_ordered wire runID _ st (logsQuery_increasing s runID st.lastLogID hu)
      (fun l hl => ((mem_logsQuery s runID st.lastLogID l).1 hl).2) hord

theorem poll_mem (wire : Wire) (runID k : Nat) (s : Store) (st : Subscription) :
    ∀ l ∈ (poll wire runID k s st).delivered, l ∈ st.delivered ∨ l ∈ runLogs s runID := by
  intro l hl
  unfold poll at hl
  split_ifs at hl
  · exact Or.inl hl
  · exact Or.inl hl
  · rcases writeLogs_mem wire runID _ st l hl with h | h
    · exact Or.inl h
    · exact Or.inr ((mem_logsQuery s runID st.lastLogID l).1 h).1

theorem poll_anchored (wire : Wire) (runID k : Nat) (s : Store) (st : Subscription)
    (h : anchored st) : anchored (poll wire runID k s st) := by
  unfold poll
  split_ifs
  · exact h
  · exact h
  · exact writeLogs_anchored wire runID _ st h

theorem poll_quiet (wire : Wire) (runID k : Nat) (s : Store) (st : Subscription)
    (hq : wire.queryFails k = false) (hw : ∀ n, wire.writeFails n = false)
    (hopen : st.closed = false) :
    (poll wire runID k s st).delivered = st.delivered ++ logsQuery s runID st.lastLogID ∧
    (poll wire runID k s st).closed = false := by
  unfold poll
  simp only [hopen, hq, Bool.false_eq_true, if_false]
  obtain ⟨h1, h2⟩ := writeLogs_quiet wire runID hw (logsQuery s runID st.lastLogID) st
  exact ⟨h1, h2.trans hopen⟩

theorem polls_ordered (wire : Wire) (runID : Nat) (ticks : List Store) :
    ∀ (k : Nat) (st : Subscription), (∀ s ∈ ticks, uniqueKeys s) → ordered st →
      ordered (polls wire runID ticks k st) := by
  induction ticks with
  | nil => intro k st _ h; exact h
  | cons s rest ih =>
    intro k st hu hord
    unfold polls
    exact ih _ _ (fun t ht => hu t (List.mem_cons_of_mem _ ht))
      (poll_ordered wire runID k s st (hu s (List.mem_cons_self _ _)) hord)

theorem polls_mem (wire : Wire) (runID : Nat) (ticks : List Store) :
    ∀ (k : Nat) (st : Subscription), ∀ l ∈ (polls wire runID ticks k st).delivered,
      l ∈ st.delivered ∨ ∃ s ∈ ticks, l ∈ runLogs s runID := by
  induction ticks with
  | nil => intro k st l hl; exact Or.inl hl
  | cons s rest ih =>
    intro k st l hl
    unfold polls at hl
    rcases ih _ _ l hl with h | ⟨t, ht, hlt⟩
    · rcases poll_mem wire runID k s st l h with h | h
      · exact Or.inl h
      · exact Or.inr ⟨s, List.mem_cons_self _ _, h⟩
    · exact Or.inr ⟨t, List.mem_cons_of_mem _ ht, hlt⟩

/-- Without failures, on an append-only log store whose ids increase, the rows
delivered after the ticks are the logs of the run at the last tick. -/
theorem polls_complete (wire : Wire) (runID : Nat) (hq : ∀ k, wire.queryFails k = false)
    (hw : ∀ n, wire.writeFails n = false) (ticks : List Store) :
    ∀ (k : Nat) (st : Subscription) (earlier : List Log), (∀ s ∈ ticks, uniqueKeys s) →
      st.closed = false → anchored st → ordered st →
      (∀ l, l ∈ st.delivered ↔ l ∈ earlier) →
      List.Chain grows earlier (ticks.map (fun s => runLogs s runID)) →
      ∀ l, l ∈ (polls wire runID ticks k st).delivered ↔
        l ∈ ((ticks.map (fun s => runLogs s runID)).getLast?).getD earlier := by
  induction ticks with
  | nil => intro k st earlier _ _ _ _ hd _ l; simpa [polls] using hd l
  | cons s rest ih =>
    intro k st earlier hu hopen hanc hord hd hchain l
    simp only [List.map_cons, List.chain_cons] at hchain
    obtain ⟨⟨extra, hlater, hextra⟩, hchain2⟩ := hchain
    obtain ⟨p1, p2⟩ := poll_quiet wire runID k s st (hq k) hw hopen
    have hd1 : ∀ x, x ∈ (poll wire runID k s st).delivered ↔ x ∈ runLogs s runID := by
      intro x
      rw [p1, List.mem_append, mem_logsQuery, hlater, List.mem_append, hd x]
      constructor
      · rintro (h | ⟨h, _⟩)
        · exact Or.inl h
        · exact h
      · rintro (h | h)
        · exact Or.inl h
        · right
          refine ⟨Or.inr h, ?_⟩
          obtain ⟨hpos, hgt⟩ := hextra x h
          rcases hanc with h0 | ⟨y, hy, hyid⟩
          · omega
          · rw [← hyid]
            exact hgt y ((hd y).1 hy)
    have hres := ih (k + 1) (poll wire runID k s st) (runLogs s runID)
      (fun t ht => hu t (List.mem_cons_of_mem _ ht)) p2
      (poll_anchored wire runID k s st hanc)
      (poll_ordered wire runID k s st (hu s (List.mem_cons_self _ _)) hord) hd1 hchain2 l
    unfold polls
    rw [hres, List.map_cons]
    generalize rest.map (fun s => runLogs s runID) = later
    cases later with
    | nil => simp
    | cons a t =>
      cases hlast : (a :: t).getLast? with
      | none => simp at hlast
      | some x => simp [hlast]

/-- The inner loop of `streamLogs`: the rows are written one after the other
up to the first write that fails, which closes the subscription. -/
theorem writeLogs_split (wire : Wire) (runID : Nat) (logs : List Log) :
    ∀ st : Subscription, ∃ pre suf, logs = pre ++ suf ∧
      (writeLogs wire runID logs st).delivered = st.delivered ++ pre ∧
      (writeLogs wire runID logs st).sent = st.sent ++ pre.map (toEntry runID) ∧
      ((pre = [] ∧ (writeLogs wire runID logs st).lastLogID = st.lastLogID) ∨
        ∃ b ∈ pre, b.ID = (writeLogs wire runID logs st).lastLogID) ∧
      (∀ i, i < pre.length → wire.writeFails (st.writes + i) = false) ∧
      ((suf = [] ∧ (writeLogs wire runID logs st).closed = st.closed ∧
          (writeLogs wire runID logs st).writes = st.writes + pre.length) ∨
       (suf ≠ [] ∧ wire.writeFails (st.writes + pre.length) = true ∧
          (writeLogs wire runID logs st).closed = true ∧
          (writeLogs wire runID logs st).writes = st.writes + pre.length + 1)) := by
  induction logs with
  | nil =>
    intro st
    exact ⟨[], [], rfl, by simp [writeLogs], by simp [writeLogs], Or.inl ⟨rfl, rfl⟩,
      fun i hi => absurd hi (Nat.not_lt_zero _), Or.inl ⟨rfl, rfl, rfl⟩⟩
  | cons a t ih =>
    intro st
    unfold writeLogs
    by_cases hf : wire.writeFails st.writes = true
    · rw [if_pos hf]
      exact ⟨[], a :: t, rfl, by simp, by simp, Or.inl ⟨rfl, rfl⟩,
        fun i hi => absurd hi (Nat.not_lt_zero _),
        Or.inr ⟨by simp, by simpa using hf, rfl, rfl⟩⟩
    · rw [if_neg hf]
      obtain ⟨pre, suf, h1, h2, h3, h4, h5, h6⟩ := ih
        { st with lastLogID := a.ID, writes := st.writes + 1,
                  sent := st.sent ++ [toEntry runID a], delivered := st.delivered ++ [a] }
      dsimp only at h2 h3 h4 h5 h6
      refine ⟨a :: pre, suf, by rw [h1]; rfl, by rw [h2]; simp, by rw [h3]; simp, ?_, ?_, ?_⟩
      · right
        rcases h4 with ⟨_, h⟩ | ⟨b, hb, h⟩
        · exact ⟨a, List.mem_cons_self _ _, h.symm⟩
        · exact ⟨b, List.mem_cons_of_mem _ hb, h⟩
      · intro i hi
        cases i with
        | zero => simpa using hf
        | succ i =>
          have := h5 i (by simpa using hi)
          rw [← this]
          congr 1
          omega
      · rcases h6 with ⟨g1, g2, g3⟩ | ⟨g1, g2, g3, g4⟩
        · left
          refine ⟨g1, g2, ?_⟩
          rw [g3, List.length_cons]
          omega
        · right
          refine ⟨g1, ?_, g3, ?_⟩
          · rw [← g2]
            congr 1
            rw [List.length_cons]
            omega
          · rw [g4, List.length_cons]
            omega

/-- A subscription that tracks the logs of the run at one tick tracks them at
a later tick as it is, when the log store is append-only with increasing
ids. -/
theorem tracks_grows (wire : Wire) (runID : Nat) (st : Subscription) (earlier later : List Log)
    (h : tracks wire runID st earlier) (hgrow : grows earlier later) :
    tracks wire runID st later := by
  obtain ⟨t1, t2, t3, t4, t5, t6, t7, t8⟩ := h
  obtain ⟨extra, hlater, hextra⟩ := hgrow
  refine ⟨t1, t2, t3, ?_, ?_, t6, t7, t8⟩
  · intro l hl
    rw [hlater]
    exact List.mem_append_left _ (t4 l hl)
  · intro l hl hle
    rw [hlater] at hl
    rcases List.mem_append.1 hl with hl | hl
    · exact t5 l hl hle
    · exfalso
      obtain ⟨hpos, hgt⟩ := hextra l hl
      rcases t3 with h0 | ⟨y, hy, hyid⟩
      · omega
      · have := hgt y (t4 y hy)
        omega

/-- One tick keeps the subscription tracking the logs of the run, whatever
fails. -/
theorem poll_tracks (wire : Wire) (runID k : Nat) (s : Store) (st : Subscription)
    (earlier : List Log) (hu : uniqueKeys s) (h : tracks wire runID st earlier)
    (hgrow : grows earlier (runLogs s runID)) :
    tracks wire runID (poll wire runID k s st) (runLogs s runID) := by
  have h0 := tracks_grows wire runID st earlier _ h hgrow
  unfold poll
  by_cases hc : st.closed = true
  · rw [if_pos hc]
    exact h0
  · rw [if_neg hc]
    by_cases hq : wire.queryFails k = true
    · rw [if_pos hq]
      exact h0
    · rw [if_neg hq]
      obtain ⟨t1, t2, t3, t4, t5, t6, t7, t8⟩ := h0
      have hopen : st.closed = false := by simpa using hc
      have hw := t8 hopen
      have hsorted := logsQuery_increasing s runID st.lastLogID hu
      have hord := writeLogs_ordered wire runID _ st hsorted
        (fun l hl => ((mem_logsQuery s runID st.lastLogID l).1 hl).2) t2
      have hanc := writeLogs_anchored wire runID (logsQuery s runID st.lastLogID) st t3
      obtain ⟨pre, suf, h1, h2, h3, h4, h5, h6⟩ :=
        writeLogs_split wire runID (logsQuery s runID st.lastLogID) st
      generalize writeLogs wire runID (logsQuery s runID st.lastLogID) st = st1
        at hord hanc h2 h3 h4 h6 ⊢
      have hpre : ∀ l ∈ pre, l ∈ runLogs s runID ∧ st.lastLogID < l.ID := by
        intro l hl
        apply (mem_logsQuery s runID st.lastLogID l).1
        rw [h1]
        exact List.mem_append_left _ hl
      refine ⟨?_, hord, hanc, ?_, ?_, ?_, ?_, ?_⟩
      · rw [h3, h2, t1, List.map_append]
      · intro l hl
        rw [h2] at hl
        rcases List.mem_append.1 hl with hl | hl
        · exact t4 l hl
        · exact (hpre l hl).1
      · intro l hl hle
        rw [h2]
        by_cases hlow : l.ID ≤ st.lastLogID
        · exact List.mem_append_left _ (t5 l hl hlow)
        · have hq1 : l ∈ logsQuery s runID st.lastLogID :=
            (mem_logsQuery s runID st.lastLogID l).2 ⟨hl, by omega⟩
          rw [h1] at hq1
          rcases List.mem_append.1 hq1 with hq1 | hq1
          · exact List.mem_append_right _ hq1
          · exfalso
            rcases h4 with ⟨_, hcur⟩ | ⟨b, hb, hbid⟩
            · omega
            · rw [h1, List.map_append, List.pairwise_append] at hsorted
              have := hsorted.2.2 b.ID (List.mem_map_of_mem _ hb) l.ID
                (List.mem_map_of_mem _ hq1)
              omega
      · intro n hn
        rw [h3, List.length_append, List.length_map] at hn
        by_cases hlt : n < st.sent.length
        · exact t6 n hlt
        · have := h5 (n - st.sent.length) (by omega)
          rw [← this, hw]
          congr 1
          omega
      · rw [h3, List.length_append, List.length_map]
        rcases h6 with ⟨_, _, g3⟩ | ⟨_, g2, g3, g4⟩
        · left
          omega
        · right
          refine ⟨by omega, ?_, g3⟩
          rw [← g2, hw]
      · intro hopen1
        rw [h3, List.length_append, List.length_map]
        rcases h6 with ⟨_, _, g3⟩ | ⟨_, _, g3, _⟩
        · omega
        · rw [g3] at hopen1
          cases hopen1

theorem getLast?_cons_getD {α : Type} (a : α) (l : List α) (d : α) :
    ((a :: l).getLast?).getD d = (l.getLast?).getD a := by
  cases l with
  | nil => rfl
  | cons b t =>
    cases hlast : (b :: t).getLast? with
    | none => simp at hlast
    | some x => simp [List.getLast?_cons_cons, hlast]

/-- The ticks keep the subscription tracking the logs of the run: after them
it tracks the logs of the run at the last tick. -/
theorem polls_tracks (wire : Wire) (runID : Nat) (ticks : List Store) :
    ∀ (k : Nat) (st : Subscription) (earlier : List Log), (∀ s ∈ ticks, uniqueKeys s) →
      tracks wire runID st earlier →
      List.Chain grows earlier (ticks.map (fun s => runLogs s runID)) →
      tracks wire runID (polls wire runID ticks k st)
        (((ticks.map (fun s => runLogs s runID)).getLast?).getD earlier) := by
  induction ticks with
  | nil => intro k st earlier _ h _; exact h
  | cons s rest ih =>
    intro k st earlier hu h hchain
    simp only [List.map_cons, List.chain_cons] at hchain
    unfold polls
    rw [List.map_cons, getLast?_cons_getD]
    exact ih (k + 1) _ _ (fun t ht => hu t (List.mem_cons_of_mem _ ht))
      (poll_tracks wire runID k s st earlier (hu s (List.mem_cons_self _ _)) h hchain.1)
      hchain.2

/-- In an append-only log store the logs of every tick are among the logs of
the last tick. -/
theorem chain_grows_subset (earlier : List Log) (later : List (List Log)) :
    List.Chain grows earlier later →
      (∀ l ∈ earlier, l ∈ (later.getLast?).getD earlier) ∧
      ∀ L ∈ later, ∀ l ∈ L, l ∈ (later.getLast?).getD earlier := by
  induction later generalizing earlier with
  | nil => intro _; exact ⟨fun l hl => hl, fun L hL => absurd hL (List.not_mem_nil _)⟩
  | cons a rest ih =>
    intro hchain
    simp only [List.chain_cons] at hchain
    obtain ⟨⟨extra, ha, _⟩, hrest⟩ := hchain
    obtain ⟨g1, g2⟩ := ih a hrest
    rw [getLast?_cons_getD]
    refine ⟨fun l hl => g1 l (by rw [ha]; exact List.mem_append_left _ hl), ?_⟩
    intro L hL l hl
    rcases List.mem_cons.1 hL with rfl | hL
    · exact g1 l hl
    · exact g2 L hL l hl

/-- A closed subscription is left as it is by the ticks. -/
theorem polls_closed (wire : Wire) (runID : Nat) (ticks : List Store) :
    ∀ (k : Nat) (st : Subscription), st.closed = true → polls wire runID ticks k st = st := by
  induction ticks with
  | nil => intro k st _; rfl
  | cons s rest ih =>
    intro k st hc
    unfold polls
    have hp : poll wire runID k s st = st := by
      unfold poll
      rw [if_pos hc]
    rw [hp]
    exact ih (k + 1) st hc

theorem tracks_initial (wire : Wire) (runID : Nat) (closed : Bool) :
    tracks wire runID { closed := closed } [] :=
  ⟨rfl, ⟨List.Pairwise.nil, fun _ hl => absurd hl (List.not_mem_nil _)⟩, Or.inl rfl,
    fun _ hl => absurd hl (List.not_mem_nil _), fun _ hl _ => absurd hl (List.not_mem_nil _),
    fun _ hn => absurd hn (Nat.not_lt_zero _), Or.inl rfl, fun _ => rfl⟩

/-- A subscription tracks the logs of the run at the last tick, whatever
fails. -/
theorem streamLogs_tracks (wire : Wire) (runID userID : Nat) (s0 : Store) (ticks : List Store)
    (hu : ∀ s ∈ ticks, uniqueKeys s)
    (hgrow : List.Chain grows [] (ticks.map (fun s => runLogs s runID))) :
    tracks wire runID (streamLogs wire runID userID s0 ticks)
      (((ticks.map (fun s => runLogs s runID)).getLast?).getD []) := by
  have hclosed := polls_tracks wire runID ticks 0 { closed := true } [] hu
    (tracks_initial wire runID true) hgrow
  rw [polls_closed wire runID ticks 0 { closed := true } rfl] at hclosed
  unfold streamLogs
  cases s0.firstRun runID userID with
  | none => exact hclosed
  | some r =>
    dsimp only
    by_cases hup : wire.upgradeFails = true
    · rw [if_pos hup]
      exact hclosed
    · rw [if_neg hup]
      exact polls_tracks wire runID ticks 0 { } [] hu (tracks_initial wire runID false) hgrow

/-- C16 fails as stated: an entry written to the consumer carries no log id.
An entry is the run id of the subscription with the content, the level and the
time stamp of a log row, so the entries of two log rows can be the same entry:
in the subscription to the sample run the rows 2 and 4, the completion lines of
its two steps, are written as one and the same entry, and the list of the
entries written has a duplicate although the ids of the rows increase. -/
theorem entries_carry_no_log_id_counterexample :
    (streamLogs quietWire 1 7 createdStore [createdStore, executedStore]).sent =
      [{ RunID := 1, Content := "Executing: echo ok", Level := "info" },
       { RunID := 1, Content := "Step completed successfully", Level := "info" },
       { RunID := 1, Content := "Executing: echo hi", Level := "info" },
       { RunID := 1, Content := "Step completed successfully", Level := "info" }] ∧
    ¬ (streamLogs quietWire 1 7 createdStore [createdStore, executedStore]).sent.Nodup ∧
    (streamLogs quietWire 1 7 createdStore [createdStore, executedStore]).delivered.map
        (fun l => l.ID) = [1, 2, 3, 4] := by
  have h : (streamLogs quietWire 1 7 createdStore [createdStore, executedStore]).sent =
      [{ RunID := 1, Content := "Executing: echo ok", Level := "info" },
       { RunID := 1, Content := "Step completed successfully", Level := "info" },
       { RunID := 1, Content := "Executing: echo hi", Level := "info" },
       { RunID := 1, Content := "Step completed successfully", Level := "info" }] := rfl
  refine ⟨h, ?_, rfl⟩
  rw [h]
  decide

/-- C16 amended: one `streamLogs` subscription over any sequence of ticks, each
against a database whose primary keys are unique, on a log store that is
append-only with increasing ids.  The entries written to the consumer carry no
log id: each is the run id of the subscription with the content, level and
time stamp of a log row, job id and step id left zero.  Whatever fails on the
way, the rows of which the entries written are made have strictly increasing
ids (the entries are in the order of the ids and no row is written twice),
each is at one of the ticks a log of a step of a job of the run, the cursor is
0 or the greatest of their ids, and no log of the run at any of the ticks with
an id up to the cursor is missing among them: there is no gap.  When nothing
fails the rows are exactly the logs of the run at the last tick.  Every entry
written is a write that succeeded; at most one write fails, the last one
attempted, and it closes the subscription, which no later tick changes; a tick
whose query fails changes nothing either; and a tick on an open subscription
whose query and writes succeed writes the entry of every log of the run with
an id above the cursor. -/
theorem streamLogs_rows_ordered_without_gaps (wire : Wire) (runID userID : Nat) (s0 : Store)
    (ticks : List Store) (hu : ∀ s ∈ ticks, uniqueKeys s)
    (hgrow : List.Chain grows [] (ticks.map (fun s => runLogs s runID))) :
    (∃ rows : List Log,
      (streamLogs wire runID userID s0 ticks).sent =
        rows.map (fun l => ({ RunID := runID, JobID := 0, StepID := 0, Content := l.Content,
                              Level := l.Level, Timestamp := l.Timestamp } : LogEntry)) ∧
      (rows.map (fun l => l.ID)).Pairwise (fun a b => a < b) ∧
      (∀ l ∈ rows, ∃ s ∈ ticks, belongsToRun s runID l) ∧
      ((streamLogs wire runID userID s0 ticks).lastLogID = 0 ∨
        ∃ l ∈ rows, l.ID = (streamLogs wire runID userID s0 ticks).lastLogID) ∧
      (∀ l ∈ rows, l.ID ≤ (streamLogs wire runID userID s0 ticks).lastLogID) ∧
      (∀ s ∈ ticks, ∀ l, belongsToRun s runID l →
        l.ID ≤ (streamLogs wire runID userID s0 ticks).lastLogID → l ∈ rows) ∧
      (s0.firstRun runID userID ≠ none → wire.upgradeFails = false →
        (∀ k, wire.queryFails k = false) → (∀ n, wire.writeFails n = false) →
        ∀ last, ticks.getLast? = some last → ∀ l, l ∈ rows ↔ belongsToRun last runID l)) ∧
    (∀ n, n < (streamLogs wire runID userID s0 ticks).sent.length →
      wire.writeFails n = false) ∧
    ((streamLogs wire runID userID s0 ticks).writes =
        (streamLogs wire runID userID s0 ticks).sent.length ∨
      ((streamLogs wire runID userID s0 ticks).writes =
          (streamLogs wire runID userID s0 ticks).sent.length + 1 ∧
        wire.writeFails (streamLogs wire runID userID s0 ticks).sent.length = true ∧
        (streamLogs wire runID userID s0 ticks).closed = true)) ∧
    (∀ (k : Nat) (s : Store) (st : Subscription), st.closed = true →
      poll wire runID k s st = st) ∧
    (∀ (k : Nat) (s : Store) (st : Subscription), wire.queryFails k = true →
      poll wire runID k s st = st) ∧
    (∀ (k : Nat) (s : Store) (st : Subscription), st.closed = false →
      wire.queryFails k = false → (∀ n, wire.writeFails n = false) →
      ∀ l, belongsToRun s runID l → st.lastLogID < l.ID →
        ({ RunID := runID, JobID := 0, StepID := 0, Content := l.Content, Level := l.Level,
           Timestamp := l.Timestamp } : LogEntry) ∈ (poll wire runID k s st).sent) := by
  obtain ⟨t1, t2, t3, t4, t5, t6, t7, _⟩ := streamLogs_tracks wire runID userID s0 ticks hu hgrow
  have hsub := chain_grows_subset [] (ticks.map (fun s => runLogs s runID)) hgrow
  refine ⟨⟨(streamLogs wire runID userID s0 ticks).delivered, ?_, t2.1, ?_, t3, t2.2, ?_, ?_⟩,
    t6, t7, ?_, ?_, ?_⟩
  · rw [t1]
    rfl
  · intro l hl
    have hfin := t4 l hl
    rw [List.getLast?_map] at hfin
    cases hlast : ticks.getLast? with
    | none => rw [hlast] at hfin; simp at hfin
    | some last =>
      rw [hlast] at hfin
      simp only [Option.map_some', Option.getD_some] at hfin
      exact ⟨last, List.mem_of_getLast?_eq_some hlast, (mem_runLogs last runID l).1 hfin⟩
  · intro s hs l hl hle
    apply t5 l _ hle
    exact hsub.2 (runLogs s runID) (List.mem_map_of_mem _ hs) l ((mem_runLogs s runID l).2 hl)
  · intro hfound hup hq hw last hlast l
    have hord0 : ordered ({ } : Subscription) :=
      ⟨List.Pairwise.nil, fun l hl => by simp at hl⟩
    have hanc0 : anchored ({ } : Subscription) := Or.inl rfl
    unfold streamLogs
    cases hfr : s0.firstRun runID userID with
    | none => exact absurd hfr hfound
    | some r =>
      simp only [hup, Bool.false_eq_true, if_false]
      rw [polls_complete wire runID hq hw ticks 0 { } [] hu rfl hanc0 hord0
        (fun x => by simp) hgrow l, List.getLast?_map, hlast]
      exact mem_runLogs last runID l
  · intro k s st hc
    unfold poll
    rw [if_pos hc]
  · intro k s st hq
    unfold poll
    rw [if_pos hq]
    simp
  · intro k s st hopen hq hw l hl hgt
    unfold poll
    simp only [hopen, hq, Bool.false_eq_true, if_false]
    obtain ⟨pre, suf, h1, _, h3, _, _, h6⟩ :=
      writeLogs_split wire runID (logsQuery s runID st.lastLogID) st
    have hsuf : suf = [] := by
      rcases h6 with ⟨g, _⟩ | ⟨_, g, _⟩
      · exact g
      · rw [hw] at g
        cases g
    rw [hsuf, List.append_nil] at h1
    rw [h3, ← h1]
    apply List.mem_append_right
    exact List.mem_map.2 ⟨l,
      (mem_logsQuery s runID st.lastLogID l).2 ⟨(mem_runLogs s runID l).2 hl, hgt⟩, rfl⟩

/-- C16 amended, at two subscriptions to the sample run.  Over two ticks,
before and after the execution of the run, on a connection on which nothing
fails, the four log rows of the run are written by ascending id.  On a
connection whose first query and third write fail, over three ticks, the
second tick writes the rows 1 and 2 and is closed by the failed write, and the
third tick writes nothing. -/
theorem streamLogs_rows_ordered_without_gaps_witness :
    ((streamLogs quietWire 1 7 createdStore [createdStore, executedStore]).delivered.map
        (fun l => (l.ID, l.Content)) =
      [(1, "Executing: echo ok"), (2, "Step completed successfully"),
       (3, "Executing: echo hi"), (4, "Step completed successfully")] ∧
      ∃ rows : List Log,
        (streamLogs quietWire 1 7 createdStore [createdStore, executedStore]).sent =
          rows.map (fun l => ({ RunID := 1, JobID := 0, StepID := 0, Content := l.Content,
                                Level := l.Level, Timestamp := l.Timestamp } : LogEntry)) ∧
        (rows.map (fun l => l.ID)).Pairwise (fun a b => a < b) ∧
        ∀ l, l ∈ rows ↔ belongsToRun executedStore 1 l) ∧
    ((streamLogs lossyWire 1 7 createdStore [createdStore, executedStore, executedStore]).sent =
        [{ RunID := 1, Content := "Executing: echo ok", Level := "info" },
         { RunID := 1, Content := "Step completed successfully", Level := "info" }] ∧
      (streamLogs lossyWire 1 7 createdStore
        [createdStore, executedStore, executedStore]).lastLogID = 2 ∧
      (streamLogs lossyWire 1 7 createdStore
        [createdStore, executedStore, executedStore]).closed = true ∧
      ∃ rows : List Log,
        (streamLogs lossyWire 1 7 createdStore [createdStore, executedStore, executedStore]).sent =
          rows.map (fun l => ({ RunID := 1, JobID := 0, StepID := 0, Content := l.Content,
                                Level := l.Level, Timestamp := l.Timestamp } : LogEntry)) ∧
        (rows.map (fun l => l.ID)).Pairwise (fun a b => a < b) ∧
        ∀ s ∈ [createdStore, executedStore, executedStore], ∀ l, belongsToRun s 1 l →
          l.ID ≤ (streamLogs lossyWire 1 7 createdStore
            [createdStore, executedStore, executedStore]).lastLogID → l ∈ rows) :=
  have hu2 : ∀ s ∈ [createdStore, executedStore], uniqueKeys s := by
    intro s hs
    simp only [List.mem_cons, List.mem_singleton, List.not_mem_nil, or_false] at hs
    rcases hs with rfl | rfl
    · exact ⟨by decide, by decide, by decide⟩
    · exact ⟨by decide, by decide, by decide⟩
  have hu3 : ∀ s ∈ [createdStore, executedStore, executedStore], uniqueKeys s := by
    intro s hs
    simp only [List.mem_cons, List.mem_singleton, List.not_mem_nil, or_false] at hs
    rcases hs with rfl | rfl | rfl
    · exact ⟨by decide, by decide, by decide⟩
    · exact ⟨by decide, by decide, by decide⟩
    · exact ⟨by decide, by decide, by decide⟩
  have hgrow2 : List.Chain grows []
      ([createdStore, executedStore].map (fun s => runLogs s 1)) :=
    List.Chain.cons ⟨runLogs createdStore 1, rfl, by decide⟩
      (List.Chain.cons ⟨runLogs executedStore 1, rfl, by decide⟩ List.Chain.nil)
  have hgrow3 : List.Chain grows []
      ([createdStore, executedStore, executedStore].map (fun s => runLogs s 1)) :=
    List.Chain.cons ⟨runLogs createdStore 1, rfl, by decide⟩
      (List.Chain.cons ⟨runLogs executedStore 1, rfl, by decide⟩
        (List.Chain.cons ⟨[], by simp, by decide⟩ List.Chain.nil))
  have h2 := streamLogs_rows_ordered_without_gaps quietWire 1 7 createdStore
    [createdStore, executedStore] hu2 hgrow2
  have h3 := streamLogs_rows_ordered_without_gaps lossyWire 1 7 createdStore
    [createdStore, executedStore, executedStore] hu3 hgrow3
  ⟨⟨rfl, h2.1.imp (fun _ hr =>
      ⟨hr.1, hr.2.1,
        hr.2.2.2.2.2.2 (by decide) rfl (fun _ => rfl) (fun _ => rfl) executedStore rfl⟩)⟩,
    ⟨rfl, rfl, rfl, h3.1.imp (fun _ hr => ⟨hr.1, hr.2.1, hr.2.2.2.2.2.1⟩)⟩⟩

/-- C18: the code at the failing input.  A runner registers with the tags
linux and shell; the entry stored is online and has the name and the version
of the request, and its tags are empty, as they are for a request without
tags. -/
theorem registerRunner_drops_tags :
    (∃ s1 r, registerRunner sampleEnv
        (.ok { Name := "relayforge-runner", Version := "1.0.0", Tags := ["linux", "shell"] })
        sampleStore = (s1, Reply.runner 201 r) ∧
      s1.runners = [r] ∧ r.Status = "online" ∧ r.Name = "relayforge-runner" ∧
      r.Version = "1.0.0" ∧ r.Tags = "") ∧
    registerRunner sampleEnv
        (.ok { Name := "relayforge-runner", Version := "1.0.0", Tags := ["linux", "shell"] })
        sampleStore =
      registerRunner sampleEnv
        (.ok { Name := "relayforge-runner", Version := "1.0.0", Tags := [] }) sampleStore :=
  ⟨⟨_, _, rfl, rfl, rfl, rfl, rfl, rfl⟩, rfl⟩

/-! ## The Authorization header -/

theorem bearer_length : bearer.length = 7 := rfl

theorem bearerToken_eq (header : List Nat) :
    bearerToken header =
      if bearer <+: header ∧ 7 < header.length then header.drop 7 else header := by
  have hiff : (bearer <+: header) ↔ header.take 7 = bearer := by
    rw [List.prefix_iff_eq_take, bearer_length]
    exact eq_comm
  unfold bearerToken
  by_cases h : bearer <+: header ∧ 7 < header.length
  · rw [if_pos h]
    have h1 : header.take 7 = bearer := hiff.1 h.1
    simp [h1, h.2]
  · rw [if_neg h]
    by_cases hlen : 7 < header.length
    · have h1 : header.take 7 ≠ bearer := fun h2 => h ⟨hiff.2 h2, hlen⟩
      simp [h1]
    · simp [hlen]

theorem authMiddleware_calls (validate : List Nat → Except String User) (header : List Nat)
    (hne : header ≠ []) : (authMiddleware validate header).1 = [bearerToken header] := by
  unfold authMiddleware
  rw [if_neg hne]
  dsimp only
  cases validate (bearerToken header) <;> rfl

/-- C21: for a non-empty value of the Authorization header, `authMiddleware`
calls the validation once, with the value without its first 7 bytes if the
value starts with "Bearer " and is longer than 7 bytes, and with the value
unchanged otherwise; what is cut off is "Bearer ", the token handed over is
never empty, and the value that is exactly "Bearer " is validated as it is.
An empty value is answered with 401 without any call of the validation. -/
theorem authMiddleware_token (validate : List Nat → Except String User) (header : List Nat)
    (hne : header ≠ []) :
    (authMiddleware validate header).1 =
      [if bearer <+: header ∧ 7 < header.length then header.drop 7 else header] ∧
    (bearer <+: header ∧ 7 < header.length →
      bearer ++ header.drop 7 = header ∧ header.drop 7 ≠ []) ∧
    (∀ token ∈ (authMiddleware validate header).1, token ≠ []) ∧
    (authMiddleware validate bearer).1 = [bearer] ∧
    authMiddleware validate [] = ([], Admission.abort 401 "Missing authorization token") := by
  have hcut : bearer <+: header ∧ 7 < header.length →
      bearer ++ header.drop 7 = header ∧ header.drop 7 ≠ [] := by
    intro h
    constructor
    · have := List.prefix_iff_eq_append.1 h.1
      rwa [bearer_length] at this
    · intro h0
      have hlen := List.length_drop 7 header
      rw [h0] at hlen
      simp only [List.length_nil] at hlen
      omega
  refine ⟨?_, hcut, ?_, ?_, rfl⟩
  · rw [authMiddleware_calls validate header hne, bearerToken_eq]
  · intro token htoken
    rw [authMiddleware_calls validate header hne, bearerToken_eq, List.mem_singleton] at htoken
    by_cases h : bearer <+: header ∧ 7 < header.length
    · rw [if_pos h] at htoken
      rw [htoken]
      exact (hcut h).2
    · rw [if_neg h] at htoken
      rw [htoken]
      exact hne
  · rw [authMiddleware_calls validate bearer (by decide)]
    rfl

/-- C21, at the header `Bearer abc`: the validation is called with `abc` and
the request goes on as user 7. -/
theorem authMiddleware_token_witness :
    authMiddleware sampleValidate (ascii "Bearer abc") =
      ([ascii "abc"], Admission.next { ID := 7, Username := "octocat" }) ∧
    (authMiddleware sampleValidate (ascii "Bearer abc")).1 =
      [if bearer <+: ascii "Bearer abc" ∧ 7 < (ascii "Bearer abc").length
        then (ascii "Bearer abc").drop 7 else ascii "Bearer abc"] ∧
    (∀ token ∈ (authMiddleware sampleValidate (ascii "Bearer abc")).1, token ≠ []) ∧
    (authMiddleware sampleValidate bearer).1 = [bearer] ∧
    authMiddleware sampleValidate [] =
      ([], Admission.abort 401 "Missing authorization token") :=
  have h := authMiddleware_token sampleValidate (ascii "Bearer abc") (by decide)
  ⟨rfl, h.1, h.2.2.1, h.2.2.2.1, h.2.2.2.2⟩

end RelayForge
